import Mathlib

/-!
Verification of the Backlog-Core file-backed task store.

This development shallowly embeds the parts of the `@backlog-md/core`
TypeScript package that the checked claims are about:

* the task / milestone markdown codec (`src/markdown`),
* the path / filename conventions,
* the config parser (`src/core/config-parser`),
* the sorting and milestone-grouping utilities (`src/utils`),
* the `Core` entity store (`src/core/Core.ts`) over an in-memory model of
  the `FileSystemAdapter` interface.

Strings are processed as `List Char` so that the JavaScript regular
expressions used by the source can be rendered as explicit, provable
scanning functions.  JavaScript `Array.prototype.sort` (a stable sort) is
modelled as a stable insertion sort by the same comparator; `localeCompare`
on the plain-ASCII data handled here is modelled as code-point
lexicographic comparison; the ambient clock (`new Date()`) is modelled as
an explicit `today` field of the store state; IEEE-754 arithmetic in the
milestone progress computation is modelled as exact rational arithmetic
with `Math.round x = ⌊x + 1/2⌋`.
-/

namespace BacklogCore

/-! ## Character-list string helpers -/

/-- Strings are processed as lists of characters. -/
abbrev Str := List Char

/-- Shorthand for the character data of a string literal. -/
def str (s : String) : Str := s.data

/-- JavaScript whitespace (the characters relevant to this code base). -/
def jsWS (c : Char) : Bool :=
  c = ' ' || c = '\t' || c = '\n' || c = '\r' || c = '\x0b' || c = '\x0c'

/-- JavaScript `String.prototype.trim`. -/
def trimJs (l : Str) : Str :=
  ((l.dropWhile jsWS).reverse.dropWhile jsWS).reverse

/-- JavaScript `String.prototype.toLowerCase` (ASCII fragment). -/
def toLowerJs (l : Str) : Str := l.map Char.toLower

/-- Tests whether `l` starts with the pattern `p`. -/
def leadsWith : Str → Str → Bool
  | [], _ => true
  | _ :: _, [] => false
  | p :: ps, c :: cs => p = c && leadsWith ps cs

/-- Tests whether `l` ends with the pattern `p` (JavaScript `endsWith`). -/
def trailsWith (p l : Str) : Bool := leadsWith p.reverse l.reverse

/-- Tests whether `p` occurs as a contiguous substring of `l`
(JavaScript `String.prototype.includes`). -/
def containsSub (p : Str) : Str → Bool
  | [] => leadsWith p []
  | c :: cs => leadsWith p (c :: cs) || containsSub p cs

/-- Splits a character list at every occurrence of the character `sep`
(JavaScript `String.prototype.split` with a one-character separator). -/
def splitOnChar (sep : Char) : Str → List Str
  | [] => [[]]
  | c :: cs =>
    if c = sep then [] :: splitOnChar sep cs
    else
      match splitOnChar sep cs with
      | [] => [[c]]
      | p :: ps => (c :: p) :: ps

/-- The lines of a character list (split at newline characters). -/
def linesOf (l : Str) : List Str := splitOnChar '\n' l

/-- Joins character lists with the character `sep` between them. -/
def joinWith (sep : Char) : List Str → Str
  | [] => []
  | [l] => l
  | l :: ls => l ++ sep :: joinWith sep ls

/-- Joins lines with newline characters (inverse of `linesOf`). -/
def joinLines (ls : List Str) : Str := joinWith '\n' ls

/-- Splits a list at the first occurrence of the pattern `sep`, returning
the part before the occurrence and the part after it. -/
def splitFirst (sep : Str) : Str → Option (Str × Str)
  | [] => if leadsWith sep [] then some ([], []) else none
  | c :: cs =>
    if leadsWith sep (c :: cs) then some ([], (c :: cs).drop sep.length)
    else
      match splitFirst sep cs with
      | some (a, b) => some (c :: a, b)
      | none => none

/-- Decimal digit test (JavaScript `\d`). -/
def isDig (c : Char) : Bool := '0' ≤ c && c ≤ '9'

/-- JavaScript `\w` word characters. -/
def isWordChar (c : Char) : Bool :=
  ('a' ≤ c && c ≤ 'z') || ('A' ≤ c && c ≤ 'Z') || isDig c || c = '_'

/-- Numeric value of a list of decimal digits. -/
def digitsToNat (l : Str) : Nat :=
  l.foldl (fun acc c => 10 * acc + (c.toNat - '0'.toNat)) 0

/-- Removes every non-digit character (JavaScript `replace(/\D/g, "")`). -/
def stripNonDigits (l : Str) : Str := l.filter isDig

/-- JavaScript `parseInt(value, 10)` restricted to the base-10 grammar:
optional leading whitespace, optional sign, then a maximal digit run.
A value with no leading digits is `NaN`, modelled as `none`.  (A stored
`NaN` is modelled the same way as an absent value; no claim depends on
the difference.) -/
def jsParseInt (l : Str) : Option Int :=
  let l₁ := l.dropWhile jsWS
  let signed : Bool × Str :=
    match l₁ with
    | '-' :: rest => (true, rest)
    | '+' :: rest => (false, rest)
    | _ => (false, l₁)
  let digits := signed.2.takeWhile isDig
  if digits.isEmpty then none
  else if signed.1 then some (-(digitsToNat digits : Int))
  else some (digitsToNat digits)

/-- Fuel-driven decimal printer core (structural recursion keeps it
kernel-computable). -/
def natDigitsAux : Nat → Nat → Str
  | 0, _ => []
  | fuel + 1, n =>
    if n < 10 then [Nat.digitChar n]
    else natDigitsAux fuel (n / 10) ++ [Nat.digitChar (n % 10)]

/-- Decimal digit characters of a natural number, most significant
first. -/
def natDigits (n : Nat) : Str := natDigitsAux (n + 1) n

/-- JavaScript `String(n)` for a natural number. -/
def jsNatToString (n : Nat) : String := String.mk (natDigits n)

/-- Code-point lexicographic three-way comparison, the model used for
`localeCompare` on the ASCII data handled by this code base. -/
def lexCmp : Str → Str → Int
  | [], [] => 0
  | [], _ :: _ => -1
  | _ :: _, [] => 1
  | a :: as, b :: bs =>
    if a.toNat < b.toNat then -1
    else if b.toNat < a.toNat then 1
    else lexCmp as bs

/-- Model of `Math.round` on exact rationals: round half toward plus
infinity. -/
def jsRound (q : ℚ) : Int := ⌊q + 1 / 2⌋

/-- Keeps the first occurrence of every element, dropping later
duplicates. -/
def dedupKeep [DecidableEq α] : List α → List α
  | [] => []
  | a :: as => a :: (dedupKeep as).filter (· ≠ a)

/-- Joins character lists with the separator `sep` between them
(JavaScript `Array.prototype.join`). -/
def joinSep (sep : Str) : List Str → Str
  | [] => []
  | [l] => l
  | l :: ls => l ++ sep ++ joinSep sep ls

/-- Decimal rendering of an integer (JavaScript `String(n)`). -/
def jsIntToStr (i : Int) : Str :=
  if i < 0 then '-' :: natDigits i.natAbs else natDigits i.natAbs

/-! ## Data model (`src/types`) -/

/-- The task priority union type `"high" | "medium" | "low"`. -/
inductive Priority
  | high
  | medium
  | low
deriving Repr, DecidableEq

/-- The literal string of a priority value. -/
def priorityStr : Priority → Str
  | .high => str "high"
  | .medium => str "medium"
  | .low => str "low"

/-- Structured acceptance criterion (`AcceptanceCriterion`). -/
structure AcceptanceCriterion where
  index : Nat
  text : String
  checked : Bool
deriving Repr, DecidableEq

/-- The `Task` entity.  Optional TypeScript fields become `Option`;
`source` keeps its string representation
(`"local" | "remote" | "completed" | "local-branch"`). -/
structure Task where
  id : String
  title : String
  status : String
  assignee : List String := []
  reporter : Option String := none
  createdDate : String
  updatedDate : Option String := none
  labels : List String := []
  milestone : Option String := none
  dependencies : List String := []
  references : Option (List String) := none
  rawContent : Option String := none
  description : Option String := none
  implementationPlan : Option String := none
  implementationNotes : Option String := none
  acceptanceCriteriaItems : Option (List AcceptanceCriterion) := none
  parentTaskId : Option String := none
  subtasks : Option (List String) := none
  priority : Option Priority := none
  branch : Option String := none
  ordinal : Option Int := none
  filePath : Option String := none
  source : Option String := none
deriving Repr, DecidableEq

/-- Parsed frontmatter of a task markdown file (`TaskFrontmatter`). -/
structure TaskFrontmatter where
  status : Option String := none
  priority : Option Priority := none
  assignee : Option (List String) := none
  reporter : Option String := none
  labels : Option (List String) := none
  milestone : Option String := none
  dependencies : Option (List String) := none
  parentTaskId : Option String := none
  subtasks : Option (List String) := none
  branch : Option String := none
  ordinal : Option Int := none
  createdDate : Option String := none
  updatedDate : Option String := none
deriving Repr, DecidableEq

/-- The `Milestone` entity. -/
structure Milestone where
  id : String
  title : String
  description : String
  rawContent : String
  tasks : List String
deriving Repr, DecidableEq

/-- Parsed frontmatter of a milestone markdown file. -/
structure MilestoneFrontmatter where
  id : Option String := none
  title : Option String := none
  tasks : Option (List String) := none
deriving Repr, DecidableEq

/-- Lightweight task index entry for lazy loading (`TaskIndexEntry`);
`source` is `"tasks"` or `"completed"`. -/
structure TaskIndexEntry where
  id : String
  filePath : String
  title : String
  source : String
deriving Repr, DecidableEq

/-! ## Markdown codec (`src/markdown`) -/

/-- JavaScript line terminators (the characters relevant to this code
base). -/
def jsLineTerm (c : Char) : Bool := c = '\n' || c = '\r'

/-- Matches a frontmatter line against `^(\w+):\s*(.+)$`, returning the
key and the raw captured value.  The maximal word-character run must be
directly followed by a colon; the value capture is nonempty.  `.` does
not match line terminators and the unflagged `$` only matches at the end
of the input, so when the remainder after the maximal `\s*` run contains
a line terminator no split of `\s*` against `(.+)` can succeed (every
candidate capture still holds the terminator) and the line is skipped.
For an all-whitespace remainder greedy backtracking of `\s*` against
`(.+)` yields the final character as the capture, unless that character
is itself a line terminator. -/
def matchKeyValue (line : Str) : Option (Str × Str) :=
  let key := line.takeWhile isWordChar
  if key.isEmpty then none
  else
    match line.drop key.length with
    | ':' :: rest =>
      if rest.isEmpty then none
      else
        let stripped := rest.dropWhile jsWS
        if stripped.isEmpty then
          match rest.reverse with
          | [] => none
          | c :: _ => if jsLineTerm c then none else some (key, [c])
        else if stripped.any jsLineTerm then none
        else some (key, stripped)
    | _ => none

/-- The `parseArrayValue` helper: strip one leading `[` and one trailing
`]`, trim, then split on commas, trim the pieces and drop empty ones. -/
def parseArrayValue (value : Str) : List String :=
  let v₁ := match value with
    | '[' :: rest => rest
    | _ => value
  let v₂ := match v₁.reverse with
    | ']' :: rest => rest.reverse
    | _ => v₁
  let cleaned := trimJs v₂
  if cleaned.isEmpty then []
  else ((splitOnChar ',' cleaned).map (fun s => String.mk (trimJs s))).filter (· ≠ "")

/-- The unchecked cast `value.trim() as "high" | "medium" | "low"` of the
source, decoded into the declared union type.  A string outside the
declared union escapes the TypeScript type and is not representable in
the model; it is mapped to `none`. -/
def priorityOfStr (v : Str) : Option Priority :=
  if v = str "high" then some .high
  else if v = str "medium" then some .medium
  else if v = str "low" then some .low
  else none

/-- One step of `parseFrontmatter`: apply a single frontmatter line. -/
def applyTaskFmLine (fm : TaskFrontmatter) (line : Str) : TaskFrontmatter :=
  match matchKeyValue line with
  | none => fm
  | some (key, value) =>
    let k := String.mk key
    if k = "status" then { fm with status := some (String.mk (trimJs value)) }
    else if k = "priority" then { fm with priority := priorityOfStr (trimJs value) }
    else if k = "ordinal" then { fm with ordinal := jsParseInt (trimJs value) }
    else if k = "reporter" then { fm with reporter := some (String.mk (trimJs value)) }
    else if k = "milestone" then { fm with milestone := some (String.mk (trimJs value)) }
    else if k = "parentTaskId" then { fm with parentTaskId := some (String.mk (trimJs value)) }
    else if k = "branch" then { fm with branch := some (String.mk (trimJs value)) }
    else if k = "createdDate" then { fm with createdDate := some (String.mk (trimJs value)) }
    else if k = "updatedDate" then { fm with updatedDate := some (String.mk (trimJs value)) }
    else if k = "assignee" then { fm with assignee := some (parseArrayValue value) }
    else if k = "labels" then { fm with labels := some (parseArrayValue value) }
    else if k = "dependencies" then { fm with dependencies := some (parseArrayValue value) }
    else if k = "subtasks" then { fm with subtasks := some (parseArrayValue value) }
    else fm

/-- The `parseFrontmatter` helper: process the raw frontmatter block line
by line. -/
def parseFrontmatter (raw : Str) : TaskFrontmatter :=
  (linesOf raw).foldl applyTaskFmLine {}

/-- Matches a checkbox line against `^-\s*\[([ xX])\]\s*(.+)$`, returning
the checked flag and the trimmed text. -/
def matchCheckboxLine (line : Str) : Option (Bool × Str) :=
  match line with
  | '-' :: rest =>
    match rest.dropWhile jsWS with
    | '[' :: m :: ']' :: tail =>
      if (m = ' ' || m = 'x' || m = 'X') && ¬ tail.isEmpty then
        some (m.toLower = 'x', trimJs tail)
      else none
    | _ => none
  | _ => none

/-- Assigns sequential 1-based indices to scanned checkbox items. -/
def numberCriteria : List (Bool × Str) → Nat → List AcceptanceCriterion
  | [], _ => []
  | (chk, txt) :: rest, i => ⟨i, String.mk txt, chk⟩ :: numberCriteria rest (i + 1)

/-- The `parseAcceptanceCriteria` helper: scan every line of the body for
checkbox items, in document order. -/
def parseAcceptanceCriteria (content : Str) : List AcceptanceCriterion :=
  numberCriteria ((linesOf content).filterMap matchCheckboxLine) 1

/-- Matches a line against the title pattern `^#\s+(.+)$` and returns the
trimmed capture. -/
def matchH1 (line : Str) : Option Str :=
  match line with
  | '#' :: rest =>
    match rest with
    | c :: _ :: _ => if jsWS c then some (trimJs rest) else none
    | _ => none
  | _ => none

/-- Blanks (empties) the first line satisfying `p`, keeping the line
count — the model of `replace` with a whole-line match and the `m`
flag. -/
def blankFirst (p : Str → Bool) : List Str → List Str
  | [] => []
  | l :: ls => if p l then [] :: ls else l :: blankFirst p ls

/-- Whether a line matches the title-removal pattern
`^#\s+{title}\s*$` for a trimmed, nonempty `title`. -/
def lineIsTitle (title line : Str) : Bool :=
  match line with
  | '#' :: rest =>
    let after := rest.dropWhile jsWS
    (¬ (rest.takeWhile jsWS).isEmpty) && leadsWith title after &&
      (after.drop title.length).all jsWS
  | _ => false

/-- Whether a line starts a known section: the section-removal patterns
`^##\s+{word}[\s\S]*?(?=^##|$)` of `extractDescription`.  With the `m`
flag the `$` in the lookahead matches at the end of the heading line, so
the lazy body capture is empty and the match covers exactly the heading
line. -/
def lineIsSection (word line : Str) : Bool :=
  match line with
  | '#' :: '#' :: rest =>
    (¬ (rest.takeWhile jsWS).isEmpty) && leadsWith word (rest.dropWhile jsWS)
  | _ => false

/-- The `extractDescription` helper: blank the title line and the first
heading line of each known section, then trim what remains. -/
def extractDescription (content title : Str) : Str :=
  let ls := linesOf content
  let ls₁ := if title.isEmpty then ls else blankFirst (lineIsTitle title) ls
  let ls₂ := blankFirst (lineIsSection (str "Acceptance Criteria")) ls₁
  let ls₃ := blankFirst (lineIsSection (str "Implementation Plan")) ls₂
  let ls₄ := blankFirst (lineIsSection (str "Implementation Notes")) ls₃
  trimJs (joinLines ls₄)

/-- Splits content into the raw frontmatter block and the remainder,
following `^---\n([\s\S]*?)\n---\n`: the content must start with
`---\n`, and the lazy group ends at the earliest later `\n---\n`. -/
def splitFrontmatter (content : Str) : Option (Str × Str) :=
  if leadsWith (str "---\n") content then
    splitFirst (str "\n---\n") (content.drop 4)
  else none

/-- Result of `parseMarkdownContent`. -/
structure ParsedTaskBody where
  frontmatter : TaskFrontmatter
  title : Str
  rawContent : Str
  description : Str
  acceptanceCriteria : List AcceptanceCriterion

/-- The `parseMarkdownContent` helper. -/
def parseMarkdownContent (content : Str) : ParsedTaskBody :=
  let fmSplit := splitFrontmatter content
  let fm := match fmSplit with
    | some (raw, _) => parseFrontmatter raw
    | none => {}
  let remaining := match fmSplit with
    | some (_, rest) => rest
    | none => content
  let title := ((linesOf remaining).findSome? matchH1).getD []
  { frontmatter := fm
    title := title
    rawContent := trimJs remaining
    description := extractDescription remaining title
    acceptanceCriteria := parseAcceptanceCriteria remaining }

/-- Last path segment: `filePath.split("/").pop() || ""`. -/
def lastPathSegment (path : Str) : Str := ((splitOnChar '/' path).reverse).headD []

/-- Strips a trailing `.md` (the `replace(/\.md$/, "")` fallback). -/
def stripMdSuffix (l : Str) : Str :=
  if trailsWith (str ".md") l then l.take (l.length - 3) else l

/-- Whether the remainder continues with `\s*-`, i.e. optional whitespace
then a dash. -/
def wsDashNext (l : Str) : Bool :=
  match l.dropWhile jsWS with
  | '-' :: _ => true
  | _ => false

/-- The id part of the filename pattern `(\d+(?:\.\d+)?)\s*-`, matched at
the start of `l`. -/
def idStem (l : Str) : Option Str :=
  let d₁ := l.takeWhile isDig
  if d₁.isEmpty then none
  else
    match l.drop d₁.length with
    | '.' :: r₂ =>
      let d₂ := r₂.takeWhile isDig
      if d₂.isEmpty then none
      else if wsDashNext (r₂.drop d₂.length) then some (d₁ ++ '.' :: d₂) else none
    | rest => if wsDashNext rest then some d₁ else none

/-- Matches a filename against `^(?:task-)?(\d+(?:\.\d+)?)\s*-` and
returns the captured id. -/
def matchTaskId (fname : Str) : Option Str :=
  if leadsWith (str "task-") fname then idStem (fname.drop 5) else idStem fname

/-- The `extractIdFromPath` helper. -/
def extractIdFromPath (filePath : String) : String :=
  let filename := lastPathSegment filePath.data
  match matchTaskId filename with
  | some id => String.mk id
  | none => String.mk (stripMdSuffix filename)

/-- The remainder after `^(?:task-)?\d+(?:\.\d+)?\s*-` of a filename. -/
def afterIdDashGo (l : Str) : Option Str :=
  let d₁ := l.takeWhile isDig
  if d₁.isEmpty then none
  else
    match l.drop d₁.length with
    | '.' :: r₂ =>
      let d₂ := r₂.takeWhile isDig
      if d₂.isEmpty then none
      else
        match (r₂.drop d₂.length).dropWhile jsWS with
        | '-' :: t => some t
        | _ => none
    | rest =>
      match rest.dropWhile jsWS with
      | '-' :: t => some t
      | _ => none

/-- Matches a filename against
`^(?:task-)?\d+(?:\.\d+)?\s*-\s*(.+)\.md$` and returns the trimmed title
capture: after backtracking of `\s*` against the greedy `(.+)` and the
final `.trim()`, the title is the trim of the dash remainder minus the
`.md` suffix, and the capture needs at least one character. -/
def matchTaskTitle (fname : Str) : Option Str :=
  let rem := if leadsWith (str "task-") fname then afterIdDashGo (fname.drop 5)
    else afterIdDashGo fname
  match rem with
  | none => none
  | some rest =>
    if trailsWith (str ".md") rest && 4 ≤ rest.length then
      some (trimJs (rest.take (rest.length - 3)))
    else none

/-- The `extractTitleFromPath` helper. -/
def extractTitleFromPath (filePath : String) : String :=
  let filename := lastPathSegment filePath.data
  match matchTaskTitle filename with
  | some t => String.mk t
  | none => String.mk (stripMdSuffix filename)

/-- The `extractSourceFromPath` helper. -/
def extractSourceFromPath (filePath : String) : String :=
  if containsSub (str "/completed/") filePath.data ||
      containsSub (str "\\completed\\") filePath.data then "completed"
  else "tasks"

/-- The `extractTaskIndexFromPath` function. -/
def extractTaskIndexFromPath (filePath : String) : TaskIndexEntry :=
  { id := extractIdFromPath filePath
    filePath := filePath
    title := extractTitleFromPath filePath
    source := extractSourceFromPath filePath }

/-- JavaScript `x || d` on an optional string: falsy (absent or empty)
falls back to the default. -/
def orDefault (o : Option String) (d : String) : String :=
  match o with
  | some s => if s = "" then d else s
  | none => d

/-- The `parseTaskMarkdown` function.  The extra `today` argument models
the ambient clock `new Date().toISOString().split("T")[0]` used as the
`createdDate` fallback. -/
def parseTaskMarkdown (content filePath today : String) : Task :=
  let p := parseMarkdownContent content.data
  let id := extractIdFromPath filePath
  { id := id
    title := if p.title.isEmpty then "Task " ++ id else String.mk p.title
    status := orDefault p.frontmatter.status "backlog"
    priority := p.frontmatter.priority
    assignee := p.frontmatter.assignee.getD []
    reporter := p.frontmatter.reporter
    createdDate := orDefault p.frontmatter.createdDate today
    updatedDate := p.frontmatter.updatedDate
    labels := p.frontmatter.labels.getD []
    milestone := p.frontmatter.milestone
    dependencies := p.frontmatter.dependencies.getD []
    parentTaskId := p.frontmatter.parentTaskId
    subtasks := p.frontmatter.subtasks
    branch := p.frontmatter.branch
    ordinal := p.frontmatter.ordinal
    rawContent := some (String.mk p.rawContent)
    description := some (String.mk p.description)
    acceptanceCriteriaItems := some p.acceptanceCriteria
    filePath := some filePath }

/-- A frontmatter line for a truthy optional string field. -/
def optStrLine (key : Str) (v : Option String) : List Str :=
  match v with
  | some s => if s = "" then [] else [key ++ s.data]
  | none => []

/-- A frontmatter line for a nonempty list field, in bracketed form. -/
def listLine (key : Str) (l : List String) : List Str :=
  if l.isEmpty then []
  else [key ++ '[' :: (joinSep (str ", ") (l.map String.data) ++ str "]")]

/-- A rendered checkbox. -/
def checkboxOf (b : Bool) : Str := if b then str "[x]" else str "[ ]"

/-- A rendered acceptance criterion line. -/
def acLine (c : AcceptanceCriterion) : Str :=
  str "- " ++ checkboxOf c.checked ++ ' ' :: c.text.data

/-- The lines pushed by `serializeTaskMarkdown`. -/
def serializeTaskLines (task : Task) : List Str :=
  [str "---", str "status: " ++ task.status.data]
  ++ (match task.priority with
      | some p => [str "priority: " ++ priorityStr p]
      | none => [])
  ++ listLine (str "assignee: ") task.assignee
  ++ optStrLine (str "reporter: ") task.reporter
  ++ listLine (str "labels: ") task.labels
  ++ optStrLine (str "milestone: ") task.milestone
  ++ listLine (str "dependencies: ") task.dependencies
  ++ optStrLine (str "parentTaskId: ") task.parentTaskId
  ++ (match task.subtasks with
      | some l => listLine (str "subtasks: ") l
      | none => [])
  ++ optStrLine (str "branch: ") task.branch
  ++ (match task.ordinal with
      | some n => [str "ordinal: " ++ jsIntToStr n]
      | none => [])
  ++ (if task.createdDate = "" then [] else [str "createdDate: " ++ task.createdDate.data])
  ++ optStrLine (str "updatedDate: ") task.updatedDate
  ++ [str "---", [], str "# " ++ task.title.data, []]
  ++ (match task.description with
      | some d => if d = "" then [] else [d.data, []]
      | none => [])
  ++ (match task.acceptanceCriteriaItems with
      | some items =>
        if items.isEmpty then []
        else [str "## Acceptance Criteria", []] ++ items.map acLine ++ [[]]
      | none => [])
  ++ (match task.implementationPlan with
      | some p => if p = "" then [] else [str "## Implementation Plan", [], p.data, []]
      | none => [])
  ++ (match task.implementationNotes with
      | some p => if p = "" then [] else [str "## Implementation Notes", [], p.data, []]
      | none => [])

/-- The `serializeTaskMarkdown` function. -/
def serializeTaskMarkdown (task : Task) : String :=
  String.mk (joinLines (serializeTaskLines task))

/-! ## Milestone codec (`src/markdown`, milestone half) -/

/-- Strips one pair of matching surrounding quotes
(`slice(1, -1)` under the quote test of the source). -/
def quoteStrip (v : Str) : Str :=
  let both (q : Char) : Bool :=
    match v.head?, v.reverse.head? with
    | some a, some b => a = q && b = q
    | _, _ => false
  if both '"' || both '\'' then (v.drop 1).dropLast else v

/-- One step of `parseMilestoneFrontmatter`. -/
def applyMilestoneFmLine (fm : MilestoneFrontmatter) (line : Str) : MilestoneFrontmatter :=
  match matchKeyValue line with
  | none => fm
  | some (key, value) =>
    let k := String.mk key
    let cleanValue := quoteStrip (trimJs value)
    if k = "id" then { fm with id := some (String.mk cleanValue) }
    else if k = "title" then { fm with title := some (String.mk cleanValue) }
    else if k = "tasks" then
      if leadsWith (str "[") cleanValue && trailsWith (str "]") cleanValue then
        let items := (((splitOnChar ',' ((cleanValue.drop 1).dropLast)).map
          (fun s => String.mk (trimJs s))).filter (· ≠ ""))
        { fm with tasks := some items }
      else fm
    else fm

/-- The `parseMilestoneFrontmatter` helper. -/
def parseMilestoneFrontmatter (raw : Str) : MilestoneFrontmatter :=
  (linesOf raw).foldl applyMilestoneFmLine {}

/-- Normalizes Windows line endings (`replace(/\r\n/g, "\n")`). -/
def replaceCrLf : Str → Str
  | [] => []
  | '\r' :: '\n' :: rest => '\n' :: replaceCrLf rest
  | c :: rest => c :: replaceCrLf rest

/-- Scanning core of `extractSection`: searches anywhere in the content
for the case-insensitive header pattern, then `\s*\n` (greedy, so the
body starts after the last newline of the whitespace run), then a lazy
body capture ending at the earliest `\n## ` or at the end of the
string; the capture is trimmed. -/
def sectionScan (pat : Str) : Str → Option Str
  | [] => none
  | c :: cs =>
    let l := c :: cs
    if leadsWith (toLowerJs pat) (toLowerJs l) then
      let rest := l.drop pat.length
      let wsRun := rest.takeWhile jsWS
      let afterLast := wsRun.reverse.takeWhile (· ≠ '\n')
      if afterLast.length = wsRun.length then sectionScan pat cs
      else
        let tail := rest.drop (wsRun.length - afterLast.length)
        match splitFirst (str "\n## ") tail with
        | some (a, _) => some (trimJs a)
        | none => some (trimJs tail)
    else sectionScan pat cs

/-- The `extractSection` helper of the milestone parser. -/
def extractSection (content sectionTitle : Str) : Option Str :=
  sectionScan (str "## " ++ sectionTitle) (replaceCrLf content)

/-- The `parseMilestoneMarkdown` function. -/
def parseMilestoneMarkdown (content : String) : Milestone :=
  let fmSplit := splitFrontmatter content.data
  let fm := match fmSplit with
    | some (raw, _) => parseMilestoneFrontmatter raw
    | none => {}
  let remaining := match fmSplit with
    | some (_, rest) => rest
    | none => content.data
  let rawContent := trimJs remaining
  { id := fm.id.getD ""
    title := fm.title.getD ""
    description := String.mk ((extractSection rawContent (str "Description")).getD [])
    rawContent := String.mk rawContent
    tasks := fm.tasks.getD [] }

/-- Escapes backslashes then double quotes in a milestone title
(the two sequential `replace` calls of the source). -/
def escapeQuotes (l : Str) : Str :=
  l.foldr
    (fun c acc =>
      if c = '\\' then '\\' :: '\\' :: acc
      else if c = '"' then '\\' :: '"' :: acc
      else c :: acc)
    []

/-- The lines pushed by `serializeMilestoneMarkdown`. -/
def serializeMilestoneLines (m : Milestone) : List Str :=
  [str "---",
   str "id: " ++ m.id.data,
   str "title: " ++ '"' :: (escapeQuotes m.title.data ++ ['"']),
   str "tasks: [" ++ (joinSep (str ", ") (m.tasks.map String.data) ++ str "]"),
   str "---",
   [],
   str "## Description",
   [],
   (if m.description = "" then str "Milestone: " ++ m.title.data else m.description.data),
   []]

/-- The `serializeMilestoneMarkdown` function. -/
def serializeMilestoneMarkdown (m : Milestone) : String :=
  String.mk (joinLines (serializeMilestoneLines m))

/-- Characters stripped from filenames (`[<>:"/\\|?*]`). -/
def badFileChar (c : Char) : Bool := (str "<>:\"/\\|?*").any (· = c)

/-- Collapses every maximal whitespace run to the single character `r`
(`replace(/\s+/g, ...)`); the flag records whether the previous
character was whitespace. -/
def collapseWs (r : Char) : Bool → Str → Str
  | _, [] => []
  | inWs, c :: cs =>
    if jsWS c then
      if inWs then collapseWs r true cs else r :: collapseWs r true cs
    else c :: collapseWs r false cs

/-- The `getMilestoneFilename` function. -/
def getMilestoneFilename (id title : String) : String :=
  let safeTitle := (toLowerJs (collapseWs '-' false
    (title.data.filter (fun c => ¬ badFileChar c)))).take 50
  String.mk (id.data ++ str " - " ++ safeTitle ++ str ".md")

/-- The filename sanitizer used for task files: strip unsafe characters,
collapse whitespace runs to single spaces, truncate to 50 characters. -/
def sanitizeTitleJs (title : String) : String :=
  String.mk ((collapseWs ' ' false (title.data.filter (fun c => ¬ badFileChar c))).take 50)

/-- The `extractMilestoneIdFromFilename` function (`^(m-\d+)`). -/
def extractMilestoneIdFromFilename (filename : String) : Option String :=
  match filename.data with
  | 'm' :: '-' :: rest =>
    let d := rest.takeWhile isDig
    if d.isEmpty then none else some (String.mk ('m' :: '-' :: d))
  | _ => none

/-! ## Config parser (`src/core/config-parser`) -/

/-- The `BacklogConfig` record.  Numeric fields parsed with `parseInt`
may be `NaN` in JavaScript; a `NaN` is modelled as an absent value (no
claim depends on the difference). -/
structure BacklogConfig where
  projectName : String
  statuses : List String
  labels : List String
  milestones : List String
  defaultStatus : Option String := none
  dateFormat : String
  defaultAssignee : Option String := none
  defaultReporter : Option String := none
  maxColumnWidth : Option Int := none
  taskResolutionStrategy : Option String := none
  defaultEditor : Option String := none
  autoOpenBrowser : Option Bool := none
  defaultPort : Option Int := none
  remoteOperations : Option Bool := none
  autoCommit : Option Bool := none
  zeroPaddedIds : Option Int := none
  timezonePreference : Option String := none
  includeDateTimeInDates : Option Bool := none
  bypassGitHooks : Option Bool := none
  checkActiveBranches : Option Bool := none
  activeBranchDays : Option Int := none
deriving Repr, DecidableEq

/-- Accumulator for `parseBacklogConfig` (the `Partial<BacklogConfig>`
being filled in). -/
structure ConfigAcc where
  projectName : Option String := none
  statuses : Option (List String) := none
  labels : Option (List String) := none
  milestones : Option (List String) := none
  defaultStatus : Option String := none
  dateFormat : Option String := none
  defaultAssignee : Option String := none
  defaultReporter : Option String := none
  maxColumnWidth : Option Int := none
  taskResolutionStrategy : Option String := none
  defaultEditor : Option String := none
  autoOpenBrowser : Option Bool := none
  defaultPort : Option Int := none
  remoteOperations : Option Bool := none
  autoCommit : Option Bool := none
  zeroPaddedIds : Option Int := none
  timezonePreference : Option String := none
  includeDateTimeInDates : Option Bool := none
  bypassGitHooks : Option Bool := none
  checkActiveBranches : Option Bool := none
  activeBranchDays : Option Int := none
deriving Repr, DecidableEq

/-- Removes every single and double quote (`replace(/['"]/g, "")`). -/
def stripQuotes (l : Str) : Str := l.filter (fun c => c ≠ '"' && c ≠ '\'')

/-- Parses a bracketed array config value into quote-stripped items. -/
def configArrayItems (value : Str) : List String :=
  (((splitOnChar ',' ((value.drop 1).dropLast)).map
      (fun s => String.mk (stripQuotes (trimJs s)))).filter (· ≠ ""))

/-- JavaScript `value.toLowerCase() === "true"`. -/
def boolOfValue (value : Str) : Bool := toLowerJs value = str "true"

/-- One line of `parseBacklogConfig`: split at the first colon, then
dispatch on the recognized key. -/
def applyConfigLine (acc : ConfigAcc) (line : Str) : ConfigAcc :=
  let trimmed := trimJs line
  if trimmed.isEmpty || leadsWith (str "#") trimmed then acc
  else
    match splitFirst (str ":") trimmed with
    | none => acc
    | some (rawKey, rawValue) =>
      let key := String.mk (trimJs rawKey)
      let value := trimJs rawValue
      if key = "project_name" then { acc with projectName := some (String.mk (stripQuotes value)) }
      else if key = "default_assignee" then
        { acc with defaultAssignee := some (String.mk (stripQuotes value)) }
      else if key = "default_reporter" then
        { acc with defaultReporter := some (String.mk (stripQuotes value)) }
      else if key = "default_status" then
        { acc with defaultStatus := some (String.mk (stripQuotes value)) }
      else if key = "statuses" then
        if leadsWith (str "[") value && trailsWith (str "]") value then
          { acc with statuses := some (configArrayItems value) }
        else acc
      else if key = "labels" then
        if leadsWith (str "[") value && trailsWith (str "]") value then
          { acc with labels := some (configArrayItems value) }
        else acc
      else if key = "milestones" then
        if leadsWith (str "[") value && trailsWith (str "]") value then
          { acc with milestones := some (configArrayItems value) }
        else acc
      else if key = "date_format" then
        { acc with dateFormat := some (String.mk (stripQuotes value)) }
      else if key = "max_column_width" then { acc with maxColumnWidth := jsParseInt value }
      else if key = "task_resolution_strategy" then
        { acc with taskResolutionStrategy := some (String.mk (stripQuotes value)) }
      else if key = "default_editor" then
        { acc with defaultEditor := some (String.mk (stripQuotes value)) }
      else if key = "auto_open_browser" then
        { acc with autoOpenBrowser := some (boolOfValue value) }
      else if key = "default_port" then { acc with defaultPort := jsParseInt value }
      else if key = "remote_operations" then
        { acc with remoteOperations := some (boolOfValue value) }
      else if key = "auto_commit" then { acc with autoCommit := some (boolOfValue value) }
      else if key = "zero_padded_ids" then { acc with zeroPaddedIds := jsParseInt value }
      else if key = "timezone_preference" then
        { acc with timezonePreference := some (String.mk (stripQuotes value)) }
      else if key = "include_date_time_in_dates" then
        { acc with includeDateTimeInDates := some (boolOfValue value) }
      else if key = "bypass_git_hooks" then
        { acc with bypassGitHooks := some (boolOfValue value) }
      else if key = "check_active_branches" then
        { acc with checkActiveBranches := some (boolOfValue value) }
      else if key = "active_branch_days" then
        { acc with activeBranchDays := jsParseInt value }
      else acc

/-- The default status list of the config parser. -/
def DEFAULT_STATUSES : List String := ["To Do", "In Progress", "Done"]

/-- The `parseBacklogConfig` function. -/
def parseBacklogConfig (content : String) : BacklogConfig :=
  let acc := (linesOf content.data).foldl applyConfigLine {}
  { projectName := orDefault acc.projectName "Backlog"
    statuses := match acc.statuses with
      | some l => l
      | none => DEFAULT_STATUSES
    labels := acc.labels.getD []
    milestones := acc.milestones.getD []
    defaultStatus := some (orDefault acc.defaultStatus "To Do")
    dateFormat := orDefault acc.dateFormat "YYYY-MM-DD"
    defaultAssignee := acc.defaultAssignee
    defaultReporter := acc.defaultReporter
    maxColumnWidth := acc.maxColumnWidth
    taskResolutionStrategy := acc.taskResolutionStrategy
    defaultEditor := acc.defaultEditor
    autoOpenBrowser := acc.autoOpenBrowser
    defaultPort := acc.defaultPort
    remoteOperations := acc.remoteOperations
    autoCommit := acc.autoCommit
    zeroPaddedIds := acc.zeroPaddedIds
    timezonePreference := acc.timezonePreference
    includeDateTimeInDates := acc.includeDateTimeInDates
    bypassGitHooks := acc.bypassGitHooks
    checkActiveBranches := acc.checkActiveBranches
    activeBranchDays := acc.activeBranchDays }

/-! ## Sorting utilities (`src/utils/sorting.ts`) -/

/-- The `PRIORITY_ORDER` record. -/
def PRIORITY_ORDER : Priority → Nat
  | .high => 0
  | .medium => 1
  | .low => 2

/-- The priority rank of the comparator
(`a.priority ? PRIORITY_ORDER[a.priority] : 3`). -/
def priRank (t : Task) : Nat :=
  match t.priority with
  | some p => PRIORITY_ORDER p
  | none => 3

/-- The comparator of `sortTasks`: ordinal, then priority
(high before medium before low before unset), then created date
descending. -/
def cmpTasks (a b : Task) : Int :=
  match a.ordinal, b.ordinal with
  | some x, some y => x - y
  | some _, none => -1
  | none, some _ => 1
  | none, none =>
    if priRank a ≠ priRank b then (priRank a : Int) - (priRank b : Int)
    else lexCmp b.createdDate.data a.createdDate.data

/-- Stable insertion used to model `Array.prototype.sort` (a stable
sort): an element goes after every earlier element that does not
strictly exceed it. -/
def jsSortInsert (cmp : α → α → Int) (x : α) : List α → List α
  | [] => [x]
  | y :: ys => if cmp x y < 0 then x :: y :: ys else y :: jsSortInsert cmp x ys

/-- Model of `[...l].sort(cmp)` as a stable insertion sort. -/
def jsSortBy (cmp : α → α → Int) (l : List α) : List α :=
  l.foldl (fun acc x => jsSortInsert cmp x acc) []

/-- The `sortTasks` function. -/
def sortTasks (tasks : List Task) : List Task := jsSortBy cmpTasks tasks

/-- The `sortTasksByTitle` function; `direction` is `"asc"` or
`"desc"`. -/
def sortTasksByTitle (tasks : List Task) (direction : String) : List Task :=
  jsSortBy
    (fun a b =>
      let cmp := lexCmp a.title.data b.title.data
      if direction = "asc" then cmp else -cmp)
    tasks

/-- The `sortTasksBy` function. -/
def sortTasksBy (tasks : List Task) (sortBy direction : String) : List Task :=
  if sortBy = "title" then sortTasksByTitle tasks direction
  else if sortBy = "createdDate" then
    jsSortBy
      (fun a b =>
        let cmp := lexCmp a.createdDate.data b.createdDate.data
        if direction = "asc" then cmp else -cmp)
      tasks
  else
    let sorted := sortTasks tasks
    if direction = "desc" then sorted.reverse else sorted

/-- Insert-or-replace semantics of `Map.prototype.set` on an
insertion-ordered association list. -/
def jsMapSet [DecidableEq κ] : List (κ × ν) → κ → ν → List (κ × ν)
  | [], k, v => [(k, v)]
  | (k', v') :: rest, k, v =>
    if k' = k then (k, v) :: rest else (k', v') :: jsMapSet rest k v

/-- Lookup semantics of `Map.prototype.get`. -/
def jsMapGet [DecidableEq κ] (m : List (κ × ν)) (k : κ) : Option ν :=
  (m.find? (fun e => decide (e.1 = k))).map (·.2)

/-- One grouping step of the status-grouping loops: append the task to
its status bucket, creating the entry when absent. -/
def groupStep (m : List (String × List Task)) (task : Task) : List (String × List Task) :=
  match jsMapGet m task.status with
  | some l => jsMapSet m task.status (l ++ [task])
  | none => jsMapSet m task.status [task]

/-- The `groupTasksByStatus` function: seed one entry per configured
status, append each task to its status bucket (creating entries for
unconfigured statuses), then sort every bucket canonically. -/
def groupTasksByStatus (tasks : List Task) (statuses : List String) :
    List (String × List Task) :=
  let seeded := statuses.foldl (fun m st => jsMapSet m st []) []
  let grouped := tasks.foldl groupStep seeded
  grouped.map (fun e => (e.1, sortTasks e.2))

/-! ## Milestone utilities (`src/utils`, milestone half) -/

/-- Key used for tasks without a milestone. -/
def NO_MILESTONE_KEY : String := "__none"

/-- The `normalizeMilestoneName` function. -/
def normalizeMilestoneName (name : String) : String := String.mk (trimJs name.data)

/-- The `milestoneKey` function. -/
def milestoneKey (name : Option String) : String :=
  String.mk (toLowerJs (trimJs (name.getD "").data))

/-- The `isDoneStatus` function: case-insensitive substring test for
`done` or `complete`. -/
def isDoneStatus (status : Option String) : Bool :=
  let normalized := toLowerJs (status.getD "").data
  containsSub (str "done") normalized || containsSub (str "complete") normalized

/-- The `getMilestoneLabel` function. -/
def getMilestoneLabel (milestoneId : Option String) (milestoneEntities : List Milestone) :
    String :=
  let falsy := match milestoneId with
    | none => true
    | some s => s = ""
  if falsy then "Tasks without milestone"
  else
    let mid := milestoneId.getD ""
    match milestoneEntities.find?
        (fun m => decide (milestoneKey (some m.id) = milestoneKey (some mid))) with
    | some entity => if entity.title = "" then mid else entity.title
    | none => mid

/-- One `addMilestone` step of the collectors; the accumulator is the
merged list together with the set of seen keys. -/
def addMilestoneStep (acc : List String × List String) (value : String) :
    List String × List String :=
  let normalized := normalizeMilestoneName value
  if normalized = "" then acc
  else
    let key := milestoneKey (some normalized)
    if key ∈ acc.2 then acc else (acc.1 ++ [normalized], acc.2 ++ [key])

/-- The `collectMilestoneIds` function (entities first, then task
references). -/
def collectMilestoneIds (tasks : List Task) (milestoneEntities : List Milestone) :
    List String :=
  let acc₀ := milestoneEntities.foldl (fun acc e => addMilestoneStep acc e.id) ([], [])
  (tasks.foldl (fun acc t => addMilestoneStep acc (t.milestone.getD "")) acc₀).1

/-- The `collectMilestones` function (config strings first, then task
references). -/
def collectMilestones (tasks : List Task) (configMilestones : List String) : List String :=
  let acc₀ := configMilestones.foldl addMilestoneStep ([], [])
  (tasks.foldl (fun acc t => addMilestoneStep acc (t.milestone.getD "")) acc₀).1

/-- A milestone bucket of the summary (`MilestoneBucket`). -/
structure MilestoneBucket where
  key : String
  label : String
  milestone : Option String
  isNoMilestone : Bool
  tasks : List Task
  statusCounts : List (String × Nat)
  total : Nat
  doneCount : Nat
  progress : Int
deriving Repr, DecidableEq

/-- The `createBucket` helper. -/
def createBucket (milestoneId : Option String) (tasks : List Task) (statuses : List String)
    (milestoneEntities : List Milestone) (isNoMilestone : Bool) : MilestoneBucket :=
  let bucketMilestoneKey := milestoneKey milestoneId
  let bucketTasks := tasks.filter fun task =>
    let taskMilestoneKey := milestoneKey task.milestone
    if bucketMilestoneKey ≠ "" then decide (taskMilestoneKey = bucketMilestoneKey)
    else decide (taskMilestoneKey = "")
  let counts₀ := statuses.foldl (fun m st => jsMapSet m st 0) []
  let counts := bucketTasks.foldl
    (fun m task => jsMapSet m task.status ((jsMapGet m task.status).getD 0 + 1)) counts₀
  let doneCount := (bucketTasks.filter fun t => isDoneStatus (some t.status)).length
  let progress : Int :=
    if 0 < bucketTasks.length then jsRound ((doneCount : ℚ) / (bucketTasks.length : ℚ) * 100)
    else 0
  { key := if bucketMilestoneKey ≠ "" then bucketMilestoneKey else NO_MILESTONE_KEY
    label := getMilestoneLabel milestoneId milestoneEntities
    milestone := milestoneId
    isNoMilestone := isNoMilestone
    tasks := bucketTasks
    statusCounts := counts
    total := bucketTasks.length
    doneCount := doneCount
    progress := progress }

/-- The `buildMilestoneBuckets` function: the no-milestone bucket first,
then one bucket per collected milestone id. -/
def buildMilestoneBuckets (tasks : List Task) (milestoneEntities : List Milestone)
    (statuses : List String) : List MilestoneBucket :=
  let allMilestoneIds := collectMilestoneIds tasks milestoneEntities
  createBucket none tasks statuses milestoneEntities true ::
    allMilestoneIds.map (fun m => createBucket (some m) tasks statuses milestoneEntities false)

/-- The `buildMilestoneBucketsFromConfig` function: wrap config strings
as minimal milestone entities. -/
def buildMilestoneBucketsFromConfig (tasks : List Task) (configMilestones : List String)
    (statuses : List String) : List MilestoneBucket :=
  let milestoneEntities : List Milestone := configMilestones.map fun id =>
    { id := id, title := id, description := "", rawContent := "", tasks := [] }
  buildMilestoneBuckets tasks milestoneEntities statuses

/-- The milestone summary (`MilestoneSummary`). -/
structure MilestoneSummary where
  milestones : List String
  buckets : List MilestoneBucket
deriving Repr, DecidableEq

/-- The `groupTasksByMilestone` function. -/
def groupTasksByMilestone (tasks : List Task) (configMilestones : List String)
    (statuses : List String) : MilestoneSummary :=
  { milestones := collectMilestones tasks configMilestones
    buckets := buildMilestoneBucketsFromConfig tasks configMilestones statuses }

/-! ## File-system adapter model

The store consumes an external `FileSystemAdapter` (spec section 6).  It
is modelled as an in-memory map from path strings to file contents (the
shape of the package's own `InMemoryFileSystemAdapter`), plus the list
of directories created explicitly; directories also exist implicitly as
prefixes of file paths.  Path joining concatenates with `/`. -/

/-- In-memory file system: insertion-ordered path-to-content map plus
explicitly created directories. -/
structure FS where
  files : List (String × String)
  dirs : List String
deriving Repr, DecidableEq

/-- The adapter's `join` on two segments. -/
def pathJoin (a b : String) : String := a ++ "/" ++ b

/-- Immediate child name of `path` inside directory `dir`, when `path`
lies below `dir`. -/
def childName (dir : String) (path : String) : Option String :=
  let pre := dir.data ++ str "/"
  if leadsWith pre path.data then
    some (String.mk ((path.data.drop pre.length).takeWhile (· ≠ '/')))
  else none

/-- Adapter `readFile`; `none` models a rejected read. -/
def FS.readFile (fs : FS) (p : String) : Option String :=
  (fs.files.find? (fun e => decide (e.1 = p))).map (·.2)

/-- Adapter `writeFile`: overwrite in place or append. -/
def FS.writeFile (fs : FS) (p c : String) : FS :=
  { fs with files := jsMapSet fs.files p c }

/-- Adapter `deleteFile` (total: deleting an absent file is the caught /
harmless case at every call site that can reach it). -/
def FS.deleteFile (fs : FS) (p : String) : FS :=
  { fs with files := fs.files.filter (fun e => decide (e.1 ≠ p)) }

/-- Adapter `createDir`. -/
def FS.createDir (fs : FS) (p : String) : FS :=
  { fs with dirs := if p ∈ fs.dirs then fs.dirs else fs.dirs ++ [p] }

/-- Adapter `readDir`: immediate child names (files and
subdirectories), first occurrence order. -/
def FS.readDir (fs : FS) (dir : String) : List String :=
  dedupKeep (fs.files.filterMap (fun e => childName dir e.1) ++
    fs.dirs.filterMap (childName dir))

/-- Adapter `exists`. -/
def FS.existsPath (fs : FS) (p : String) : Bool :=
  fs.files.any (fun e => decide (e.1 = p)) || decide (p ∈ fs.dirs) ||
    fs.files.any (fun e => leadsWith (p.data ++ str "/") e.1.data)

/-- Adapter `isDirectory`. -/
def FS.isDirectory (fs : FS) (p : String) : Bool :=
  decide (p ∈ fs.dirs) ||
    fs.files.any (fun e => leadsWith (p.data ++ str "/") e.1.data)

/-! ## The Core store (`src/core/Core.ts`) -/

/-- Pagination options (`PaginationOptions`). -/
structure PaginationOptions where
  limit : Option Nat := none
  offset : Option Nat := none
  sortBy : Option String := none
  sortDirection : Option String := none
deriving Repr, DecidableEq

/-- Paginated result wrapper (`PaginatedResult`). -/
structure PaginatedResult (α : Type) where
  items : List α
  total : Nat
  hasMore : Bool
  offset : Nat
  limit : Nat
deriving Repr, DecidableEq

/-- Paginated tasks grouped by status (`PaginatedTasksByStatus`). -/
structure PaginatedTasksByStatus where
  byStatus : List (String × PaginatedResult Task)
  statuses : List String
deriving Repr, DecidableEq

/-- Per-source pagination options (`SourcePaginationOptions`). -/
structure SourcePaginationOptions where
  tasksLimit : Option Nat := none
  completedLimit : Option Nat := none
  offset : Option Nat := none
  tasksSortDirection : Option String := none
  completedSortByIdDesc : Option Bool := none
deriving Repr, DecidableEq

/-- Paginated tasks grouped by source (`PaginatedTasksBySource`). -/
structure PaginatedTasksBySource where
  bySource : List (String × PaginatedResult Task)
  sources : List String
deriving Repr, DecidableEq

/-- Task list filter (`TaskListFilter`).  The `milestone` field is not
declared on the TypeScript interface but is read by `listTasks` and
`applyFilters`; it is included because the runtime object may carry
it. -/
structure TaskListFilter where
  status : Option String := none
  assignee : Option String := none
  priority : Option Priority := none
  parentTaskId : Option String := none
  labels : Option (List String) := none
  milestone : Option String := none
  pagination : Option PaginationOptions := none
deriving Repr, DecidableEq

/-- Acceptance criterion input (`AcceptanceCriterionInput`). -/
structure AcceptanceCriterionInput where
  text : String
  checked : Option Bool := none
deriving Repr, DecidableEq

/-- Task creation input (`TaskCreateInput`).  The `milestone` and
`references` fields are not declared on the TypeScript interface but
are read by `createTask`; they are included because the runtime object
may carry them. -/
structure TaskCreateInput where
  title : String
  description : Option String := none
  status : Option String := none
  priority : Option Priority := none
  labels : Option (List String) := none
  assignee : Option (List String) := none
  dependencies : Option (List String) := none
  parentTaskId : Option String := none
  implementationPlan : Option String := none
  implementationNotes : Option String := none
  acceptanceCriteria : Option (List AcceptanceCriterionInput) := none
  rawContent : Option String := none
  milestone : Option String := none
  references : Option (List String) := none
deriving Repr, DecidableEq

/-- Task update input (`TaskUpdateInput`).  The `milestone` field
distinguishes absent (`none` = no change) from the explicit `null`
clear sentinel (`some none`); `references` and its add / remove
variants are read by `updateTask` though not declared on the
interface. -/
structure TaskUpdateInput where
  title : Option String := none
  description : Option String := none
  status : Option String := none
  priority : Option Priority := none
  labels : Option (List String) := none
  addLabels : Option (List String) := none
  removeLabels : Option (List String) := none
  assignee : Option (List String) := none
  ordinal : Option Int := none
  dependencies : Option (List String) := none
  addDependencies : Option (List String) := none
  removeDependencies : Option (List String) := none
  implementationPlan : Option String := none
  clearImplementationPlan : Option Bool := none
  implementationNotes : Option String := none
  clearImplementationNotes : Option Bool := none
  acceptanceCriteria : Option (List AcceptanceCriterionInput) := none
  rawContent : Option String := none
  milestone : Option (Option String) := none
  references : Option (List String) := none
  addReferences : Option (List String) := none
  removeReferences : Option (List String) := none
deriving Repr, DecidableEq

/-- Milestone creation input (`MilestoneCreateInput`). -/
structure MilestoneCreateInput where
  title : String
  description : Option String := none
deriving Repr, DecidableEq

/-- Milestone update input (`MilestoneUpdateInput`). -/
structure MilestoneUpdateInput where
  title : Option String := none
  description : Option String := none
deriving Repr, DecidableEq

/-- The mutable state of a `Core` instance.  `today` models the ambient
clock `new Date().toISOString().split("T")[0]`. -/
structure CoreState where
  projectRoot : String
  fs : FS
  config : Option BacklogConfig := none
  tasks : List (String × Task) := []
  initialized : Bool := false
  taskIndex : List (String × TaskIndexEntry) := []
  lazyInitialized : Bool := false
  today : String
deriving Repr, DecidableEq

/-- The `Core` constructor: a fresh, uninitialized store. -/
def mkCore (projectRoot : String) (fs : FS) (today : String) : CoreState :=
  { projectRoot := projectRoot, fs := fs, today := today }

/-- The path of `backlog/config.yml`. -/
def CoreState.configPath (s : CoreState) : String :=
  pathJoin (pathJoin s.projectRoot "backlog") "config.yml"

/-- The `getTasksDir` helper. -/
def CoreState.tasksDir (s : CoreState) : String :=
  pathJoin (pathJoin s.projectRoot "backlog") "tasks"

/-- The `getCompletedDir` helper. -/
def CoreState.completedDir (s : CoreState) : String :=
  pathJoin (pathJoin s.projectRoot "backlog") "completed"

/-- The `getMilestonesDir` helper. -/
def CoreState.milestonesDir (s : CoreState) : String :=
  pathJoin (pathJoin s.projectRoot "backlog") "milestones"

/-- The cast fallback for `safeConfig` (unreachable after
`ensureInitialized`). -/
def emptyConfig : BacklogConfig :=
  { projectName := "", statuses := [], labels := [], milestones := [], dateFormat := "" }

/-- The `safeConfig` accessor (`this.config as BacklogConfig`). -/
def CoreState.safeConfig (s : CoreState) : BacklogConfig := s.config.getD emptyConfig

namespace Core

/-- The not-initialized error message. -/
def notInitializedMsg : String :=
  "Core not initialized. Call initialize() or initializeLazy() first."

/-- The not-lazy-initialized error message. -/
def notLazyInitializedMsg : String :=
  "Core not lazy initialized. Call initializeLazy() first."

/-- The `ensureInitialized` guard. -/
def ensureInitialized (s : CoreState) : Except String Unit :=
  if (¬ s.initialized && ¬ s.lazyInitialized) || s.config.isNone then
    .error notInitializedMsg
  else .ok ()

/-- The `loadTasksFromDirectory` helper: scan one directory
non-recursively, skip subdirectories and non-markdown entries, parse
each file (a failed read is the caught, skipped case), stamp the
source, and store by id (later entries overwrite earlier ones). -/
def loadTasksFromDirectory (s : CoreState) (dir source : String) : CoreState :=
  (s.fs.readDir dir).foldl
    (fun st entry =>
      let fullPath := pathJoin dir entry
      if st.fs.isDirectory fullPath then st
      else if ¬ trailsWith (str ".md") entry.data then st
      else
        match st.fs.readFile fullPath with
        | none => st
        | some content =>
          let task := { parseTaskMarkdown content fullPath st.today with source := some source }
          { st with tasks := jsMapSet st.tasks task.id task })
    s

/-- The `initialize` method (named `initializeStore` here because `initialize` is reserved in Lean). -/
def initializeStore (s : CoreState) : Except String CoreState :=
  if s.initialized then .ok s
  else
    let configPath := s.configPath
    if ¬ s.fs.existsPath configPath then
      .error ("Not a Backlog.md project: config.yml not found at " ++ configPath)
    else
      match s.fs.readFile configPath with
      | none => .error ("readFile failed: " ++ configPath)
      | some configContent =>
        let s₁ := { s with config := some (parseBacklogConfig configContent) }
        let s₂ := if s₁.fs.existsPath s₁.tasksDir then
            loadTasksFromDirectory s₁ s₁.tasksDir "local"
          else s₁
        let s₃ := if s₂.fs.existsPath s₂.completedDir then
            loadTasksFromDirectory s₂ s₂.completedDir "completed"
          else s₂
        .ok { s₃ with initialized := true }

/-- One step of the `initializeLazy` index construction. -/
def lazyIndexStep (m : List (String × TaskIndexEntry)) (filePath : String) :
    List (String × TaskIndexEntry) :=
  if ¬ trailsWith (str ".md") filePath.data then m
  else
    let isTaskFile := containsSub (str "backlog/tasks/") filePath.data ||
      containsSub (str "backlog\\tasks\\") filePath.data
    let isCompletedFile := containsSub (str "backlog/completed/") filePath.data ||
      containsSub (str "backlog\\completed\\") filePath.data
    if ¬ isTaskFile && ¬ isCompletedFile then m
    else if trailsWith (str "config.yml") filePath.data then m
    else
      let indexEntry := extractTaskIndexFromPath filePath
      jsMapSet m indexEntry.id indexEntry

/-- The `initializeLazy` method. -/
def initializeLazy (s : CoreState) (filePaths : List String) : Except String CoreState :=
  if s.lazyInitialized then .ok s
  else
    let configPath := s.configPath
    if ¬ s.fs.existsPath configPath then
      .error ("Not a Backlog.md project: config.yml not found at " ++ configPath)
    else
      match s.fs.readFile configPath with
      | none => .error ("readFile failed: " ++ configPath)
      | some configContent =>
        let s₁ := { s with config := some (parseBacklogConfig configContent) }
        let idx := filePaths.foldl lazyIndexStep []
        .ok { s₁ with taskIndex := idx, lazyInitialized := true }

/-- The `getTaskIndex` method. -/
def getTaskIndex (s : CoreState) : Except String (List (String × TaskIndexEntry)) :=
  if ¬ s.lazyInitialized then .error notLazyInitializedMsg
  else .ok s.taskIndex

/-- The `loadTask` method: cache hit, else on-demand read through the
lazy index (a failed read is the caught case returning `undefined`). -/
def loadTask (s : CoreState) (id : String) : Option Task × CoreState :=
  match jsMapGet s.tasks id with
  | some t => (some t, s)
  | none =>
    match jsMapGet s.taskIndex id with
    | none => (none, s)
    | some indexEntry =>
      match s.fs.readFile indexEntry.filePath with
      | none => (none, s)
      | some content =>
        let task := { parseTaskMarkdown content indexEntry.filePath s.today with
          source := some (if indexEntry.source = "completed" then "completed" else "local") }
        (some task, { s with tasks := jsMapSet s.tasks task.id task })

/-- The `loadTasks` method.  The per-id loads of the source are
issued together but resolve independently against the same single-actor
store; the result keeps input order with failed loads omitted.  They
are modelled sequentially in input order. -/
def loadTasks (s : CoreState) (ids : List String) : List Task × CoreState :=
  let p := ids.foldl
    (fun (p : List (Option Task) × CoreState) id =>
      let r := loadTask p.2 id
      (p.1 ++ [r.1], r.2))
    ([], s)
  (p.1.filterMap (fun o => o), p.2)

/-- The `getConfig` method. -/
def getConfig (s : CoreState) : Except String BacklogConfig :=
  match ensureInitialized s with
  | .error e => .error e
  | .ok () => .ok s.safeConfig

/-- The `getTask` method. -/
def getTask (s : CoreState) (id : String) : Except String (Option Task) :=
  match ensureInitialized s with
  | .error e => .error e
  | .ok () => .ok (jsMapGet s.tasks id)

/-- JavaScript truthiness of an optional string. -/
def truthy (o : Option String) : Bool :=
  match o with
  | some s => ¬ s = ""
  | none => false

/-- The filter cascade shared by `listTasks` and `applyFilters`. -/
def applyFilters (tasks : List Task) (filter : Option TaskListFilter) : List Task :=
  match filter with
  | none => tasks
  | some f =>
    let tasks := match f.status with
      | some st => if st = "" then tasks else tasks.filter (fun t => decide (t.status = st))
      | none => tasks
    let tasks := match f.assignee with
      | some a => if a = "" then tasks else tasks.filter (fun t => decide (a ∈ t.assignee))
      | none => tasks
    let tasks := match f.priority with
      | some p => tasks.filter (fun t => decide (t.priority = some p))
      | none => tasks
    let tasks := match f.milestone with
      | some m =>
        if m = "" then tasks
        else
          let filterKey := milestoneKey (some m)
          tasks.filter (fun t => decide (milestoneKey t.milestone = filterKey))
      | none => tasks
    let tasks := match f.labels with
      | some ls =>
        if ls.isEmpty then tasks
        else tasks.filter (fun t => ls.any (fun label => decide (label ∈ t.labels)))
      | none => tasks
    match f.parentTaskId with
    | some p => if p = "" then tasks else tasks.filter (fun t => decide (t.parentTaskId = some p))
    | none => tasks

/-- The `listTasks` method. -/
def listTasks (s : CoreState) (filter : Option TaskListFilter) : Except String (List Task) :=
  match ensureInitialized s with
  | .error e => .error e
  | .ok () => .ok (sortTasks (applyFilters (s.tasks.map (·.2)) filter))

/-- The `getTasksByStatus` method. -/
def getTasksByStatus (s : CoreState) : Except String (List (String × List Task)) :=
  match ensureInitialized s with
  | .error e => .error e
  | .ok () => .ok (groupTasksByStatus (s.tasks.map (·.2)) s.safeConfig.statuses)

/-- The `getTasksByMilestone` method. -/
def getTasksByMilestone (s : CoreState) : Except String MilestoneSummary :=
  match ensureInitialized s with
  | .error e => .error e
  | .ok () =>
    .ok (groupTasksByMilestone (s.tasks.map (·.2)) s.safeConfig.milestones
      s.safeConfig.statuses)

/-- The `listTasksPaginated` method. -/
def listTasksPaginated (s : CoreState) (filter : Option TaskListFilter) :
    Except String (PaginatedResult Task) :=
  match ensureInitialized s with
  | .error e => .error e
  | .ok () =>
    let tasks := applyFilters (s.tasks.map (·.2)) filter
    let pagination := (filter.bind (·.pagination)).getD {}
    let sortBy := pagination.sortBy.getD "title"
    let sortDirection := pagination.sortDirection.getD "asc"
    let tasks := sortTasksBy tasks sortBy sortDirection
    let limit := pagination.limit.getD 10
    let offset := pagination.offset.getD 0
    let total := tasks.length
    .ok { items := (tasks.drop offset).take limit
          total := total
          hasMore := decide (offset + limit < total)
          offset := offset
          limit := limit }

/-- One status column of `getTasksByStatusPaginated`: sort the bucket,
then slice it. -/
def statusPageFor (allGrouped : List (String × List Task)) (sortBy sortDirection : String)
    (offset limit : Nat) (st : String) : PaginatedResult Task :=
  let tasks := sortTasksBy ((jsMapGet allGrouped st).getD []) sortBy sortDirection
  let total := tasks.length
  { items := (tasks.drop offset).take limit
    total := total
    hasMore := decide (offset + limit < total)
    offset := offset
    limit := limit }

/-- The `getTasksByStatusPaginated` method: group first (without
sorting), seeding the configured statuses, then paginate each
configured status column independently. -/
def getTasksByStatusPaginated (s : CoreState) (pagination : Option PaginationOptions) :
    Except String PaginatedTasksByStatus :=
  match ensureInitialized s with
  | .error e => .error e
  | .ok () =>
    let limit := (pagination.bind (·.limit)).getD 10
    let offset := (pagination.bind (·.offset)).getD 0
    let sortBy := (pagination.bind (·.sortBy)).getD "title"
    let sortDirection := (pagination.bind (·.sortDirection)).getD "asc"
    let seed := s.safeConfig.statuses.foldl (fun m st => jsMapSet m st []) []
    let allGrouped := s.tasks.foldl (fun m e => groupStep m e.2) seed
    let byStatus := s.safeConfig.statuses.foldl
      (fun m st => jsMapSet m st (statusPageFor allGrouped sortBy sortDirection offset limit st))
      []
    .ok { byStatus := byStatus, statuses := s.safeConfig.statuses }

/-- The `loadMoreForStatus` method. -/
def loadMoreForStatus (s : CoreState) (status : String) (currentOffset : Nat)
    (pagination : Option PaginationOptions) : Except String (PaginatedResult Task) :=
  match ensureInitialized s with
  | .error e => .error e
  | .ok () =>
    let limit := (pagination.bind (·.limit)).getD 10
    let sortBy := (pagination.bind (·.sortBy)).getD "title"
    let sortDirection := (pagination.bind (·.sortDirection)).getD "asc"
    let tasks := (s.tasks.map (·.2)).filter (fun t => decide (t.status = status))
    let tasks := sortTasksBy tasks sortBy sortDirection
    let total := tasks.length
    .ok { items := (tasks.drop currentOffset).take limit
          total := total
          hasMore := decide (currentOffset + limit < total)
          offset := currentOffset
          limit := limit }

/-- Numeric id sorting key of the source-paginated views
(`parseInt(id.replace(/\D/g, ""), 10) || 0`). -/
def entryIdNum (id : String) : Int := digitsToNat (stripNonDigits id.data)

/-- The `getTasksBySourcePaginated` method. -/
def getTasksBySourcePaginated (s : CoreState) (options : Option SourcePaginationOptions) :
    Except String (PaginatedTasksBySource × CoreState) :=
  if ¬ s.lazyInitialized then .error notLazyInitializedMsg
  else
    let tasksLimit := (options.bind (·.tasksLimit)).getD 10
    let completedLimit := (options.bind (·.completedLimit)).getD 10
    let offset := (options.bind (·.offset)).getD 0
    let tasksSortDirection := (options.bind (·.tasksSortDirection)).getD "asc"
    let completedSortByIdDesc := (options.bind (·.completedSortByIdDesc)).getD true
    let sources := ["tasks", "completed"]
    let p := sources.foldl
      (fun (p : List (String × PaginatedResult Task) × CoreState) source =>
        let st := p.2
        let entries := (st.taskIndex.map (·.2)).filter (fun e => decide (e.source = source))
        let limit := if source = "tasks" then tasksLimit else completedLimit
        let entries := jsSortBy
          (fun a b =>
            let aNum := entryIdNum a.id
            let bNum := entryIdNum b.id
            if source = "completed" then
              if completedSortByIdDesc then bNum - aNum else aNum - bNum
            else
              if tasksSortDirection = "desc" then bNum - aNum else aNum - bNum)
          entries
        let total := entries.length
        let pageEntries := (entries.drop offset).take limit
        let r := loadTasks st (pageEntries.map (·.id))
        (jsMapSet p.1 source
          { items := r.1
            total := total
            hasMore := decide (offset + limit < total)
            offset := offset
            limit := limit }, r.2))
      ([], s)
    .ok ({ bySource := p.1, sources := sources }, p.2)

/-- The `loadMoreForSource` method. -/
def loadMoreForSource (s : CoreState) (source : String) (currentOffset : Nat)
    (options : Option SourcePaginationOptions) :
    Except String (PaginatedResult Task × CoreState) :=
  if ¬ s.lazyInitialized then .error notLazyInitializedMsg
  else
    let limit := (options.bind (·.tasksLimit)).getD 10
    let sortDirection := (options.bind (·.tasksSortDirection)).getD "asc"
    let completedSortByIdDesc := (options.bind (·.completedSortByIdDesc)).getD true
    let entries := (s.taskIndex.map (·.2)).filter (fun e => decide (e.source = source))
    let entries := jsSortBy
      (fun a b =>
        let aNum := entryIdNum a.id
        let bNum := entryIdNum b.id
        if source = "completed" then
          if completedSortByIdDesc then bNum - aNum else aNum - bNum
        else
          if sortDirection = "desc" then bNum - aNum else aNum - bNum)
      entries
    let total := entries.length
    let pageEntries := (entries.drop currentOffset).take limit
    let r := loadTasks s (pageEntries.map (·.id))
    .ok ({ items := r.1
           total := total
           hasMore := decide (currentOffset + limit < total)
           offset := currentOffset
           limit := limit }, r.2)

/-- Numeric-aware string comparison, the model of
`localeCompare(_, undefined, { numeric: true })` used to order listed
milestones: digit runs compare by value, other characters by code
point. -/
def cmpNumericAware : Str → Str → Int
  | [], [] => 0
  | [], _ :: _ => -1
  | _ :: _, [] => 1
  | x :: xs, y :: ys =>
    if isDig x && isDig y then
      let da := x :: xs.takeWhile isDig
      let db := y :: ys.takeWhile isDig
      let na := digitsToNat da
      let nb := digitsToNat db
      if na < nb then -1
      else if nb < na then 1
      else cmpNumericAware (xs.drop (xs.takeWhile isDig).length) (ys.drop (ys.takeWhile isDig).length)
    else if x.toNat < y.toNat then -1
    else if y.toNat < x.toNat then 1
    else cmpNumericAware xs ys
  termination_by a b => a.length + b.length
  decreasing_by
    · simp only [List.length_cons, List.length_drop]
      omega
    · simp only [List.length_cons]
      omega

/-- The `listMilestones` method: enumerate the milestones directory,
skipping non-markdown entries, `readme.md`, non-milestone filenames,
subdirectories and unreadable files, then sort by id. -/
def listMilestones (s : CoreState) : Except String (List Milestone) :=
  let milestonesDir := s.milestonesDir
  if ¬ s.fs.existsPath milestonesDir then .ok []
  else
    let milestones := (s.fs.readDir milestonesDir).foldl
      (fun acc entry =>
        if ¬ trailsWith (str ".md") entry.data then acc
        else if toLowerJs entry.data = str "readme.md" then acc
        else
          match extractMilestoneIdFromFilename entry with
          | none => acc
          | some _ =>
            let filepath := pathJoin milestonesDir entry
            if s.fs.isDirectory filepath then acc
            else
              match s.fs.readFile filepath with
              | none => acc
              | some content => acc ++ [parseMilestoneMarkdown content])
      []
    .ok (jsSortBy (fun a b => cmpNumericAware a.id.data b.id.data) milestones)

/-- The `loadMilestone` method: find the directory entry whose filename
id matches, then read and parse it (a failed read is the caught case
returning `null`). -/
def loadMilestone (s : CoreState) (id : String) : Option Milestone :=
  let milestonesDir := s.milestonesDir
  if ¬ s.fs.existsPath milestonesDir then none
  else
    match (s.fs.readDir milestonesDir).find?
        (fun entry => decide (extractMilestoneIdFromFilename entry = some id)) with
    | none => none
    | some milestoneFile =>
      match s.fs.readFile (pathJoin milestonesDir milestoneFile) with
      | none => none
      | some content => some (parseMilestoneMarkdown content)

/-- The `createMilestone` method. -/
def createMilestone (s : CoreState) (input : MilestoneCreateInput) :
    Milestone × CoreState :=
  let milestonesDir := s.milestonesDir
  let s₁ := { s with fs := s.fs.createDir milestonesDir }
  let entries := s₁.fs.readDir milestonesDir
  let existingIds := entries.filterMap fun f =>
    match f.data with
    | 'm' :: '-' :: rest =>
      let d := rest.takeWhile isDig
      if d.isEmpty then none else some (digitsToNat d)
    | _ => none
  let nextId := match existingIds with
    | [] => 0
    | _ => existingIds.foldl max 0 + 1
  let id := "m-" ++ jsNatToString nextId
  let description := match input.description with
    | some d => if d = "" then "Milestone: " ++ input.title else d
    | none => "Milestone: " ++ input.title
  let tempMilestone : Milestone :=
    { id := id, title := input.title, description := description, rawContent := "", tasks := [] }
  let content := serializeMilestoneMarkdown tempMilestone
  let milestone : Milestone := { tempMilestone with rawContent := content }
  let filename := getMilestoneFilename id input.title
  (milestone, { s₁ with fs := s₁.fs.writeFile (pathJoin milestonesDir filename) content })

/-- The `updateMilestone` method. -/
def updateMilestone (s : CoreState) (id : String) (input : MilestoneUpdateInput) :
    Option Milestone × CoreState :=
  match loadMilestone s id with
  | none => (none, s)
  | some existing =>
    let milestonesDir := s.milestonesDir
    let entries := s.fs.readDir milestonesDir
    match entries.find?
        (fun entry => decide (extractMilestoneIdFromFilename entry = some id)) with
    | none => (none, s)
    | some currentFile =>
      let newTitle := input.title.getD existing.title
      let newDescription := input.description.getD existing.description
      let tempMilestone : Milestone :=
        { id := existing.id, title := newTitle, description := newDescription,
          rawContent := "", tasks := existing.tasks }
      let content := serializeMilestoneMarkdown tempMilestone
      let updated : Milestone := { tempMilestone with rawContent := content }
      let fs₁ := s.fs.deleteFile (pathJoin milestonesDir currentFile)
      let newFilename := getMilestoneFilename id updated.title
      (some updated, { s with fs := fs₁.writeFile (pathJoin milestonesDir newFilename) content })

/-- The `deleteMilestone` method. -/
def deleteMilestone (s : CoreState) (id : String) : Bool × CoreState :=
  let milestonesDir := s.milestonesDir
  if ¬ s.fs.existsPath milestonesDir then (false, s)
  else
    match (s.fs.readDir milestonesDir).find?
        (fun entry => decide (extractMilestoneIdFromFilename entry = some id)) with
    | none => (false, s)
    | some milestoneFile =>
      (true, { s with fs := s.fs.deleteFile (pathJoin milestonesDir milestoneFile) })

/-- The `writeMilestoneFile` helper: delete the file currently carrying
the milestone's id (when any), then write a fresh file at the filename
derived from the current title. -/
def writeMilestoneFile (s : CoreState) (milestone : Milestone) : CoreState :=
  let milestonesDir := s.milestonesDir
  let entries := s.fs.readDir milestonesDir
  let fs₁ := match entries.find?
      (fun entry => decide (extractMilestoneIdFromFilename entry = some milestone.id)) with
    | some currentFile => s.fs.deleteFile (pathJoin milestonesDir currentFile)
    | none => s.fs
  let content := serializeMilestoneMarkdown milestone
  let filename := getMilestoneFilename milestone.id milestone.title
  { s with fs := fs₁.writeFile (pathJoin milestonesDir filename) content }

/-- The `addTaskToMilestone` helper. -/
def addTaskToMilestone (s : CoreState) (taskId milestoneId : String) : CoreState :=
  match loadMilestone s milestoneId with
  | none => s
  | some milestone =>
    if taskId ∈ milestone.tasks then s
    else writeMilestoneFile s { milestone with tasks := milestone.tasks ++ [taskId] }

/-- The `removeTaskFromMilestone` helper. -/
def removeTaskFromMilestone (s : CoreState) (taskId milestoneId : String) : CoreState :=
  match loadMilestone s milestoneId with
  | none => s
  | some milestone =>
    if taskId ∉ milestone.tasks then s
    else writeMilestoneFile s
      { milestone with tasks := milestone.tasks.filter (fun id => decide (id ≠ taskId)) }

/-- Acceptance criteria inputs numbered with 1-based indices
(`input.acceptanceCriteria?.map((ac, i) => ...)`). -/
def numberInputCriteria : List AcceptanceCriterionInput → Nat → List AcceptanceCriterion
  | [], _ => []
  | ac :: rest, i => ⟨i, ac.text, ac.checked.getD false⟩ :: numberInputCriteria rest (i + 1)

/-- The existing numeric ids considered by `createTask`
(`parseInt(id.replace(/\D/g, ""), 10)` with `NaN` filtered out). -/
def existingNumericIds (keys : List String) : List Nat :=
  keys.filterMap fun id =>
    let ds := stripNonDigits id.data
    if ds.isEmpty then none else some (digitsToNat ds)

/-- The next-id computation of `createTask`
(`existingIds.length > 0 ? Math.max(...existingIds) + 1 : 1`). -/
def nextTaskIdNum (keys : List String) : Nat :=
  match existingNumericIds keys with
  | [] => 1
  | l => l.foldl max 0 + 1

/-- The `createTask` method. -/
def createTask (s : CoreState) (input : TaskCreateInput) : Except String (Task × CoreState) :=
  match ensureInitialized s with
  | .error e => .error e
  | .ok () =>
    let tasksDir := s.tasksDir
    let s₁ := { s with fs := s.fs.createDir tasksDir }
    let keys := if s₁.lazyInitialized then s₁.taskIndex.map (·.1) else s₁.tasks.map (·.1)
    let taskId := jsNatToString (nextTaskIdNum keys)
    let configStatuses := match s₁.config with
      | some cfg => cfg.statuses
      | none => DEFAULT_STATUSES
    let defaultSt := match s₁.config.bind (·.defaultStatus) with
      | some d => if d = "" then "To Do" else d
      | none => "To Do"
    let status₀ := match input.status with
      | some st => if st = "" then defaultSt else st
      | none => defaultSt
    let status := if status₀ ∈ configStatuses then status₀ else defaultSt
    let task : Task :=
      { id := taskId
        title := input.title
        status := status
        priority := input.priority
        assignee := input.assignee.getD []
        createdDate := s₁.today
        labels := input.labels.getD []
        milestone := input.milestone
        dependencies := input.dependencies.getD []
        references := some (input.references.getD [])
        parentTaskId := input.parentTaskId
        description := input.description
        implementationPlan := input.implementationPlan
        implementationNotes := input.implementationNotes
        acceptanceCriteriaItems := input.acceptanceCriteria.map (numberInputCriteria · 1)
        rawContent := input.rawContent
        source := some "local" }
    let content := serializeTaskMarkdown task
    let filename := taskId ++ " - " ++ sanitizeTitleJs input.title ++ ".md"
    let filepath := pathJoin tasksDir filename
    let task₂ := { task with filePath := some filepath }
    let s₂ := { s₁ with fs := s₁.fs.writeFile filepath content
                        tasks := jsMapSet s₁.tasks taskId task₂ }
    let s₃ :=
      if s₂.lazyInitialized then
        let relativePath := match splitFirst (str (s₂.projectRoot ++ "/")) filepath.data with
          | some (a, b) => String.mk (a ++ b)
          | none => filepath
        let newEntry : TaskIndexEntry :=
          { id := taskId, filePath := relativePath, title := task.title, source := "tasks" }
        { s₂ with taskIndex := jsMapSet s₂.taskIndex taskId newEntry }
      else s₂
    let s₄ := match input.milestone with
      | some m => if m = "" then s₃ else addTaskToMilestone s₃ taskId m
      | none => s₃
    .ok (task₂, s₄)

/-- The field-merge stage of `updateTask` (everything before the file
rewrite). -/
def mergeTaskUpdate (existing : Task) (input : TaskUpdateInput)
    (newMilestone : Option String) (today : String) : Task :=
  let updated₁ : Task := { existing with
    title := input.title.getD existing.title
    status := input.status.getD existing.status
    priority := input.priority.or existing.priority
    milestone := newMilestone
    updatedDate := some today
    description := input.description.or existing.description
    implementationPlan :=
      if input.clearImplementationPlan.getD false then none
      else input.implementationPlan.or existing.implementationPlan
    implementationNotes :=
      if input.clearImplementationNotes.getD false then none
      else input.implementationNotes.or existing.implementationNotes
    ordinal := input.ordinal.or existing.ordinal
    dependencies := input.dependencies.getD existing.dependencies
    references := some (input.references.getD (existing.references.getD [])) }
  let updated₂ := match input.labels with
    | some ls => { updated₁ with labels := ls }
    | none =>
      let u := match input.addLabels with
        | some add => { updated₁ with labels := dedupKeep (updated₁.labels ++ add) }
        | none => updated₁
      match input.removeLabels with
      | some rem => { u with labels := u.labels.filter (fun l => decide (l ∉ rem)) }
      | none => u
  let updated₃ := match input.assignee with
    | some a => { updated₂ with assignee := a }
    | none => updated₂
  let updated₄ := match input.addDependencies with
    | some add => { updated₃ with dependencies := dedupKeep (updated₃.dependencies ++ add) }
    | none => updated₃
  let updated₅ := match input.removeDependencies with
    | some rem =>
      { updated₄ with dependencies := updated₄.dependencies.filter (fun d => decide (d ∉ rem)) }
    | none => updated₄
  let updated₆ := match input.addReferences with
    | some add =>
      { updated₅ with references := some (dedupKeep (updated₅.references.getD [] ++ add)) }
    | none => updated₅
  let updated₇ := match input.removeReferences with
    | some rem =>
      let refs := some ((updated₆.references.getD []).filter (fun r => decide (r ∉ rem)))
      { updated₆ with references := refs }
    | none => updated₆
  match input.acceptanceCriteria with
  | some acs => { updated₇ with acceptanceCriteriaItems := some (numberInputCriteria acs 1) }
  | none => updated₇

/-- The old-milestone removal half of `updateTask`'s milestone sync
(`if (oldMilestone) { await removeTaskFromMilestone(...) }`). -/
def milestoneRemovePhase (s₁ : CoreState) (id : String) (om : Option String) : CoreState :=
  match om with
  | some m => if m = "" then s₁ else removeTaskFromMilestone s₁ id m
  | none => s₁

/-- The milestone-sync block of `updateTask` (lines 1304-1315): when the
normalized milestone reference changed, remove the task id from the old
milestone file and add it to the new one. -/
def milestoneSyncPhase (s₁ : CoreState) (id : String) (om nm : Option String) : CoreState :=
  if milestoneKey om ≠ milestoneKey nm then
    let sa := milestoneRemovePhase s₁ id om
    match nm with
    | some m => if m = "" then sa else addTaskToMilestone sa id m
    | none => sa
  else s₁

/-- The `updateTask` method. -/
def updateTask (s : CoreState) (id : String) (input : TaskUpdateInput) :
    Except String (Option Task × CoreState) :=
  match ensureInitialized s with
  | .error e => .error e
  | .ok () =>
    match jsMapGet s.tasks id with
    | none => .ok (none, s)
    | some existing =>
      let oldMilestone := existing.milestone
      let newMilestone : Option String := match input.milestone with
        | some none => none
        | some (some m) => some m
        | none => oldMilestone
      let updated := mergeTaskUpdate existing input newMilestone s.today
      let content := serializeTaskMarkdown updated
      let fs₁ := match existing.filePath with
        | some fp => if fp = "" then s.fs else s.fs.deleteFile fp
        | none => s.fs
      let filename := id ++ " - " ++ sanitizeTitleJs updated.title ++ ".md"
      let filepath := pathJoin s.tasksDir filename
      let fs₂ := fs₁.writeFile filepath content
      let updated₂ := { updated with filePath := some filepath }
      let s₁ := { s with fs := fs₂, tasks := jsMapSet s.tasks id updated₂ }
      let s₂ := milestoneSyncPhase s₁ id oldMilestone newMilestone
      .ok (some updated₂, s₂)

/-- The `deleteTask` method. -/
def deleteTask (s : CoreState) (id : String) : Except String (Bool × CoreState) :=
  match ensureInitialized s with
  | .error e => .error e
  | .ok () =>
    match jsMapGet s.tasks id with
    | none => .ok (false, s)
    | some task =>
      let s₁ := match task.milestone with
        | some m => if m = "" then s else removeTaskFromMilestone s id m
        | none => s
      let fs₁ := match task.filePath with
        | some fp => if fp = "" then s₁.fs else s₁.fs.deleteFile fp
        | none => s₁.fs
      .ok (true, { s₁ with fs := fs₁, tasks := s₁.tasks.filter (fun e => decide (e.1 ≠ id)) })

/-- The `archiveTask` method. -/
def archiveTask (s : CoreState) (id : String) : Except String (Option Task × CoreState) :=
  match ensureInitialized s with
  | .error e => .error e
  | .ok () =>
    match jsMapGet s.tasks id with
    | none => .ok (none, s)
    | some task =>
      if task.source = some "completed" then .ok (none, s)
      else
        let completedDir := s.completedDir
        let s₁ := { s with fs := s.fs.createDir completedDir }
        let filename := id ++ " - " ++ sanitizeTitleJs task.title ++ ".md"
        let newFilepath := pathJoin completedDir filename
        let fs₁ := match task.filePath with
          | some fp => if fp = "" then s₁.fs else s₁.fs.deleteFile fp
          | none => s₁.fs
        let archived := { task with source := some "completed", filePath := some newFilepath }
        let fs₂ := fs₁.writeFile newFilepath (serializeTaskMarkdown archived)
        let s₂ := { s₁ with fs := fs₂, tasks := jsMapSet s₁.tasks id archived }
        let s₃ :=
          if s₂.lazyInitialized then
            match jsMapGet s₂.taskIndex id with
            | some entry =>
              let entry₂ := { entry with source := "completed", filePath := newFilepath }
              { s₂ with taskIndex := jsMapSet s₂.taskIndex id entry₂ }
            | none => s₂
          else s₂
        .ok (some archived, s₃)

/-- The `restoreTask` method. -/
def restoreTask (s : CoreState) (id : String) : Except String (Option Task × CoreState) :=
  match ensureInitialized s with
  | .error e => .error e
  | .ok () =>
    match jsMapGet s.tasks id with
    | none => .ok (none, s)
    | some task =>
      if ¬ task.source = some "completed" then .ok (none, s)
      else
        let tasksDir := s.tasksDir
        let s₁ := { s with fs := s.fs.createDir tasksDir }
        let filename := id ++ " - " ++ sanitizeTitleJs task.title ++ ".md"
        let newFilepath := pathJoin tasksDir filename
        let fs₁ := match task.filePath with
          | some fp => if fp = "" then s₁.fs else s₁.fs.deleteFile fp
          | none => s₁.fs
        let restored := { task with source := some "local", filePath := some newFilepath }
        let fs₂ := fs₁.writeFile newFilepath (serializeTaskMarkdown restored)
        let s₂ := { s₁ with fs := fs₂, tasks := jsMapSet s₁.tasks id restored }
        let s₃ :=
          if s₂.lazyInitialized then
            match jsMapGet s₂.taskIndex id with
            | some entry =>
              let entry₂ := { entry with source := "tasks", filePath := newFilepath }
              { s₂ with taskIndex := jsMapSet s₂.taskIndex id entry₂ }
            | none => s₂
          else s₂
        .ok (some restored, s₃)

/-- The `loadTasksByIds` method. -/
def loadTasksByIds (s : CoreState) (ids : List String) :
    Except String (List Task × CoreState) :=
  if s.initialized then .ok (ids.filterMap (jsMapGet s.tasks), s)
  else if s.lazyInitialized then .ok (loadTasks s ids)
  else .error notInitializedMsg

end Core

/-! ## Claim C1 — codec round trip -/

/-- A task in which only structured fields are set: a plain description
and one acceptance criterion, no stray body text. -/
def c1Task : Task :=
  { id := "1"
    title := "T"
    status := "todo"
    createdDate := "2024-01-01"
    description := some "desc"
    acceptanceCriteriaItems := some [⟨1, "a", false⟩] }

/-- C1: for a task carrying only structured fields (here a description
and one acceptance criterion), parsing the serializer's output
reproduces id, title, status, priority, assignee, labels, milestone,
dependencies, parentTaskId, ordinal, createdDate, updatedDate and
acceptanceCriteriaItems exactly — but not `description`: the
section-removal patterns of `extractDescription` blank only the heading
line (their lazy body capture ends at the first line end because `$` is
multiline), so the rendered acceptance-criteria lines leak back into the
parsed description, which comes out as `"desc\n\n\n\n- [ ] a"` instead
of `"desc"`.  This contradicts the round-trip contract the code
documents, so the claim is right and the code is wrong. -/
theorem c1_description_leaks_into_roundtrip :
    (parseTaskMarkdown (serializeTaskMarkdown c1Task) "1 - T.md" "2025-01-01").id = c1Task.id ∧
    (parseTaskMarkdown (serializeTaskMarkdown c1Task) "1 - T.md" "2025-01-01").title = c1Task.title ∧
    (parseTaskMarkdown (serializeTaskMarkdown c1Task) "1 - T.md" "2025-01-01").status = c1Task.status ∧
    (parseTaskMarkdown (serializeTaskMarkdown c1Task) "1 - T.md" "2025-01-01").priority = c1Task.priority ∧
    (parseTaskMarkdown (serializeTaskMarkdown c1Task) "1 - T.md" "2025-01-01").assignee = c1Task.assignee ∧
    (parseTaskMarkdown (serializeTaskMarkdown c1Task) "1 - T.md" "2025-01-01").labels = c1Task.labels ∧
    (parseTaskMarkdown (serializeTaskMarkdown c1Task) "1 - T.md" "2025-01-01").milestone = c1Task.milestone ∧
    (parseTaskMarkdown (serializeTaskMarkdown c1Task) "1 - T.md" "2025-01-01").dependencies = c1Task.dependencies ∧
    (parseTaskMarkdown (serializeTaskMarkdown c1Task) "1 - T.md" "2025-01-01").parentTaskId = c1Task.parentTaskId ∧
    (parseTaskMarkdown (serializeTaskMarkdown c1Task) "1 - T.md" "2025-01-01").ordinal = c1Task.ordinal ∧
    (parseTaskMarkdown (serializeTaskMarkdown c1Task) "1 - T.md" "2025-01-01").createdDate = c1Task.createdDate ∧
    (parseTaskMarkdown (serializeTaskMarkdown c1Task) "1 - T.md" "2025-01-01").updatedDate = c1Task.updatedDate ∧
    (parseTaskMarkdown (serializeTaskMarkdown c1Task) "1 - T.md" "2025-01-01").acceptanceCriteriaItems
      = c1Task.acceptanceCriteriaItems ∧
    (parseTaskMarkdown (serializeTaskMarkdown c1Task) "1 - T.md" "2025-01-01").description
      = some "desc\n\n\n\n- [ ] a" ∧
    c1Task.description = some "desc" := by
  decide

/-! ## Claim C3 — not-initialized guard -/

/-- A fresh store on which neither initialization has run. -/
def c3FreshStore : CoreState := mkCore "/r" { files := [], dirs := [] } "2025-01-02"

/-- C3 counterexample: `listMilestones`, a read operation of the public
milestone surface, called on a store on which neither `initialize()`
nor `initializeLazy()` has completed, does not fail with a
not-initialized error — it silently succeeds with empty data. -/
theorem c3_listMilestones_succeeds_uninitialized :
    Core.listMilestones c3FreshStore = .ok [] := by
  rfl

/-- C3 (amended): on a store on which neither initialization has
completed, every task-surface query and mutation — getConfig, getTask,
listTasks, getTasksByStatus, getTasksByMilestone, listTasksPaginated,
getTasksByStatusPaginated, loadMoreForStatus, createTask, updateTask,
deleteTask, archiveTask, restoreTask, loadTasksByIds — fails with the
not-initialized error, and the lazy-index operations (getTaskIndex,
getTasksBySourcePaginated, loadMoreForSource) fail with the
not-lazy-initialized error.  The milestone CRUD operations
(listMilestones, loadMilestone, createMilestone, updateMilestone,
deleteMilestone) and loadTask / loadTasks perform no initialization
check. -/
theorem c3_guarded_operations_fail (s : CoreState)
    (hinit : s.initialized = false) (hlazy : s.lazyInitialized = false) :
    Core.getConfig s = .error Core.notInitializedMsg ∧
    (∀ id, Core.getTask s id = .error Core.notInitializedMsg) ∧
    (∀ f, Core.listTasks s f = .error Core.notInitializedMsg) ∧
    Core.getTasksByStatus s = .error Core.notInitializedMsg ∧
    Core.getTasksByMilestone s = .error Core.notInitializedMsg ∧
    (∀ f, Core.listTasksPaginated s f = .error Core.notInitializedMsg) ∧
    (∀ p, Core.getTasksByStatusPaginated s p = .error Core.notInitializedMsg) ∧
    (∀ st off p, Core.loadMoreForStatus s st off p = .error Core.notInitializedMsg) ∧
    (∀ input, Core.createTask s input = .error Core.notInitializedMsg) ∧
    (∀ id input, Core.updateTask s id input = .error Core.notInitializedMsg) ∧
    (∀ id, Core.deleteTask s id = .error Core.notInitializedMsg) ∧
    (∀ id, Core.archiveTask s id = .error Core.notInitializedMsg) ∧
    (∀ id, Core.restoreTask s id = .error Core.notInitializedMsg) ∧
    (∀ ids, Core.loadTasksByIds s ids = .error Core.notInitializedMsg) ∧
    Core.getTaskIndex s = .error Core.notLazyInitializedMsg ∧
    (∀ o, Core.getTasksBySourcePaginated s o = .error Core.notLazyInitializedMsg) ∧
    (∀ src off o, Core.loadMoreForSource s src off o = .error Core.notLazyInitializedMsg) := by
  have hens : Core.ensureInitialized s = .error Core.notInitializedMsg := by
    simp [Core.ensureInitialized, hinit, hlazy]
  refine ⟨?_, ?_, ?_, ?_, ?_, ?_, ?_, ?_, ?_, ?_, ?_, ?_, ?_, ?_, ?_, ?_, ?_⟩ <;>
    intros <;>
    simp [Core.getConfig, Core.getTask, Core.listTasks, Core.getTasksByStatus,
      Core.getTasksByMilestone, Core.listTasksPaginated, Core.getTasksByStatusPaginated,
      Core.loadMoreForStatus, Core.createTask, Core.updateTask, Core.deleteTask,
      Core.archiveTask, Core.restoreTask, Core.loadTasksByIds, Core.getTaskIndex,
      Core.getTasksBySourcePaginated, Core.loadMoreForSource, hens, hinit, hlazy]

/-- C3 witness: the amended guard theorem applied to the fresh store. -/
theorem c3_guarded_operations_fail_witness :
    Core.getConfig c3FreshStore = .error Core.notInitializedMsg ∧
    Core.getTask c3FreshStore "1" = .error Core.notInitializedMsg :=
  let h := c3_guarded_operations_fail c3FreshStore rfl rfl
  ⟨h.1, h.2.1 "1"⟩

/-! ## Claim C6 — invalid status auto-correction -/

/-- C6: on a store configured with statuses To Do / In Progress / Done
and default status To Do, `createTask` with the invalid status
`not-a-real-status` does not fail, and the created task carries the
configured default status instead of the invalid input. -/
theorem c6_invalid_status_corrected (s : CoreState) (cfg : BacklogConfig)
    (hinit : s.initialized = true) (hcfg : s.config = some cfg)
    (hsts : cfg.statuses = ["To Do", "In Progress", "Done"])
    (hdef : cfg.defaultStatus = some "To Do")
    (input : TaskCreateInput) (hstatus : input.status = some "not-a-real-status") :
    ∃ t s', Core.createTask s input = .ok (t, s') ∧ t.status = "To Do" := by
  have hens : Core.ensureInitialized s = .ok () := by
    simp [Core.ensureInitialized, hinit, hcfg]
  simp only [Core.createTask, hens]
  refine ⟨_, _, rfl, ?_⟩
  simp [hcfg, hsts, hdef, hstatus]

/-- A concrete three-status configuration. -/
def threeStatusConfig : BacklogConfig :=
  { projectName := "P"
    statuses := ["To Do", "In Progress", "Done"]
    labels := []
    milestones := []
    defaultStatus := some "To Do"
    dateFormat := "YYYY-MM-DD" }

/-- A concrete initialized store with the three-status configuration. -/
def threeStatusStore : CoreState :=
  { projectRoot := "/r"
    fs := { files := [], dirs := [] }
    config := some threeStatusConfig
    initialized := true
    today := "2025-01-02" }

/-- C6 witness: a concrete configured store and concrete invalid-status
input. -/
theorem c6_invalid_status_corrected_witness :
    ∃ t s', Core.createTask threeStatusStore { title := "X", status := some "not-a-real-status" }
      = .ok (t, s') ∧ t.status = "To Do" :=
  c6_invalid_status_corrected threeStatusStore threeStatusConfig rfl rfl rfl rfl _ rfl

/-! ## Claim C5 — sequential id assignment

Supporting facts about the decimal rendering and the id scan. -/

theorem natDigitsAux_fuel (n : Nat) : ∀ f₁ f₂, n < f₁ → n < f₂ →
    natDigitsAux f₁ n = natDigitsAux f₂ n := by
  induction n using Nat.strong_induction_on with
  | _ n ih =>
    intro f₁ f₂ h₁ h₂
    match f₁, f₂, h₁, h₂ with
    | fa + 1, fb + 1, _, _ =>
      simp only [natDigitsAux]
      split
      · rfl
      · rename_i h10
        have hlt : n / 10 < n := Nat.div_lt_self (by omega) (by omega)
        rw [ih (n / 10) hlt fa fb (by omega) (by omega)]

/-- Unfolding step of the decimal printer. -/
theorem natDigits_step (n : Nat) :
    natDigits n
      = if n < 10 then [Nat.digitChar n]
        else natDigits (n / 10) ++ [Nat.digitChar (n % 10)] := by
  show natDigitsAux (n + 1) n = _
  rw [natDigitsAux]
  split
  · rfl
  · rename_i h10
    have hlt : n / 10 < n := Nat.div_lt_self (by omega) (by omega)
    rw [natDigitsAux_fuel (n / 10) n (n / 10 + 1) hlt (Nat.lt_succ_self _)]
    rfl

theorem natDigits_ne_nil (n : Nat) : natDigits n ≠ [] := by
  rw [natDigits_step]
  split <;> simp

theorem digitsToNat_append (l : Str) (c : Char) :
    digitsToNat (l ++ [c]) = 10 * digitsToNat l + (c.toNat - '0'.toNat) := by
  simp [digitsToNat, List.foldl_append]

theorem digitsToNat_natDigits (n : Nat) : digitsToNat (natDigits n) = n := by
  induction n using Nat.strong_induction_on with
  | _ n ih =>
    rw [natDigits_step]
    split
    · rename_i h
      show digitsToNat [Nat.digitChar n] = n
      interval_cases n <;> decide
    · rename_i h
      rw [digitsToNat_append, ih (n / 10) (Nat.div_lt_self (by omega) (by omega))]
      have h10 : n % 10 < 10 := Nat.mod_lt _ (by omega)
      have hd : (Nat.digitChar (n % 10)).toNat - '0'.toNat = n % 10 := by
        set m := n % 10 with hm
        interval_cases m <;> decide
      omega

theorem mem_natDigits_isDig (n : Nat) : ∀ c ∈ natDigits n, isDig c = true := by
  induction n using Nat.strong_induction_on with
  | _ n ih =>
    rw [natDigits_step]
    split
    · rename_i h
      intro c hc
      simp only [List.mem_singleton] at hc
      subst hc
      interval_cases n <;> decide
    · rename_i h
      intro c hc
      simp only [List.mem_append, List.mem_singleton] at hc
      rcases hc with hc | hc
      · exact ih (n / 10) (Nat.div_lt_self (by omega) (by omega)) c hc
      · subst hc
        have h10 : n % 10 < 10 := Nat.mod_lt _ (by omega)
        set m := n % 10 with hm
        interval_cases m <;> decide

theorem stripNonDigits_natDigits (n : Nat) : stripNonDigits (natDigits n) = natDigits n := by
  unfold stripNonDigits
  exact List.filter_eq_self.mpr (mem_natDigits_isDig n)

theorem jsNatToString_inj {a b : Nat} (h : jsNatToString a = jsNatToString b) : a = b := by
  have hd : natDigits a = natDigits b := congrArg String.data h
  calc a = digitsToNat (natDigits a) := (digitsToNat_natDigits a).symm
    _ = digitsToNat (natDigits b) := by rw [hd]
    _ = b := digitsToNat_natDigits b

theorem existingNumericIds_natStrings (l : List Nat) :
    Core.existingNumericIds (l.map jsNatToString) = l := by
  induction l with
  | nil => rfl
  | cons n l ih =>
    unfold Core.existingNumericIds at ih ⊢
    simp only [List.map_cons, List.filterMap_cons]
    have hne : (stripNonDigits (jsNatToString n).data).isEmpty = false := by
      show (stripNonDigits (natDigits n)).isEmpty = false
      rw [stripNonDigits_natDigits]
      simpa [List.isEmpty_iff] using natDigits_ne_nil n
    simp only [hne]
    show (some (digitsToNat (stripNonDigits (natDigits n)))).toList ++ _ = _
    rw [stripNonDigits_natDigits, digitsToNat_natDigits]
    simpa using ih

theorem foldl_max_map_succ_range (k : Nat) :
    (((List.range k).map (· + 1)).foldl max 0) = k := by
  induction k with
  | zero => rfl
  | succ k ih =>
    rw [List.range_succ]
    simp only [List.map_append, List.map_cons, List.map_nil, List.foldl_append, List.foldl_cons,
      List.foldl_nil, ih]
    omega

theorem jsMapSet_fst_of_not_mem [DecidableEq κ] (m : List (κ × ν)) (k : κ) (v : ν)
    (h : k ∉ m.map (·.1)) : (jsMapSet m k v).map (·.1) = m.map (·.1) ++ [k] := by
  induction m with
  | nil => rfl
  | cons e m ih =>
    simp only [List.map_cons, List.mem_cons, not_or] at h
    simp only [jsMapSet]
    rw [if_neg (fun he => h.1 he.symm)]
    simp only [List.map_cons, List.cons_append, List.cons.injEq, true_and]
    exact ih h.2

/-- State-stability of writeMilestoneFile: only the file system
changes. -/
theorem writeMilestoneFile_eq (s : CoreState) (m : Milestone) :
    Core.writeMilestoneFile s m = { s with fs := (Core.writeMilestoneFile s m).fs } := rfl

/-- State-stability of addTaskToMilestone: only the file system
changes. -/
theorem addTaskToMilestone_eq (s : CoreState) (a b : String) :
    Core.addTaskToMilestone s a b = { s with fs := (Core.addTaskToMilestone s a b).fs } := by
  unfold Core.addTaskToMilestone
  split
  · rfl
  · split
    · rfl
    · rfl

/-- State-stability of removeTaskFromMilestone: only the file system
changes. -/
theorem removeTaskFromMilestone_eq (s : CoreState) (a b : String) :
    Core.removeTaskFromMilestone s a b
      = { s with fs := (Core.removeTaskFromMilestone s a b).fs } := by
  unfold Core.removeTaskFromMilestone
  split
  · rfl
  · split
    · rfl
    · rfl

/-- Sequential driver: run `createTask` over a list of inputs,
collecting the created tasks in call order. -/
def runCreateTasks (s : CoreState) : List TaskCreateInput → Except String (List Task × CoreState)
  | [] => .ok ([], s)
  | input :: rest =>
    match Core.createTask s input with
    | .error e => .error e
    | .ok (t, s') =>
      match runCreateTasks s' rest with
      | .error e => .error e
      | .ok (ts, s'') => .ok (t :: ts, s'')

/-- One `createTask` step from a store whose task map carries exactly
the ids `1 … k`: the call succeeds, assigns id `k+1`, and leaves a
store carrying exactly the ids `1 … k+1`, regardless of the input. -/
theorem nextTaskIdNum_natStrings (k : Nat) :
    Core.nextTaskIdNum ((List.range k).map (fun i => jsNatToString (i + 1))) = k + 1 := by
  unfold Core.nextTaskIdNum
  have hmap : (List.range k).map (fun i => jsNatToString (i + 1))
      = ((List.range k).map (· + 1)).map jsNatToString := by
    rw [List.map_map]
    rfl
  rw [hmap, existingNumericIds_natStrings]
  cases k with
  | zero => rfl
  | succ k =>
    have hfold := foldl_max_map_succ_range (k + 1)
    rcases hl : (List.range (k + 1)).map (· + 1) with _ | ⟨x, xs⟩
    · simp [List.range_succ] at hl
    · rw [hl] at hfold
      exact congrArg (· + 1) hfold

theorem createTask_step (s : CoreState) (input : TaskCreateInput) (k : Nat)
    (hinit : s.initialized = true) (hlazy : s.lazyInitialized = false)
    (cfg : BacklogConfig) (hcfg : s.config = some cfg)
    (hkeys : s.tasks.map (·.1) = (List.range k).map (fun i => jsNatToString (i + 1))) :
    ∃ t s', Core.createTask s input = .ok (t, s') ∧ t.id = jsNatToString (k + 1) ∧
      s'.initialized = true ∧ s'.lazyInitialized = false ∧ s'.config = some cfg ∧
      s'.tasks.map (·.1) = (List.range (k + 1)).map (fun i => jsNatToString (i + 1)) := by
  have hens : Core.ensureInitialized s = .ok () := by
    simp [Core.ensureInitialized, hinit, hcfg]
  have hfresh : jsNatToString (k + 1) ∉ s.tasks.map (·.1) := by
    rw [hkeys]
    intro hmem
    simp only [List.mem_map, List.mem_range] at hmem
    obtain ⟨i, hi, he⟩ := hmem
    have := jsNatToString_inj he
    omega
  have hset : ∀ t : Task, (jsMapSet s.tasks (jsNatToString (k + 1)) t).map (·.1)
      = (List.range (k + 1)).map (fun i => jsNatToString (i + 1)) := by
    intro t
    rw [jsMapSet_fst_of_not_mem _ _ _ hfresh, hkeys, List.range_succ]
    simp
  simp only [Core.createTask, hens, hlazy, Bool.false_eq_true, if_false, hkeys,
    nextTaskIdNum_natStrings]
  refine ⟨_, _, rfl, rfl, ?_, ?_, ?_, ?_⟩ <;>
    first
    | rfl
    | exact hinit
    | exact hcfg
    | exact hset _
    | (split <;>
        first
        | rfl
        | exact hinit
        | exact hcfg
        | exact hset _
        | (rw [addTaskToMilestone_eq] <;>
           first
           | rfl
           | exact hinit
           | exact hcfg
           | exact hset _)
        | (split <;>
            first
            | rfl
            | exact hinit
            | exact hcfg
            | exact hset _
            | (rw [addTaskToMilestone_eq] <;>
               first
               | rfl
               | exact hinit
               | exact hcfg
               | exact hset _)))

/-- C5: starting from a store initialized over an empty backlog, every
sequence of `createTask` calls succeeds and assigns the ids
`1, 2, 3, …` in decimal, in call order, regardless of the inputs. -/
theorem mapNatStringCongr (l : List Nat) (f g : Nat → Nat) (h : ∀ i, f i = g i) :
    l.map (fun i => jsNatToString (f i)) = l.map (fun i => jsNatToString (g i)) := by
  induction l with
  | nil => rfl
  | cons a l ih => simp only [List.map_cons, h a, ih]

theorem c5_sequential_ids (s : CoreState)
    (hinit : s.initialized = true) (hlazy : s.lazyInitialized = false)
    (cfg : BacklogConfig) (hcfg : s.config = some cfg) (hempty : s.tasks = [])
    (inputs : List TaskCreateInput) :
    ∃ ts s', runCreateTasks s inputs = .ok (ts, s') ∧
      ts.map (·.id) = (List.range inputs.length).map (fun i => jsNatToString (i + 1)) := by
  suffices h : ∀ (inputs : List TaskCreateInput) (k : Nat) (s : CoreState),
      s.initialized = true → s.lazyInitialized = false → s.config = some cfg →
      s.tasks.map (·.1) = (List.range k).map (fun i => jsNatToString (i + 1)) →
      ∃ ts s', runCreateTasks s inputs = .ok (ts, s') ∧
        ts.map (·.id) = (List.range inputs.length).map (fun i => jsNatToString (k + i + 1)) by
    obtain ⟨ts, s', hrun, hids⟩ := h inputs 0 s hinit hlazy hcfg (by simp [hempty])
    refine ⟨ts, s', hrun, ?_⟩
    rw [hids]
    exact mapNatStringCongr _ _ _ (fun i => by omega)
  intro inputs
  induction inputs with
  | nil =>
    intro k s _ _ _ _
    exact ⟨[], s, rfl, by simp⟩
  | cons input rest ih =>
    intro k s hinit hlazy hcfg hkeys
    obtain ⟨t, s', hcreate, hid, hinit', hlazy', hcfg', hkeys'⟩ :=
      createTask_step s input k hinit hlazy cfg hcfg hkeys
    obtain ⟨ts, s'', hrun, hids⟩ := ih (k + 1) s' hinit' hlazy' hcfg' hkeys'
    refine ⟨t :: ts, s'', ?_, ?_⟩
    · simp only [runCreateTasks, hcreate, hrun]
    · simp only [List.map_cons, hid, List.length_cons]
      rw [List.range_succ_eq_map]
      simp only [List.map_cons, List.map_map]
      have h0 : k + 0 + 1 = k + 1 := by omega
      rw [h0]
      refine congrArg (jsNatToString (k + 1) :: ·) ?_
      rw [hids]
      exact mapNatStringCongr _ _ _ (fun i => by omega)

/-! ## Claim C7 — canonical task ordering

Facts about the comparator model and the stable sort. -/

theorem lexCmp_swap : ∀ x y : Str, lexCmp x y = -lexCmp y x
  | [], [] => rfl
  | [], _ :: _ => rfl
  | _ :: _, [] => rfl
  | a :: as, b :: bs => by
    simp only [lexCmp]
    split_ifs <;>
      first
      | exact lexCmp_swap as bs
      | omega
      | (exfalso; omega)

theorem lexCmp_le_trans : ∀ {x y z : Str}, lexCmp x y ≤ 0 → lexCmp y z ≤ 0 → lexCmp x z ≤ 0
  | [], _, z, _, _ => by cases z <;> simp [lexCmp]
  | _ :: _, [], _, h, _ => by simp [lexCmp] at h
  | _ :: _, _ :: _, [], _, h => by simp [lexCmp] at h
  | a :: as, b :: bs, c :: cs, h₁, h₂ => by
    simp only [lexCmp] at h₁ h₂ ⊢
    split_ifs at h₁ h₂ ⊢ <;>
      first
      | exact lexCmp_le_trans h₁ h₂
      | omega
      | (exfalso; omega)

/-- The priority rank described by the claim: high, medium, low, then
unset. -/
def claimRank (t : Task) : Nat :=
  match t.priority with
  | some p => PRIORITY_ORDER p
  | none => 3

theorem claimRank_eq_priRank (t : Task) : claimRank t = priRank t := rfl

/-- The ordering stated by the claim: ordinal ascending when both sides
define it, ordinal-bearing entries strictly before the rest, then
priority rank ascending, then created date descending (newest
first). -/
def claimLE (a b : Task) : Prop :=
  match a.ordinal, b.ordinal with
  | some x, some y => x ≤ y
  | some _, none => True
  | none, some _ => False
  | none, none =>
    claimRank a < claimRank b ∨
      (claimRank a = claimRank b ∧ lexCmp b.createdDate.data a.createdDate.data ≤ 0)

theorem cmpTasks_lt_claimLE (x y : Task) (h : cmpTasks x y < 0) : claimLE x y := by
  rcases hx : x.ordinal with _ | ox <;> rcases hy : y.ordinal with _ | oy <;>
    simp only [cmpTasks, hx, hy] at h <;>
    simp only [claimLE, hx, hy]
  · simp only [claimRank_eq_priRank]
    by_cases hr : priRank x = priRank y
    · rw [if_neg (by simp [hr])] at h
      exact Or.inr ⟨hr, by omega⟩
    · rw [if_pos hr] at h
      exact Or.inl (by omega)
  all_goals omega

theorem cmpTasks_not_lt_claimLE (x y : Task) (h : ¬ cmpTasks x y < 0) : claimLE y x := by
  rcases hx : x.ordinal with _ | ox <;> rcases hy : y.ordinal with _ | oy <;>
    simp only [cmpTasks, hx, hy] at h <;>
    simp only [claimLE, hx, hy]
  · simp only [claimRank_eq_priRank]
    by_cases hr : priRank x = priRank y
    · rw [if_neg (by simp [hr])] at h
      refine Or.inr ⟨hr.symm, ?_⟩
      rw [lexCmp_swap]
      omega
    · rw [if_pos hr] at h
      exact Or.inl (by omega)
  all_goals omega

theorem claimLE_trans : ∀ a b c : Task, claimLE a b → claimLE b c → claimLE a c := by
  intro a b c hab hbc
  rcases ha : a.ordinal with _ | oa <;> rcases hb : b.ordinal with _ | ob <;>
    rcases hc : c.ordinal with _ | oc <;>
    simp only [claimLE, ha, hb, hc] at hab hbc ⊢ <;>
    try trivial
  · rcases hab with hab | ⟨hab, hab2⟩ <;> rcases hbc with hbc | ⟨hbc, hbc2⟩
    · exact Or.inl (by omega)
    · exact Or.inl (by omega)
    · exact Or.inl (by omega)
    · exact Or.inr ⟨by omega, lexCmp_le_trans hbc2 hab2⟩
  all_goals omega

theorem jsSortInsert_perm (cmp : α → α → Int) (x : α) :
    ∀ l : List α, List.Perm (jsSortInsert cmp x l) (x :: l)
  | [] => List.Perm.refl _
  | y :: ys => by
    simp only [jsSortInsert]
    split
    · exact List.Perm.refl _
    · exact ((jsSortInsert_perm cmp x ys).cons y).trans (List.Perm.swap x y ys)

theorem jsSortInsert_head (cmp : α → α → Int) (x : α) (l : List α) :
    (jsSortInsert cmp x l).head? = some x ∨ (jsSortInsert cmp x l).head? = l.head? := by
  cases l with
  | nil => left; rfl
  | cons y ys =>
    simp only [jsSortInsert]
    split
    · left; rfl
    · right; rfl

theorem chain'_jsSortInsert {R : α → α → Prop} (cmp : α → α → Int)
    (hk1 : ∀ x y, cmp x y < 0 → R x y) (hk2 : ∀ x y, ¬ cmp x y < 0 → R y x)
    (x : α) : ∀ l : List α, List.Chain' R l → List.Chain' R (jsSortInsert cmp x l)
  | [], _ => List.chain'_singleton x
  | y :: ys, hl => by
    simp only [jsSortInsert]
    split
    · rename_i h
      exact hl.cons (hk1 x y h)
    · rename_i h
      refine List.chain'_cons'.mpr ⟨?_, chain'_jsSortInsert cmp hk1 hk2 x ys hl.tail⟩
      intro z hz
      rcases jsSortInsert_head cmp x ys with hh | hh
      · rw [hh] at hz
        cases hz
        exact hk2 x y h
      · rw [hh] at hz
        cases ys with
        | nil => cases hz
        | cons w ws =>
          cases hz
          exact (List.chain'_cons.mp hl).1

theorem jsSortBy_perm_aux (cmp : α → α → Int) :
    ∀ (l acc : List α), List.Perm (l.foldl (fun acc x => jsSortInsert cmp x acc) acc) (acc ++ l)
  | [], acc => by simp
  | x :: ls, acc => by
    simp only [List.foldl_cons]
    refine (jsSortBy_perm_aux cmp ls (jsSortInsert cmp x acc)).trans ?_
    refine (((jsSortInsert_perm cmp x acc)).append_right ls).trans ?_
    exact List.perm_middle.symm

theorem jsSortBy_perm (cmp : α → α → Int) (l : List α) :
    List.Perm (jsSortBy cmp l) l := by
  simpa using jsSortBy_perm_aux cmp l []

theorem jsSortBy_chain' {R : α → α → Prop} (cmp : α → α → Int)
    (hk1 : ∀ x y, cmp x y < 0 → R x y) (hk2 : ∀ x y, ¬ cmp x y < 0 → R y x)
    (l : List α) : List.Chain' R (jsSortBy cmp l) := by
  suffices h : ∀ (l acc : List α), List.Chain' R acc →
      List.Chain' R (l.foldl (fun acc x => jsSortInsert cmp x acc) acc) from
    h l [] List.chain'_nil
  intro l
  induction l with
  | nil => intro acc hacc; exact hacc
  | cons x ls ih =>
    intro acc hacc
    exact ih (jsSortInsert cmp x acc) (chain'_jsSortInsert cmp hk1 hk2 x acc hacc)

/-- Task A of the claim's example: ordinal 2. -/
def c7TaskA : Task :=
  { id := "a", title := "A", status := "To Do", createdDate := "2024-01-01", ordinal := some 2 }

/-- Task B of the claim's example: ordinal 1. -/
def c7TaskB : Task :=
  { id := "b", title := "B", status := "To Do", createdDate := "2024-01-01", ordinal := some 1 }

/-- Task C of the claim's example: no ordinal, priority high. -/
def c7TaskC : Task :=
  { id := "c", title := "C", status := "To Do", createdDate := "2024-01-01",
    priority := some .high }

/-- Task D of the claim's example: no ordinal, priority low. -/
def c7TaskD : Task :=
  { id := "d", title := "D", status := "To Do", createdDate := "2024-01-01",
    priority := some .low }

/-- C7: `sortTasks` returns a permutation of its input that is pairwise
ordered by the claimed ordering (ordinal ascending with ordinal-bearing
tasks first, then priority high before medium before low before unset,
then created date descending), and on the claim's example
A(ordinal 2), B(ordinal 1), C(high), D(low) it returns [B, A, C, D]. -/
theorem c7_sortTasks_canonical_order (l : List Task) :
    List.Perm (sortTasks l) l ∧ List.Pairwise claimLE (sortTasks l) ∧
      sortTasks [c7TaskA, c7TaskB, c7TaskC, c7TaskD] = [c7TaskB, c7TaskA, c7TaskC, c7TaskD] := by
  refine ⟨jsSortBy_perm cmpTasks l, ?_, by decide⟩
  haveI : IsTrans Task claimLE := ⟨claimLE_trans⟩
  exact List.chain'_iff_pairwise.mp
    (jsSortBy_chain' cmpTasks cmpTasks_lt_claimLE cmpTasks_not_lt_claimLE l)

/-- C5 witness: three concrete creations from a concrete empty store
yield the ids 1, 2, 3. -/
theorem c5_sequential_ids_witness :
    ∃ ts s', runCreateTasks threeStatusStore
        [{ title := "A" }, { title := "B" }, { title := "C" }] = .ok (ts, s') ∧
      ts.map (·.id) = ["1", "2", "3"] := by
  obtain ⟨ts, s', hrun, hids⟩ := c5_sequential_ids threeStatusStore rfl rfl threeStatusConfig rfl rfl
    [{ title := "A" }, { title := "B" }, { title := "C" }]
  exact ⟨ts, s', hrun, by rw [hids]; rfl⟩

/-! ## C8: milestone summary shape -/

theorem jsMapGet_cons_eq [DecidableEq κ] (a : κ) (b : ν) (rest : List (κ × ν)) (k : κ)
    (h : a = k) : jsMapGet ((a, b) :: rest) k = some b := by
  simp [jsMapGet, h]

theorem jsMapGet_cons_ne [DecidableEq κ] (a : κ) (b : ν) (rest : List (κ × ν)) (k : κ)
    (h : ¬ a = k) : jsMapGet ((a, b) :: rest) k = jsMapGet rest k := by
  simp [jsMapGet, h]

theorem jsMapGet_jsMapSet [DecidableEq κ] (m : List (κ × ν)) (k k' : κ) (v : ν) :
    jsMapGet (jsMapSet m k v) k' = if k' = k then some v else jsMapGet m k' := by
  induction m with
  | nil =>
    by_cases h : k' = k
    · subst h; simp [jsMapSet, jsMapGet]
    · simp [jsMapSet, jsMapGet, h, Ne.symm h]
  | cons e rest ih =>
    obtain ⟨a, b⟩ := e
    by_cases hak : a = k
    · simp only [jsMapSet, if_pos hak]
      by_cases h : k' = k
      · rw [if_pos h, jsMapGet_cons_eq _ _ _ _ h.symm]
      · rw [if_neg h, jsMapGet_cons_ne _ _ _ _ (fun hc => h hc.symm),
          jsMapGet_cons_ne _ _ _ _ (fun hc => h (hc.symm.trans hak))]
    · simp only [jsMapSet, if_neg hak]
      by_cases h : k' = a
      · rw [jsMapGet_cons_eq _ _ _ _ h.symm, if_neg (fun hc => hak (h.symm.trans hc)),
          jsMapGet_cons_eq _ _ _ _ h.symm]
      · rw [jsMapGet_cons_ne _ _ _ _ (fun hc => h hc.symm), ih,
          jsMapGet_cons_ne _ _ _ _ (fun hc => h hc.symm)]

theorem jsMapGet_seedZero (sts : List String) (m : List (String × Nat)) (st : String) :
    jsMapGet (sts.foldl (fun m s => jsMapSet m s 0) m) st
      = if st ∈ sts then some 0 else jsMapGet m st := by
  induction sts generalizing m with
  | nil => simp
  | cons s rest ih =>
    simp only [List.foldl_cons, ih, jsMapGet_jsMapSet, List.mem_cons]
    by_cases h1 : st ∈ rest
    · simp [h1]
    · by_cases h2 : st = s <;> simp [h1, h2]

theorem jsMapGet_countFold (l : List Task) (st : String) :
    ∀ (m : List (String × Nat)) (n : Nat), jsMapGet m st = some n →
      jsMapGet (l.foldl
          (fun m task => jsMapSet m task.status ((jsMapGet m task.status).getD 0 + 1)) m) st
        = some (n + (l.filter fun t => decide (t.status = st)).length) := by
  induction l with
  | nil =>
    intro m n h
    simpa using h
  | cons t rest ih =>
    intro m n h
    simp only [List.foldl_cons]
    by_cases hts : t.status = st
    · have hget : jsMapGet (jsMapSet m t.status ((jsMapGet m t.status).getD 0 + 1)) st
          = some (n + 1) := by
        rw [jsMapGet_jsMapSet, if_pos hts.symm, hts, h]
        rfl
      rw [ih _ _ hget]
      have hlen : (List.filter (fun t => decide (t.status = st)) (t :: rest)).length
          = (List.filter (fun t => decide (t.status = st)) rest).length + 1 := by
        simp [List.filter_cons, hts]
      rw [hlen]
      exact congrArg some (by omega)
    · have hget : jsMapGet (jsMapSet m t.status ((jsMapGet m t.status).getD 0 + 1)) st
          = some n := by
        rw [jsMapGet_jsMapSet, if_neg (fun hc => hts hc.symm), h]
      rw [ih _ _ hget]
      have hlen : (List.filter (fun t => decide (t.status = st)) (t :: rest)).length
          = (List.filter (fun t => decide (t.status = st)) rest).length := by
        simp [List.filter_cons, hts]
      rw [hlen]

/-- The done test stated by the claim: the status string contains
`done` or `complete` case-insensitively. -/
def doneBySpec (status : String) : Bool :=
  containsSub (str "done") (toLowerJs status.data) ||
    containsSub (str "complete") (toLowerJs status.data)

theorem isDoneStatus_eq_doneBySpec (st : String) : isDoneStatus (some st) = doneBySpec st := rfl

theorem ifPosZero (L : Nat) (X : Int) :
    (if 0 < L then X else 0) = (if L = 0 then 0 else X) := by
  rcases Nat.eq_zero_or_pos L with h | h
  · subst h; simp
  · rw [if_pos h, if_neg (by omega)]

theorem createBucket_total (mid : Option String) (ts : List Task) (sts : List String)
    (ents : List Milestone) (f : Bool) :
    (createBucket mid ts sts ents f).total = (createBucket mid ts sts ents f).tasks.length := rfl

theorem createBucket_done (mid : Option String) (ts : List Task) (sts : List String)
    (ents : List Milestone) (f : Bool) :
    (createBucket mid ts sts ents f).doneCount
      = ((createBucket mid ts sts ents f).tasks.filter fun t => doneBySpec t.status).length := rfl

theorem createBucket_progress (mid : Option String) (ts : List Task) (sts : List String)
    (ents : List Milestone) (f : Bool) :
    (createBucket mid ts sts ents f).progress
      = if (createBucket mid ts sts ents f).total = 0 then 0
        else jsRound (((createBucket mid ts sts ents f).doneCount : ℚ)
          / ((createBucket mid ts sts ents f).total : ℚ) * 100) := by
  simp only [createBucket]
  exact ifPosZero _ _

theorem createBucket_counts (mid : Option String) (ts : List Task) (sts : List String)
    (ents : List Milestone) (f : Bool) (st : String) (hst : st ∈ sts) :
    jsMapGet (createBucket mid ts sts ents f).statusCounts st
      = some (((createBucket mid ts sts ents f).tasks.filter
          fun t => decide (t.status = st)).length) := by
  simp only [createBucket]
  rw [jsMapGet_countFold _ _ _ 0 (by rw [jsMapGet_seedZero]; exact if_pos hst), Nat.zero_add]

/-- C8: in the milestone summary the first bucket is the no-milestone
bucket (the tasks whose normalized milestone reference is empty); every
bucket has a status-count entry for every configured status, whose
value is the number of bucket tasks with that status (hence zero when
none has it); and every bucket reports `total` as its task count,
`doneCount` as the number of tasks whose status contains `done` or
`complete` case-insensitively, and `progress` as
round(doneCount / total × 100), with 0 for an empty bucket. -/
theorem c8_milestone_summary (tasks : List Task) (cfgMs sts : List String) :
    (∃ b₀ rest, (groupTasksByMilestone tasks cfgMs sts).buckets = b₀ :: rest ∧
        b₀.isNoMilestone = true ∧
        b₀.tasks = tasks.filter fun t => decide (milestoneKey t.milestone = "")) ∧
    (∀ b ∈ (groupTasksByMilestone tasks cfgMs sts).buckets,
        (∀ st ∈ sts, jsMapGet b.statusCounts st
            = some ((b.tasks.filter fun t => decide (t.status = st)).length)) ∧
        b.doneCount = (b.tasks.filter fun t => doneBySpec t.status).length ∧
        b.total = b.tasks.length ∧
        b.progress = (if b.total = 0 then 0
          else jsRound ((b.doneCount : ℚ) / (b.total : ℚ) * 100))) := by
  constructor
  · exact ⟨_, _, rfl, rfl, rfl⟩
  · intro b hb
    simp only [groupTasksByMilestone, buildMilestoneBucketsFromConfig, buildMilestoneBuckets,
      List.mem_cons, List.mem_map] at hb
    have hform : ∃ mid ents flag, b = createBucket mid tasks sts ents flag := by
      rcases hb with rfl | ⟨mId, hmId, rfl⟩
      · exact ⟨none, _, true, rfl⟩
      · exact ⟨some mId, _, false, rfl⟩
    obtain ⟨mid, ents, flag, rfl⟩ := hform
    exact ⟨fun st h => createBucket_counts mid tasks sts ents flag st h,
      createBucket_done mid tasks sts ents flag,
      createBucket_total mid tasks sts ents flag,
      createBucket_progress mid tasks sts ents flag⟩

/-! ## C10: paginated status buckets cover exactly the configured statuses -/

theorem jsMapGet_seedFold (f : String → β) (sts : List String) (m : List (String × β))
    (st : String) :
    jsMapGet (sts.foldl (fun m s => jsMapSet m s (f s)) m) st
      = if st ∈ sts then some (f st) else jsMapGet m st := by
  induction sts generalizing m with
  | nil => simp
  | cons s rest ih =>
    simp only [List.foldl_cons, ih, jsMapGet_jsMapSet, List.mem_cons]
    by_cases h1 : st ∈ rest
    · simp [h1]
    · by_cases h2 : st = s <;> simp [h1, h2]

theorem jsMapGet_seedNil (sts : List String) (m : List (String × List Task)) (st : String) :
    jsMapGet (sts.foldl (fun m s => jsMapSet m s ([] : List Task)) m) st
      = if st ∈ sts then some [] else jsMapGet m st :=
  jsMapGet_seedFold (fun _ => ([] : List Task)) sts m st

theorem jsMapGet_groupFold (ts : List Task) :
    ∀ (m : List (String × List Task)) (st : String) (l : List Task),
      jsMapGet m st = some l →
      jsMapGet (ts.foldl groupStep m) st
        = some (l ++ ts.filter fun t => decide (t.status = st)) := by
  induction ts with
  | nil =>
    intro m st l h
    simpa using h
  | cons t rest ih =>
    intro m st l h
    simp only [List.foldl_cons]
    by_cases hts : t.status = st
    · have hget0 : jsMapGet m t.status = some l := by rw [hts]; exact h
      have hstep : groupStep m t = jsMapSet m t.status (l ++ [t]) := by
        simp only [groupStep, hget0]
      rw [hstep]
      have hget : jsMapGet (jsMapSet m t.status (l ++ [t])) st = some (l ++ [t]) := by
        rw [jsMapGet_jsMapSet, if_pos hts.symm]
      rw [ih _ _ _ hget]
      simp [List.filter_cons, hts]
    · have hget : jsMapGet (groupStep m t) st = some l := by
        rcases hm : jsMapGet m t.status with _ | l2 <;>
          simp only [groupStep, hm] <;>
          rw [jsMapGet_jsMapSet, if_neg (fun hc => hts hc.symm), h]
      rw [ih _ _ _ hget]
      simp [List.filter_cons, hts]

theorem groupStep_isSome (m : List (String × List Task)) (t : Task) (st : String)
    (h : (jsMapGet m st).isSome = true) : (jsMapGet (groupStep m t) st).isSome = true := by
  rcases hm : jsMapGet m t.status with _ | l2 <;>
    simp only [groupStep, hm, jsMapGet_jsMapSet] <;>
    split <;> simp [h]

theorem groupStep_isSome_self (m : List (String × List Task)) (t : Task) :
    (jsMapGet (groupStep m t) t.status).isSome = true := by
  rcases hm : jsMapGet m t.status with _ | l2 <;>
    simp [groupStep, hm, jsMapGet_jsMapSet]

theorem groupFold_isSome_mono (ts : List Task) :
    ∀ (m : List (String × List Task)) (st : String),
      (jsMapGet m st).isSome = true →
      (jsMapGet (ts.foldl groupStep m) st).isSome = true := by
  induction ts with
  | nil =>
    intro m st h
    simpa using h
  | cons t rest ih =>
    intro m st h
    simp only [List.foldl_cons]
    exact ih _ _ (groupStep_isSome m t st h)

theorem groupFold_mem (ts : List Task) :
    ∀ (m : List (String × List Task)) (t : Task), t ∈ ts →
      (jsMapGet (ts.foldl groupStep m) t.status).isSome = true := by
  induction ts with
  | nil =>
    intro m t h
    cases h
  | cons t0 rest ih =>
    intro m t h
    simp only [List.foldl_cons]
    rcases List.mem_cons.mp h with rfl | hmem
    · exact groupFold_isSome_mono rest _ _ (groupStep_isSome_self m t)
    · exact ih _ _ hmem

theorem pairFold_eq_mapFold (es : List (String × Task)) :
    ∀ m : List (String × List Task),
      es.foldl (fun m e => groupStep m e.2) m = (es.map (·.2)).foldl groupStep m := by
  induction es with
  | nil => intro m; rfl
  | cons e rest ih =>
    intro m
    simp only [List.foldl_cons, List.map_cons]
    exact ih _

theorem jsMapGet_mapValues (g : List Task → List Task) (m : List (String × List Task))
    (k : String) :
    jsMapGet (m.map (fun e => (e.1, g e.2))) k = (jsMapGet m k).map g := by
  induction m with
  | nil => rfl
  | cons e rest ih =>
    obtain ⟨a, b⟩ := e
    by_cases h : a = k
    · simp only [List.map_cons]
      rw [jsMapGet_cons_eq _ _ _ _ h, jsMapGet_cons_eq _ _ _ _ h]
      rfl
    · simp only [List.map_cons]
      rw [jsMapGet_cons_ne _ _ _ _ h, jsMapGet_cons_ne _ _ _ _ h, ih]

theorem sortTasksBy_perm (tasks : List Task) (sb dir : String) :
    List.Perm (sortTasksBy tasks sb dir) tasks := by
  simp only [sortTasksBy, sortTasksByTitle, sortTasks]
  split_ifs <;>
    first
      | exact jsSortBy_perm _ _
      | exact (List.reverse_perm _).trans (jsSortBy_perm _ _)

theorem byStatus_get (statuses : List String) (AG : List (String × List Task))
    (sb sd : String) (off lim : Nat) (st : String) :
    jsMapGet (statuses.foldl
        (fun m s2 => jsMapSet m s2 (Core.statusPageFor AG sb sd off lim s2)) []) st
      = if st ∈ statuses then some (Core.statusPageFor AG sb sd off lim st) else none :=
  jsMapGet_seedFold (Core.statusPageFor AG sb sd off lim) statuses [] st

/-- C10: the `byStatus` map of `getTasksByStatusPaginated` has an entry
exactly for each configured status; each entry's `total` counts only the
tasks whose status equals that configured status, and each page item has
exactly that status (so a task with an unconfigured status is counted
nowhere and appears on no page); by contrast the unpaginated
`groupTasksByStatus` creates a map entry for the status of every task
present, configured or not. -/
theorem c10_paginated_status_buckets (s : CoreState) (p : Option PaginationOptions)
    (r : PaginatedTasksByStatus) (h : Core.getTasksByStatusPaginated s p = .ok r) :
    (∀ st, (jsMapGet r.byStatus st).isSome = true ↔ st ∈ s.safeConfig.statuses) ∧
    (∀ st page, jsMapGet r.byStatus st = some page →
        page.total = ((s.tasks.map (·.2)).filter fun t => decide (t.status = st)).length ∧
        ∀ t ∈ page.items, t.status = st) ∧
    (∀ (tasks : List Task) (sts : List String) (t : Task), t ∈ tasks →
        (jsMapGet (groupTasksByStatus tasks sts) t.status).isSome = true) := by
  rcases he : Core.ensureInitialized s with e | u
  · exfalso
    simp only [Core.getTasksByStatusPaginated, he] at h
    exact Except.noConfusion h
  · cases u
    simp only [Core.getTasksByStatusPaginated, he, Except.ok.injEq] at h
    subst h
    refine ⟨?_, ?_, ?_⟩
    · intro st
      dsimp only
      rw [byStatus_get]
      by_cases hm : st ∈ s.safeConfig.statuses <;> simp [hm]
    · intro st page hpage
      dsimp only at hpage
      rw [byStatus_get] at hpage
      by_cases hm : st ∈ s.safeConfig.statuses
      · rw [if_pos hm, Option.some.injEq] at hpage
        have hag : jsMapGet
            (s.tasks.foldl (fun m e => groupStep m e.2)
              (s.safeConfig.statuses.foldl (fun m st => jsMapSet m st []) []))
            st = some ((s.tasks.map (·.2)).filter fun t => decide (t.status = st)) := by
          rw [pairFold_eq_mapFold]
          have hseed : jsMapGet
              (s.safeConfig.statuses.foldl (fun m st => jsMapSet m st ([] : List Task)) [])
              st = some [] := by
            rw [jsMapGet_seedNil, if_pos hm]
          have := jsMapGet_groupFold (s.tasks.map (·.2)) _ st [] hseed
          simpa using this
        subst hpage
        constructor
        · simp only [Core.statusPageFor, hag, Option.getD_some]
          exact ((sortTasksBy_perm _ _ _).length_eq)
        · intro t ht
          simp only [Core.statusPageFor, hag, Option.getD_some] at ht
          have h1 : t ∈ sortTasksBy
              ((s.tasks.map (·.2)).filter fun t => decide (t.status = st)) _ _ :=
            List.drop_subset _ _ (List.take_subset _ _ ht)
          have h2 := ((sortTasksBy_perm _ _ _).mem_iff).mp h1
          exact of_decide_eq_true (List.mem_filter.mp h2).2
      · rw [if_neg hm] at hpage
        cases hpage
    · intro tasks sts t ht
      simp only [groupTasksByStatus]
      rw [jsMapGet_mapValues]
      have hsome := groupFold_mem tasks (sts.foldl (fun m st => jsMapSet m st []) []) t ht
      rcases ho : jsMapGet (tasks.foldl groupStep
          (sts.foldl (fun m st => jsMapSet m st []) [])) t.status with _ | l
      · rw [ho] at hsome
        simp at hsome
      · rfl

/-- C10 witness: on a concrete initialized store with three configured
statuses the paginated grouping succeeds and its buckets are exactly the
configured statuses. -/
theorem c10_paginated_status_buckets_witness :
    ∃ r, Core.getTasksByStatusPaginated threeStatusStore none = .ok r ∧
      (∀ st, (jsMapGet r.byStatus st).isSome = true ↔
        st ∈ threeStatusStore.safeConfig.statuses) := by
  refine ⟨_, rfl, ?_⟩
  exact (c10_paginated_status_buckets threeStatusStore none _ rfl).1

/-! ## C9: updating an archived task relocates it to the tasks directory -/

theorem leadsWith_append_self : ∀ (x y : Str), leadsWith x (x ++ y) = true
  | [], _ => rfl
  | c :: cs, y => by
    have ih := leadsWith_append_self cs y
    simp only [List.cons_append, leadsWith, List.append_eq, ih]
    simp

theorem leadsWith_append_same : ∀ (a p q : Str), leadsWith (a ++ p) (a ++ q) = leadsWith p q
  | [], _, _ => rfl
  | c :: cs, p, q => by
    have ih := leadsWith_append_same cs p q
    simp only [List.cons_append, leadsWith, List.append_eq, ih]
    simp

theorem jsMapGet_filterNe (m : List (String × ν)) (q p : String) :
    jsMapGet (m.filter fun e => decide (e.1 ≠ q)) p
      = if p = q then none else jsMapGet m p := by
  induction m with
  | nil =>
    simp only [List.filter_nil]
    split <;> rfl
  | cons e rest ih =>
    obtain ⟨a, b⟩ := e
    by_cases haq : a = q
    · have hd : (decide ((a, b).1 ≠ q)) = false := by simp [haq]
      simp only [List.filter_cons, hd, Bool.false_eq_true, if_false]
      rw [ih]
      by_cases hpq : p = q
      · rw [if_pos hpq, if_pos hpq]
      · rw [if_neg hpq, if_neg hpq,
          jsMapGet_cons_ne _ _ _ _ (fun hc => hpq (hc.symm.trans haq))]
    · have hd : (decide ((a, b).1 ≠ q)) = true := by simp [haq]
      simp only [List.filter_cons, hd, if_true]
      by_cases hpa : a = p
      · rw [jsMapGet_cons_eq _ _ _ _ hpa, if_neg (fun hcq => haq (hpa.trans hcq)),
          jsMapGet_cons_eq _ _ _ _ hpa]
      · rw [jsMapGet_cons_ne _ _ _ _ hpa, ih]
        by_cases hpq : p = q
        · rw [if_pos hpq, if_pos hpq]
        · rw [if_neg hpq, if_neg hpq, jsMapGet_cons_ne _ _ _ _ hpa]

theorem readFile_writeFile (fs : FS) (q c p : String) :
    (fs.writeFile q c).readFile p = if p = q then some c else fs.readFile p :=
  jsMapGet_jsMapSet fs.files q p c

theorem readFile_deleteFile (fs : FS) (q p : String) :
    (fs.deleteFile q).readFile p = if p = q then none else fs.readFile p :=
  jsMapGet_filterNe fs.files q p

theorem pathJoin_data (a b : String) : (pathJoin a b).data = a.data ++ ('/' :: b.data) := by
  simp only [pathJoin, String.data_append, List.append_assoc]
  rfl

theorem tasksPrefix_data (s : CoreState) :
    str (s.tasksDir ++ "/") = s.projectRoot.data ++ str "/backlog/tasks/" := by
  simp only [str, CoreState.tasksDir, pathJoin, String.data_append, List.append_assoc]
  rfl

theorem completedPrefix_data (s : CoreState) :
    str (s.completedDir ++ "/") = s.projectRoot.data ++ str "/backlog/completed/" := by
  simp only [str, CoreState.completedDir, pathJoin, String.data_append, List.append_assoc]
  rfl

theorem tasks_path_data (s : CoreState) (y : String) :
    (pathJoin s.tasksDir y).data = s.projectRoot.data ++ (str "/backlog/tasks/" ++ y.data) := by
  simp only [str, CoreState.tasksDir, pathJoin, String.data_append, List.append_assoc]
  rfl

theorem milestones_path_data (s : CoreState) (x : String) :
    (pathJoin s.milestonesDir x).data
      = s.projectRoot.data ++ (str "/backlog/milestones/" ++ x.data) := by
  simp only [str, CoreState.milestonesDir, pathJoin, String.data_append, List.append_assoc]
  rfl

theorem leadsWith_tasks_self (s : CoreState) (y : String) :
    leadsWith (str (s.tasksDir ++ "/")) (pathJoin s.tasksDir y).data = true := by
  rw [tasksPrefix_data, tasks_path_data, leadsWith_append_same]
  exact leadsWith_append_self _ _

theorem leadsWith_completed_tasks (s : CoreState) (y : String) :
    leadsWith (str (s.completedDir ++ "/")) (pathJoin s.tasksDir y).data = false := by
  rw [completedPrefix_data, tasks_path_data, leadsWith_append_same]
  rfl

theorem completed_vs_milestones (s : CoreState) (p : String)
    (h : leadsWith (str (s.completedDir ++ "/")) p.data = true) :
    ∀ x, p ≠ pathJoin s.milestonesDir x := by
  intro x hc
  rw [hc, milestones_path_data, completedPrefix_data, leadsWith_append_same] at h
  have hfalse : leadsWith (str "/backlog/completed/")
      (str "/backlog/milestones/" ++ x.data) = false := rfl
  rw [hfalse] at h
  exact Bool.noConfusion h

theorem tasks_vs_milestones (s : CoreState) (y x : String) :
    pathJoin s.tasksDir y ≠ pathJoin s.milestonesDir x := by
  intro hc
  have hd := congrArg String.data hc
  rw [tasks_path_data, milestones_path_data] at hd
  have h2 := List.append_cancel_left hd
  have h9 := congrArg (fun l => l.get? 9) h2
  have h9c : (some 't' : Option Char) = some 'm' := h9
  exact absurd h9c (by decide)

theorem writeMilestoneFile_readFile (s : CoreState) (m : Milestone) (p : String)
    (hp : ∀ x, p ≠ pathJoin s.milestonesDir x) :
    (Core.writeMilestoneFile s m).fs.readFile p = s.fs.readFile p := by
  unfold Core.writeMilestoneFile
  rcases hf : (s.fs.readDir s.milestonesDir).find?
      (fun entry => decide (extractMilestoneIdFromFilename entry = some m.id)) with _ | cur
  · simp only [hf]
    rw [readFile_writeFile, if_neg (hp _)]
  · simp only [hf]
    rw [readFile_writeFile, if_neg (hp _), readFile_deleteFile, if_neg (hp _)]

theorem addTaskToMilestone_readFile (s : CoreState) (a b : String) (p : String)
    (hp : ∀ x, p ≠ pathJoin s.milestonesDir x) :
    (Core.addTaskToMilestone s a b).fs.readFile p = s.fs.readFile p := by
  unfold Core.addTaskToMilestone
  split
  · rfl
  · split
    · rfl
    · exact writeMilestoneFile_readFile _ _ _ hp

theorem removeTaskFromMilestone_readFile (s : CoreState) (a b : String) (p : String)
    (hp : ∀ x, p ≠ pathJoin s.milestonesDir x) :
    (Core.removeTaskFromMilestone s a b).fs.readFile p = s.fs.readFile p := by
  unfold Core.removeTaskFromMilestone
  split
  · rfl
  · split
    · rfl
    · exact writeMilestoneFile_readFile _ _ _ hp

theorem addTaskToMilestone_projectRoot (s : CoreState) (a b : String) :
    (Core.addTaskToMilestone s a b).projectRoot = s.projectRoot := by
  rw [addTaskToMilestone_eq s a b]

theorem removeTaskFromMilestone_projectRoot (s : CoreState) (a b : String) :
    (Core.removeTaskFromMilestone s a b).projectRoot = s.projectRoot := by
  rw [removeTaskFromMilestone_eq s a b]

theorem addTaskToMilestone_tasks (s : CoreState) (a b : String) :
    (Core.addTaskToMilestone s a b).tasks = s.tasks := by
  rw [addTaskToMilestone_eq s a b]

theorem removeTaskFromMilestone_tasks (s : CoreState) (a b : String) :
    (Core.removeTaskFromMilestone s a b).tasks = s.tasks := by
  rw [removeTaskFromMilestone_eq s a b]

theorem milestoneRemovePhase_props (s₁ : CoreState) (id2 : String) (om : Option String)
    (p : String) (hp : ∀ x, p ≠ pathJoin s₁.milestonesDir x) :
    (Core.milestoneRemovePhase s₁ id2 om).fs.readFile p = s₁.fs.readFile p ∧
    (Core.milestoneRemovePhase s₁ id2 om).projectRoot = s₁.projectRoot ∧
    (Core.milestoneRemovePhase s₁ id2 om).tasks = s₁.tasks := by
  rcases om with _ | m
  · exact ⟨rfl, rfl, rfl⟩
  · have e : Core.milestoneRemovePhase s₁ id2 (some m)
        = if m = "" then s₁ else Core.removeTaskFromMilestone s₁ id2 m := rfl
    rw [e]
    by_cases hm : m = ""
    · rw [if_pos hm]
      exact ⟨rfl, rfl, rfl⟩
    · rw [if_neg hm]
      exact ⟨removeTaskFromMilestone_readFile _ _ _ _ hp,
        removeTaskFromMilestone_projectRoot _ _ _,
        removeTaskFromMilestone_tasks _ _ _⟩

theorem milestoneSyncPhase_props (s₁ : CoreState) (id2 : String) (om nm : Option String)
    (p : String) (hp : ∀ x, p ≠ pathJoin s₁.milestonesDir x) :
    (Core.milestoneSyncPhase s₁ id2 om nm).fs.readFile p = s₁.fs.readFile p ∧
    (Core.milestoneSyncPhase s₁ id2 om nm).tasks = s₁.tasks := by
  obtain ⟨hr, hroot, htasks⟩ := milestoneRemovePhase_props s₁ id2 om p hp
  have hp2 : ∀ x, p ≠ pathJoin (Core.milestoneRemovePhase s₁ id2 om).milestonesDir x := by
    intro x
    have hd : (Core.milestoneRemovePhase s₁ id2 om).milestonesDir = s₁.milestonesDir := by
      simp only [CoreState.milestonesDir, hroot]
    rw [hd]
    exact hp x
  rcases nm with _ | m
  · have e : Core.milestoneSyncPhase s₁ id2 om none
        = if milestoneKey om ≠ milestoneKey none then Core.milestoneRemovePhase s₁ id2 om
          else s₁ := rfl
    rw [e]
    by_cases hch : milestoneKey om ≠ milestoneKey none
    · rw [if_pos hch]
      exact ⟨hr, htasks⟩
    · rw [if_neg hch]
      exact ⟨rfl, rfl⟩
  · have e : Core.milestoneSyncPhase s₁ id2 om (some m)
        = if milestoneKey om ≠ milestoneKey (some m) then
            (if m = "" then Core.milestoneRemovePhase s₁ id2 om
             else Core.addTaskToMilestone (Core.milestoneRemovePhase s₁ id2 om) id2 m)
          else s₁ := rfl
    rw [e]
    by_cases hch : milestoneKey om ≠ milestoneKey (some m)
    · rw [if_pos hch]
      by_cases hm : m = ""
      · rw [if_pos hm]
        exact ⟨hr, htasks⟩
      · rw [if_neg hm]
        constructor
        · rw [addTaskToMilestone_readFile _ _ _ _ hp2]
          exact hr
        · rw [addTaskToMilestone_tasks]
          exact htasks
    · rw [if_neg hch]
      exact ⟨rfl, rfl⟩

theorem milestoneSyncPhase_tasks (s₁ : CoreState) (id2 : String) (om nm : Option String) :
    (Core.milestoneSyncPhase s₁ id2 om nm).tasks = s₁.tasks := by
  have hp : ∀ x, ("" : String) ≠ pathJoin s₁.milestonesDir x := by
    intro x hc
    have hd := congrArg String.data hc
    rw [pathJoin_data] at hd
    rcases hme : s₁.milestonesDir.data with _ | ⟨c, cs⟩ <;> rw [hme] at hd <;>
      exact List.noConfusion hd
  exact (milestoneSyncPhase_props s₁ id2 om nm "" hp).2

theorem milestoneSyncPhase_stable_at_tasks (s : CoreState) (fsx : FS)
    (tsx : List (String × Task)) (id2 : String) (om nm : Option String) (y : String) :
    (Core.milestoneSyncPhase { s with fs := fsx, tasks := tsx } id2 om nm).fs.readFile
        (pathJoin s.tasksDir y)
      = fsx.readFile (pathJoin s.tasksDir y) := by
  have hp : ∀ x, pathJoin s.tasksDir y
      ≠ pathJoin ({ s with fs := fsx, tasks := tsx } : CoreState).milestonesDir x :=
    fun x => tasks_vs_milestones s y x
  exact (milestoneSyncPhase_props _ _ _ _ _ hp).1

theorem milestoneSyncPhase_stable_at_completed (s : CoreState) (fsx : FS)
    (tsx : List (String × Task)) (id2 : String) (om nm : Option String) (p : String)
    (hc : leadsWith (str (s.completedDir ++ "/")) p.data = true) :
    (Core.milestoneSyncPhase { s with fs := fsx, tasks := tsx } id2 om nm).fs.readFile p
      = fsx.readFile p := by
  have hp : ∀ x, p ≠ pathJoin ({ s with fs := fsx, tasks := tsx } : CoreState).milestonesDir x :=
    fun x => completed_vs_milestones s p hc x
  exact (milestoneSyncPhase_props _ _ _ _ _ hp).1

theorem serializeTaskMarkdown_filePath (t : Task) (fp : Option String) :
    serializeTaskMarkdown { t with filePath := fp } = serializeTaskMarkdown t := rfl

set_option maxHeartbeats 1000000 in
theorem mergeTaskUpdate_source (e : Task) (i : TaskUpdateInput) (nm : Option String)
    (d : String) : (Core.mergeTaskUpdate e i nm d).source = e.source := by
  unfold Core.mergeTaskUpdate
  rcases i.acceptanceCriteria with _ | acs <;>
    rcases i.removeReferences with _ | rr <;>
    rcases i.addReferences with _ | ar <;>
    rcases i.removeDependencies with _ | rd <;>
    rcases i.addDependencies with _ | ad <;>
    rcases i.assignee with _ | asg <;>
    rcases i.labels with _ | ls <;>
    rcases i.addLabels with _ | al <;>
    rcases i.removeLabels with _ | rl <;>
    rfl

/-- C9: a successful `updateTask` on a cached task whose `source` is
`"completed"` returns a task that still carries `source = "completed"`
but whose `filePath` now points under the active tasks directory
(`backlog/tasks/`, not `backlog/completed/`); the re-serialized file is
written at that new path, the cache holds the returned task, and no file
under the completed directory is written (a path there either keeps its
old content or was the deleted old file). -/
theorem c9_update_archived_relocates (s : CoreState) (id : String) (input : TaskUpdateInput)
    (existing t : Task) (s' : CoreState)
    (hex : jsMapGet s.tasks id = some existing)
    (hsrc : existing.source = some "completed")
    (h : Core.updateTask s id input = .ok (some t, s')) :
    t.source = some "completed" ∧
    (∃ fname,
      t.filePath = some (pathJoin s.tasksDir fname) ∧
      leadsWith (str (s.tasksDir ++ "/")) (pathJoin s.tasksDir fname).data = true ∧
      leadsWith (str (s.completedDir ++ "/")) (pathJoin s.tasksDir fname).data = false ∧
      s'.fs.readFile (pathJoin s.tasksDir fname) = some (serializeTaskMarkdown t)) ∧
    jsMapGet s'.tasks id = some t ∧
    (∀ p : String, leadsWith (str (s.completedDir ++ "/")) p.data = true →
      s'.fs.readFile p = s.fs.readFile p ∨ s'.fs.readFile p = none) := by
  rcases he : Core.ensureInitialized s with err | u
  · simp only [Core.updateTask, he] at h
    exact Except.noConfusion h
  · cases u
    simp only [Core.updateTask, he, hex, Except.ok.injEq, Prod.mk.injEq,
      Option.some.injEq] at h
    obtain ⟨h1, h2⟩ := h
    subst h1
    subst h2
    refine ⟨?_, ?_, ?_, ?_⟩
    · dsimp only
      rw [mergeTaskUpdate_source]
      exact hsrc
    · refine ⟨_, rfl, leadsWith_tasks_self _ _, leadsWith_completed_tasks _ _, ?_⟩
      rw [milestoneSyncPhase_stable_at_tasks, readFile_writeFile, if_pos rfl]
      exact congrArg some (serializeTaskMarkdown_filePath _ _).symm
    · rw [milestoneSyncPhase_tasks]
      dsimp only
      rw [jsMapGet_jsMapSet, if_pos rfl]
    · intro p hcp
      rw [milestoneSyncPhase_stable_at_completed _ _ _ _ _ _ _ hcp, readFile_writeFile]
      split
      · next hpc =>
        rw [hpc, leadsWith_completed_tasks] at hcp
        exact Bool.noConfusion hcp
      · split
        · split
          · exact Or.inl rfl
          · rw [readFile_deleteFile]
            split
            · exact Or.inr rfl
            · exact Or.inl rfl
        · exact Or.inl rfl

/-- Concrete archived task used by the C9 witness. -/
def c9Task : Task :=
  { id := "7", title := "Old", status := "Done", createdDate := "2024-01-01",
    source := some "completed", filePath := some "/r/backlog/completed/7 - Old.md" }

/-- Concrete initialized store caching an archived task. -/
def c9Store : CoreState :=
  { projectRoot := "/r"
    fs := { files := [("/r/backlog/completed/7 - Old.md", "x")], dirs := [] }
    config := some threeStatusConfig
    tasks := [("7", c9Task)]
    initialized := true
    today := "2025-01-02" }

/-- C9 witness: a concrete update of a concrete archived task. -/
theorem c9_update_archived_relocates_witness :
    ∃ t s', Core.updateTask c9Store "7" { title := some "Old2" } = .ok (some t, s') ∧
      t.source = some "completed" ∧ jsMapGet s'.tasks "7" = some t := by
  refine ⟨_, _, rfl, ?_, ?_⟩
  · exact (c9_update_archived_relocates c9Store "7" { title := some "Old2" }
      c9Task _ _ rfl rfl rfl).1
  · exact (c9_update_archived_relocates c9Store "7" { title := some "Old2" }
      c9Task _ _ rfl rfl rfl).2.2.1

/-! ## C4: lazy vs eager loading -/

/-- Config used by the C4 stores. -/
def c4Config : String :=
  "project_name: \"P\"\nstatuses: [\"To Do\"]\ndefault_status: \"To Do\"\n"

/-- A task file nested one directory below `backlog/tasks/`. -/
def c4NestedStore : CoreState :=
  mkCore "/r"
    { files := [("/r/backlog/config.yml", c4Config),
                ("/r/backlog/tasks/sub/1 - A.md",
                 "---\nstatus: To Do\ncreatedDate: 2024-01-01\n---\n\n# A\n")]
      dirs := [] }
    "2025-01-02"

/-- C4 counterexample: on a nested directory tree the eager store holds
no task for id `1` (the top-level scan skips the subdirectory), while
the lazy index finds and loads it. -/
theorem c4_nested_tree_diverges :
    ∃ se sl t,
      Core.initializeStore c4NestedStore = .ok se ∧
      Core.initializeLazy c4NestedStore ["/r/backlog/tasks/sub/1 - A.md"] = .ok sl ∧
      Core.getTask se "1" = .ok none ∧
      (Core.loadTask sl "1").1 = some t ∧ t.title = "A" := by
  refine ⟨_, _, _, rfl, rfl, rfl, rfl, rfl⟩


theorem leadsWith_subset : ∀ {p l : Str}, leadsWith p l = true → ∀ c ∈ p, c ∈ l
  | [], _, _, c, hc => absurd hc (List.not_mem_nil c)
  | a :: ps, [], h, _, _ => by simp [leadsWith] at h
  | a :: ps, b :: ls, h, c, hc => by
    simp only [leadsWith, Bool.and_eq_true, decide_eq_true_eq] at h
    rcases List.mem_cons.mp hc with rfl | hc2
    · rw [h.1]
      exact List.mem_cons_self _ _
    · exact List.mem_cons_of_mem _ (leadsWith_subset h.2 c hc2)

theorem containsSub_false_of_not_mem :
    ∀ (p l : Str) (c : Char), c ∈ p → c ∉ l → containsSub p l = false
  | p, [], c, hc, _ => by
    cases p
    · exact absurd hc (List.not_mem_nil c)
    · rfl
  | p, d :: ds, c, hc, hl => by
    cases h1 : leadsWith p (d :: ds)
    · simp only [containsSub, h1, Bool.false_or]
      exact containsSub_false_of_not_mem p ds c hc (fun hm => hl (List.mem_cons_of_mem _ hm))
    · exact absurd (leadsWith_subset h1 c hc) hl

theorem leadsWith_of_leadsWith_append :
    ∀ (p l z : Str), leadsWith p l = true → leadsWith p (l ++ z) = true
  | [], _, _, _ => rfl
  | a :: ps, [], z, h => by simp [leadsWith] at h
  | a :: ps, b :: ls, z, h => by
    simp only [leadsWith, Bool.and_eq_true, decide_eq_true_eq, List.cons_append] at h ⊢
    exact ⟨h.1, leadsWith_of_leadsWith_append ps ls z h.2⟩

theorem leadsWith_cons_shape (p : Char) (ps l : Str) (h : leadsWith (p :: ps) l = true) :
    ∃ l', l = p :: l' ∧ leadsWith ps l' = true := by
  match l with
  | [] => simp [leadsWith] at h
  | c :: cs =>
    simp only [leadsWith, Bool.and_eq_true, decide_eq_true_eq] at h
    exact ⟨cs, by rw [h.1], h.2⟩

theorem trailsWith_append (p x y : Str) (h : trailsWith p y = true) :
    trailsWith p (x ++ y) = true := by
  unfold trailsWith at h ⊢
  rw [List.reverse_append]
  exact leadsWith_of_leadsWith_append _ _ _ h

/-- Well-formed flat task filename: markdown, no path separators. -/
def goodName (n : String) : Prop :=
  trailsWith (str ".md") n.data = true ∧ ('/' : Char) ∉ n.data ∧ ('\\' : Char) ∉ n.data

/-- The file system of a flat backlog tree under project root `/r`. -/
def flatTreeFS (cfg : String) (l : List (String × String)) : FS :=
  { files := ("/r/backlog/config.yml", cfg) ::
      l.map (fun nc => (pathJoin "/r/backlog/tasks" nc.1, nc.2))
    dirs := [] }

/-- A fresh store over a flat backlog tree. -/
def flatStore (cfg : String) (l : List (String × String)) (d : String) : CoreState :=
  mkCore "/r" (flatTreeFS cfg l) d

theorem taskPath_data (n : String) :
    (pathJoin "/r/backlog/tasks" n).data = str "/r/backlog/tasks/" ++ n.data := by
  rw [pathJoin_data]
  rfl

theorem taskPath_inj (a b : String)
    (h : pathJoin "/r/backlog/tasks" a = pathJoin "/r/backlog/tasks" b) : a = b := by
  have hd := congrArg String.data h
  rw [taskPath_data, taskPath_data] at hd
  have h2 := List.append_cancel_left hd
  rcases a with ⟨da⟩
  rcases b with ⟨db⟩
  cases h2
  rfl

theorem config_ne_taskPath (n : String) :
    ("/r/backlog/config.yml" : String) ≠ pathJoin "/r/backlog/tasks" n := by
  intro h
  have hd := congrArg String.data h
  rw [taskPath_data] at hd
  have h11 : (some 'c' : Option Char) = some 't' := congrArg (fun x => x.get? 11) hd
  exact absurd h11 (by decide)

theorem taskPath_ne_completedDir (n : String) :
    pathJoin "/r/backlog/tasks" n ≠ ("/r/backlog/completed" : String) := by
  intro h
  have hd := congrArg String.data h
  rw [taskPath_data] at hd
  have h11 : (some 't' : Option Char) = some 'c' := congrArg (fun x => x.get? 11) hd
  exact absurd h11 (by decide)

theorem trailsWith_md_taskPath (n : String) (h : trailsWith (str ".md") n.data = true) :
    trailsWith (str ".md") (pathJoin "/r/backlog/tasks" n).data = true := by
  rw [taskPath_data]
  exact trailsWith_append _ _ _ h

theorem config_yml_trails_false (n : String) (hmd : trailsWith (str ".md") n.data = true) :
    trailsWith (str "config.yml") (pathJoin "/r/backlog/tasks" n).data = false := by
  unfold trailsWith at hmd ⊢
  obtain ⟨l', hl', _⟩ := leadsWith_cons_shape 'd' ['m', '.'] _ hmd
  rw [taskPath_data, List.reverse_append, hl']
  rfl

theorem isTaskFile_taskPath (n : String) :
    containsSub (str "backlog/tasks/") (pathJoin "/r/backlog/tasks" n).data = true := by
  rw [taskPath_data]
  rfl

theorem extractSource_taskPath (n : String) (hs : ('/' : Char) ∉ n.data)
    (hb : ('\\' : Char) ∉ n.data) :
    extractSourceFromPath (pathJoin "/r/backlog/tasks" n) = "tasks" := by
  unfold extractSourceFromPath
  have h1 : containsSub (str "/completed/") (pathJoin "/r/backlog/tasks" n).data = false := by
    rw [taskPath_data]
    have e : containsSub (str "/completed/") (str "/r/backlog/tasks/" ++ n.data)
        = (leadsWith (str "completed/") n.data
            || containsSub (str "/completed/") n.data) := rfl
    rw [e, containsSub_false_of_not_mem _ n.data '/' (by decide) hs, Bool.or_false]
    cases h2 : leadsWith (str "completed/") n.data
    · rfl
    · exact absurd (leadsWith_subset h2 '/' (by decide)) hs
  have h2 : containsSub (str "\\completed\\") (pathJoin "/r/backlog/tasks" n).data = false := by
    apply containsSub_false_of_not_mem _ _ '\\' (by decide)
    rw [taskPath_data]
    intro hm
    rcases List.mem_append.mp hm with hm1 | hm1
    · exact absurd hm1 (by decide)
    · exact hb hm1
  rw [h1, h2]
  rfl

theorem takeWhile_no_slash (l : Str) (hs : ('/' : Char) ∉ l) :
    l.takeWhile (fun c => decide (c ≠ '/')) = l := by
  induction l with
  | nil => rfl
  | cons c cs ih =>
    have hc : decide (c ≠ '/') = true := by
      simp only [decide_eq_true_eq]
      exact fun h => hs (h ▸ List.mem_cons_self c cs)
    rw [List.takeWhile_cons, hc, if_pos rfl, ih (fun hm => hs (List.mem_cons_of_mem _ hm))]

theorem childName_taskPath (n : String) (hs : ('/' : Char) ∉ n.data) :
    childName "/r/backlog/tasks" (pathJoin "/r/backlog/tasks" n) = some n := by
  simp only [childName]
  have hcond : leadsWith ("/r/backlog/tasks".data ++ str "/")
      (pathJoin "/r/backlog/tasks" n).data = true := by
    rw [taskPath_data]
    exact leadsWith_append_self (str "/r/backlog/tasks/") n.data
  rw [hcond, if_pos rfl, taskPath_data]
  have hdrop : ((str "/r/backlog/tasks/" ++ n.data).drop
      ("/r/backlog/tasks".data ++ str "/").length) = n.data := by
    rw [show (("/r/backlog/tasks".data ++ str "/").length) = 17 from rfl]
    rfl
  rw [hdrop, takeWhile_no_slash _ hs]

theorem childName_config :
    childName "/r/backlog/tasks" "/r/backlog/config.yml" = none := rfl

theorem dedupKeep_eq_self : ∀ (l : List String), l.Nodup → dedupKeep l = l
  | [], _ => rfl
  | a :: as, h => by
    obtain ⟨hna, hnd⟩ := List.nodup_cons.mp h
    unfold dedupKeep
    rw [dedupKeep_eq_self as hnd, List.filter_eq_self.mpr]
    intro b hb
    simp only [decide_eq_true_eq]
    exact fun hc => hna (hc ▸ hb)

theorem readDir_flat (cfg : String) (l : List (String × String))
    (hgood : ∀ nc ∈ l, goodName nc.1) (hnd : (l.map (·.1)).Nodup) :
    (flatTreeFS cfg l).readDir "/r/backlog/tasks" = l.map (·.1) := by
  unfold FS.readDir flatTreeFS
  have hmap : (l.map (fun nc => (pathJoin "/r/backlog/tasks" nc.1, nc.2))).filterMap
      (fun e => childName "/r/backlog/tasks" e.1) = l.map (·.1) := by
    induction l with
    | nil => rfl
    | cons nc rest ih =>
      simp only [List.map_cons, List.filterMap_cons,
        childName_taskPath nc.1 (hgood nc (List.mem_cons_self _ _)).2.1]
      rw [ih (fun x hx => hgood x (List.mem_cons_of_mem _ hx))
        ((List.nodup_cons.mp (by simpa using hnd)).2)]
  simp only [List.filterMap_cons, childName_config, List.filterMap_nil, List.append_nil]
  rw [hmap, dedupKeep_eq_self _ hnd]

theorem readFile_eq_jsMapGet (fs : FS) (p : String) : fs.readFile p = jsMapGet fs.files p := rfl

theorem jsMapGet_mapPairs (l : List (String × String)) (n : String) :
    jsMapGet (l.map (fun nc => (pathJoin "/r/backlog/tasks" nc.1, nc.2)))
      (pathJoin "/r/backlog/tasks" n) = jsMapGet l n := by
  induction l with
  | nil => rfl
  | cons nc rest ih =>
    obtain ⟨a, b⟩ := nc
    simp only [List.map_cons]
    by_cases he : a = n
    · subst he
      rw [jsMapGet_cons_eq _ _ _ _ rfl, jsMapGet_cons_eq _ _ _ _ rfl]
    · rw [jsMapGet_cons_ne _ _ _ _ (fun hc => he (taskPath_inj _ _ hc)),
        jsMapGet_cons_ne _ _ _ _ he, ih]

theorem readFile_flat (cfg : String) (l : List (String × String)) (n : String) :
    (flatTreeFS cfg l).readFile (pathJoin "/r/backlog/tasks" n) = jsMapGet l n := by
  rw [readFile_eq_jsMapGet]
  show jsMapGet (("/r/backlog/config.yml", cfg) ::
      l.map (fun nc => (pathJoin "/r/backlog/tasks" nc.1, nc.2)))
    (pathJoin "/r/backlog/tasks" n) = jsMapGet l n
  rw [jsMapGet_cons_ne _ _ _ _ (config_ne_taskPath n), jsMapGet_mapPairs]

theorem existsPath_tasksDir_nil (cfg : String) :
    (flatTreeFS cfg []).existsPath "/r/backlog/tasks" = false := rfl

theorem existsPath_tasksDir_cons (cfg : String) (nc : String × String)
    (rest : List (String × String)) :
    (flatTreeFS cfg (nc :: rest)).existsPath "/r/backlog/tasks" = true := by
  have h3 : leadsWith (("/r/backlog/tasks" : String).data ++ str "/")
      (pathJoin "/r/backlog/tasks" nc.1).data = true := by
    rw [taskPath_data]
    exact leadsWith_append_self (str "/r/backlog/tasks/") nc.1.data
  simp only [FS.existsPath, flatTreeFS, List.map_cons, List.any_cons, h3,
    Bool.or_true, Bool.true_or]

theorem existsPath_completed_flat (cfg : String) (l : List (String × String)) :
    (flatTreeFS cfg l).existsPath "/r/backlog/completed" = false := by
  simp only [FS.existsPath, flatTreeFS, Bool.or_eq_false_iff, List.any_eq_false]
  refine ⟨⟨?_, ?_⟩, ?_⟩
  · intro e he
    rcases List.mem_cons.mp he with rfl | hm
    · intro hc
      have hc' : ("/r/backlog/config.yml" : String) = "/r/backlog/completed" :=
        of_decide_eq_true hc
      exact absurd hc' (by decide)
    · obtain ⟨nc, hnc, rfl⟩ := List.mem_map.mp hm
      intro hc
      exact taskPath_ne_completedDir nc.1 (of_decide_eq_true hc)
  · rfl
  · intro e he
    rcases List.mem_cons.mp he with rfl | hm
    · intro hc
      exact Bool.noConfusion (hc : false = true)
    · obtain ⟨nc, hnc, rfl⟩ := List.mem_map.mp hm
      intro hc
      have hc' : leadsWith (("/r/backlog/completed" : String).data ++ str "/")
          (pathJoin "/r/backlog/tasks" nc.1).data = true := hc
      have hf : leadsWith (("/r/backlog/completed" : String).data ++ str "/")
          (pathJoin "/r/backlog/tasks" nc.1).data = false := by
        rw [taskPath_data]
        rfl
      rw [hf] at hc'
      exact Bool.noConfusion hc'

theorem isDirectory_flat_false (cfg : String) (l : List (String × String))
    (hgood : ∀ nc ∈ l, goodName nc.1) (n : String) :
    (flatTreeFS cfg l).isDirectory (pathJoin "/r/backlog/tasks" n) = false := by
  simp only [FS.isDirectory, flatTreeFS, Bool.or_eq_false_iff, List.any_eq_false]
  constructor
  · rfl
  · intro e he
    rcases List.mem_cons.mp he with rfl | hm
    · intro hc
      have hc' : leadsWith ((pathJoin "/r/backlog/tasks" n).data ++ str "/")
          (("/r/backlog/config.yml" : String)).data = true := hc
      have hf : leadsWith ((pathJoin "/r/backlog/tasks" n).data ++ str "/")
          (("/r/backlog/config.yml" : String)).data = false := by
        rw [taskPath_data]
        rfl
      rw [hf] at hc'
      exact Bool.noConfusion hc'
    · obtain ⟨nc, hnc, rfl⟩ := List.mem_map.mp hm
      intro hc
      have hc' : leadsWith ((pathJoin "/r/backlog/tasks" n).data ++ str "/")
          (pathJoin "/r/backlog/tasks" nc.1).data = true := hc
      rw [taskPath_data, taskPath_data, List.append_assoc, leadsWith_append_same] at hc'
      have hmem : ('/' : Char) ∈ nc.1.data :=
        leadsWith_subset hc' '/' (List.mem_append_right _ (by decide))
      exact absurd hmem (hgood nc hnc).2.1

theorem jsMapGet_isSome_of_mem (l : List (String × String)) (n : String)
    (h : n ∈ l.map (·.1)) : (jsMapGet l n).isSome = true := by
  induction l with
  | nil => simp at h
  | cons nc rest ih =>
    obtain ⟨a, b⟩ := nc
    simp only [List.map_cons] at h
    by_cases he : a = n
    · rw [jsMapGet_cons_eq _ _ _ _ he]
      rfl
    · rw [jsMapGet_cons_ne _ _ _ _ he]
      rcases List.mem_cons.mp h with hh | hm
      · exact absurd hh.symm he
      · exact ih hm

theorem jsMapGet_of_mem_nodup (l : List (String × String)) (nc : String × String)
    (hmem : nc ∈ l) (hnd : (l.map (·.1)).Nodup) : jsMapGet l nc.1 = some nc.2 := by
  induction l with
  | nil => cases hmem
  | cons e rest ih =>
    obtain ⟨a, b⟩ := e
    rcases List.mem_cons.mp hmem with rfl | hm
    · exact jsMapGet_cons_eq _ _ _ _ rfl
    · have hna : a ∉ rest.map (·.1) := (List.nodup_cons.mp (by simpa using hnd)).1
      have he : ¬ a = nc.1 := by
        intro hc
        exact hna (hc ▸ List.mem_map_of_mem (·.1) hm)
      rw [jsMapGet_cons_ne _ _ _ _ he]
      exact ih hm (List.nodup_cons.mp (by simpa using hnd)).2

/-- The task the eager scan produces for the flat-tree file named `n`. -/
def eagerTask (l : List (String × String)) (d n : String) : Task :=
  { parseTaskMarkdown ((jsMapGet l n).getD "") (pathJoin "/r/backlog/tasks" n) d with
    source := some "local" }

/-- The lazy index entry for the flat-tree file named `n`. -/
def lentry (n : String) : TaskIndexEntry :=
  extractTaskIndexFromPath (pathJoin "/r/backlog/tasks" n)

/-- The cached task map the eager initialization builds over a flat tree. -/
def eagerMap (l : List (String × String)) (d : String) : List (String × Task) :=
  (l.map (·.1)).foldl (fun m n => jsMapSet m (eagerTask l d n).id (eagerTask l d n)) []

/-- The index the lazy initialization builds over a flat tree. -/
def lazyMap (l : List (String × String)) : List (String × TaskIndexEntry) :=
  l.foldl (fun m nc => jsMapSet m (lentry nc.1).id (lentry nc.1)) []

theorem lazyIndexStep_taskPath (m : List (String × TaskIndexEntry)) (n : String)
    (hg : goodName n) :
    Core.lazyIndexStep m (pathJoin "/r/backlog/tasks" n)
      = jsMapSet m (lentry n).id (lentry n) := by
  unfold Core.lazyIndexStep
  rw [trailsWith_md_taskPath n hg.1, if_neg (fun hc => hc rfl), isTaskFile_taskPath n,
    config_yml_trails_false n hg.1]
  rfl

theorem lazyFold (l : List (String × String)) (hgood : ∀ nc ∈ l, goodName nc.1) :
    ∀ m, (l.map (fun nc => pathJoin "/r/backlog/tasks" nc.1)).foldl Core.lazyIndexStep m
      = l.foldl (fun m nc => jsMapSet m (lentry nc.1).id (lentry nc.1)) m := by
  induction l with
  | nil => intro m; rfl
  | cons nc rest ih =>
    intro m
    simp only [List.map_cons, List.foldl_cons]
    rw [lazyIndexStep_taskPath m nc.1 (hgood nc (List.mem_cons_self _ _))]
    exact ih (fun x hx => hgood x (List.mem_cons_of_mem _ hx)) _

theorem jsMapGet_foldSet (l : List α) (k : α → String) (v : α → β) :
    ∀ (m : List (String × β)) (id : String),
      jsMapGet (l.foldl (fun m a => jsMapSet m (k a) (v a)) m) id
        = match l.reverse.find? (fun a => decide (k a = id)) with
          | some a => some (v a)
          | none => jsMapGet m id := by
  induction l with
  | nil => intro m id; rfl
  | cons a rest ih =>
    intro m id
    simp only [List.foldl_cons, List.reverse_cons]
    rw [ih]
    rcases hf : rest.reverse.find? (fun x => decide (k x = id)) with _ | b
    · simp only [hf]
      rw [List.find?_append, hf]
      simp only [Option.none_or]
      rw [jsMapGet_jsMapSet]
      by_cases hk : k a = id
      · rw [if_pos hk.symm]
        have : List.find? (fun x => decide (k x = id)) [a] = some a := by
          simp [List.find?, hk]
        rw [this]
      · rw [if_neg (fun hc => hk hc.symm)]
        have : List.find? (fun x => decide (k x = id)) [a] = none := by
          simp [List.find?, hk]
        rw [this]
    · simp only [hf]
      rw [List.find?_append, hf]
      rfl

theorem eagerFold (cfg d : String) (l : List (String × String)) :
    ∀ (entries : List String) (st : CoreState), st.fs = flatTreeFS cfg l → st.today = d →
      (∀ n ∈ entries, (n ∈ l.map (·.1)) ∧ goodName n) →
      (∀ nc ∈ l, goodName nc.1) →
      entries.foldl
        (fun st entry =>
          let fullPath := pathJoin "/r/backlog/tasks" entry
          if st.fs.isDirectory fullPath then st
          else if ¬ trailsWith (str ".md") entry.data then st
          else
            match st.fs.readFile fullPath with
            | none => st
            | some content =>
              let task := { parseTaskMarkdown content fullPath st.today with
                source := some "local" }
              { st with tasks := jsMapSet st.tasks task.id task }) st
      = { st with tasks := List.foldl (fun m n => jsMapSet m (eagerTask l d n).id (eagerTask l d n)) st.tasks entries } := by
  intro entries
  induction entries with
  | nil =>
    intro st _ _ _ _
    rfl
  | cons n rest ih =>
    intro st hfs htoday hent hgood
    simp only [List.foldl_cons]
    have hstep : (if st.fs.isDirectory (pathJoin "/r/backlog/tasks" n) = true then st
        else if ¬ trailsWith (str ".md") n.data = true then st
        else
          match st.fs.readFile (pathJoin "/r/backlog/tasks" n) with
          | none => st
          | some content =>
            let task := { parseTaskMarkdown content (pathJoin "/r/backlog/tasks" n) st.today with
              source := some "local" }
            { st with tasks := jsMapSet st.tasks task.id task })
        = { st with tasks := jsMapSet st.tasks (eagerTask l d n).id (eagerTask l d n) } := by
      rw [hfs, htoday, isDirectory_flat_false cfg l hgood n,
        if_neg (fun hc => Bool.noConfusion hc),
        (hent n (List.mem_cons_self _ _)).2.1, if_neg (fun hc => hc rfl),
        readFile_flat cfg l n]
      rcases hv : jsMapGet l n with _ | c
      · have hsome := jsMapGet_isSome_of_mem l n (hent n (List.mem_cons_self _ _)).1
        rw [hv] at hsome
        exact absurd hsome (by simp)
      · rw [show (eagerTask l d n)
            = { parseTaskMarkdown c (pathJoin "/r/backlog/tasks" n) d with
                source := some "local" } from by unfold eagerTask; rw [hv]; rfl]
    rw [hstep]
    exact ih { st with tasks := jsMapSet st.tasks (eagerTask l d n).id (eagerTask l d n) }
      hfs htoday (fun x hx => hent x (List.mem_cons_of_mem _ hx)) hgood

/-- The flat store after the config phase of either initialization. -/
def s1Flat (cfg : String) (l : List (String × String)) (d : String) : CoreState :=
  { flatStore cfg l d with config := some (parseBacklogConfig cfg) }

/-- The flat store after the tasks-directory scan. -/
def s2Flat (cfg : String) (l : List (String × String)) (d : String) : CoreState :=
  if (s1Flat cfg l d).fs.existsPath (s1Flat cfg l d).tasksDir = true then
    Core.loadTasksFromDirectory (s1Flat cfg l d) (s1Flat cfg l d).tasksDir "local"
  else s1Flat cfg l d

/-- The flat store after the completed-directory scan. -/
def s3Flat (cfg : String) (l : List (String × String)) (d : String) : CoreState :=
  if (s2Flat cfg l d).fs.existsPath (s2Flat cfg l d).completedDir = true then
    Core.loadTasksFromDirectory (s2Flat cfg l d) (s2Flat cfg l d).completedDir "completed"
  else s2Flat cfg l d

set_option maxHeartbeats 2000000 in
theorem s2Flat_eq (cfg d : String) (l : List (String × String))
    (hgood : ∀ nc ∈ l, goodName nc.1) (hnd : (l.map (·.1)).Nodup) :
    s2Flat cfg l d = { s1Flat cfg l d with tasks := eagerMap l d } := by
  rcases l with _ | ⟨nc, rest⟩
  · rfl
  · unfold s2Flat
    rw [show (s1Flat cfg (nc :: rest) d).fs = flatTreeFS cfg (nc :: rest) from rfl,
      show (s1Flat cfg (nc :: rest) d).tasksDir = "/r/backlog/tasks" from rfl,
      existsPath_tasksDir_cons cfg nc rest, if_pos rfl]
    unfold Core.loadTasksFromDirectory
    rw [show (s1Flat cfg (nc :: rest) d).fs = flatTreeFS cfg (nc :: rest) from rfl,
      readDir_flat cfg (nc :: rest) hgood hnd]
    have hent : ∀ n ∈ (nc :: rest).map (·.1),
        (n ∈ (nc :: rest).map (·.1)) ∧ goodName n := by
      intro n hn
      obtain ⟨x, hx, rfl⟩ := List.mem_map.mp hn
      exact ⟨hn, hgood x hx⟩
    exact eagerFold cfg d (nc :: rest) ((nc :: rest).map (·.1)) (s1Flat cfg (nc :: rest) d)
      rfl rfl hent hgood

theorem s3Flat_eq (cfg d : String) (l : List (String × String))
    (hgood : ∀ nc ∈ l, goodName nc.1) (hnd : (l.map (·.1)).Nodup) :
    s3Flat cfg l d = s2Flat cfg l d := by
  unfold s3Flat
  rw [s2Flat_eq cfg d l hgood hnd]
  rw [show ({ s1Flat cfg l d with tasks := eagerMap l d } : CoreState).fs
      = flatTreeFS cfg l from rfl,
    show ({ s1Flat cfg l d with tasks := eagerMap l d } : CoreState).completedDir
      = "/r/backlog/completed" from rfl,
    existsPath_completed_flat cfg l, if_neg (fun hc => Bool.noConfusion hc)]

/-- The eager store over a flat tree. -/
def seFlat (cfg : String) (l : List (String × String)) (d : String) : CoreState :=
  { s1Flat cfg l d with tasks := eagerMap l d, initialized := true }

/-- The lazy store over a flat tree. -/
def slFlat (cfg : String) (l : List (String × String)) (d : String) : CoreState :=
  { s1Flat cfg l d with taskIndex := lazyMap l, lazyInitialized := true }

theorem initializeStore_flat (cfg d : String) (l : List (String × String))
    (hgood : ∀ nc ∈ l, goodName nc.1) (hnd : (l.map (·.1)).Nodup) :
    Core.initializeStore (flatStore cfg l d) = .ok (seFlat cfg l d) := by
  have e0 : Core.initializeStore (flatStore cfg l d)
      = .ok { s3Flat cfg l d with initialized := true } := rfl
  rw [e0, s3Flat_eq cfg d l hgood hnd, s2Flat_eq cfg d l hgood hnd]
  rfl

theorem initializeLazy_flat (cfg d : String) (l : List (String × String))
    (hgood : ∀ nc ∈ l, goodName nc.1) :
    Core.initializeLazy (flatStore cfg l d)
        (l.map (fun nc => pathJoin "/r/backlog/tasks" nc.1))
      = .ok (slFlat cfg l d) := by
  have e0 : Core.initializeLazy (flatStore cfg l d)
        (l.map (fun nc => pathJoin "/r/backlog/tasks" nc.1))
      = .ok { s1Flat cfg l d with
          taskIndex := (l.map (fun nc => pathJoin "/r/backlog/tasks" nc.1)).foldl
            Core.lazyIndexStep []
          lazyInitialized := true } := rfl
  rw [e0, lazyFold l hgood]
  rfl

/-- C4 (amended): over any flat backlog tree (task files directly in
`backlog/tasks/`, markdown names without path separators, no duplicate
names), eager and lazy initialization agree: for every id, `getTask` on
the eagerly initialized store returns exactly what `loadTask` produces
on the lazily initialized store. -/
theorem c4_flat_tree_lazy_eager_agree (cfg d : String) (l : List (String × String))
    (hgood : ∀ nc ∈ l, goodName nc.1) (hnd : (l.map (·.1)).Nodup) :
    ∃ se sl,
      Core.initializeStore (flatStore cfg l d) = .ok se ∧
      Core.initializeLazy (flatStore cfg l d)
          (l.map (fun nc => pathJoin "/r/backlog/tasks" nc.1)) = .ok sl ∧
      ∀ id, Core.getTask se id = .ok ((Core.loadTask sl id).1) := by
  refine ⟨_, _, initializeStore_flat cfg d l hgood hnd, initializeLazy_flat cfg d l hgood, ?_⟩
  intro id
  have hfind : (l.map (·.1)).reverse.find? (fun n => decide ((eagerTask l d n).id = id))
      = (l.reverse.find? (fun nc => decide ((lentry nc.1).id = id))).map (·.1) := by
    rw [← List.map_reverse, List.find?_map]
    have hp : ((fun n => decide ((eagerTask l d n).id = id)) ∘ (fun x : String × String => x.1))
        = (fun nc : String × String => decide ((lentry nc.1).id = id)) := by
      funext nc
      rfl
    rw [hp]
  have egetTask : Core.getTask (seFlat cfg l d) id = .ok (jsMapGet (eagerMap l d) id) := rfl
  rw [egetTask]
  rcases hf : l.reverse.find? (fun nc => decide ((lentry nc.1).id = id)) with _ | nc
  · have hL : jsMapGet (eagerMap l d) id = none := by
      unfold eagerMap
      rw [jsMapGet_foldSet, hfind, hf]
      rfl
    have hnone : jsMapGet (lazyMap l) id = none := by
      unfold lazyMap
      rw [jsMapGet_foldSet, hf]
      rfl
    have eload : Core.loadTask (slFlat cfg l d) id = (none, slFlat cfg l d) := by
      unfold Core.loadTask
      rw [show jsMapGet (slFlat cfg l d).taskIndex id = jsMapGet (lazyMap l) id from rfl,
        hnone]
      rfl
    rw [hL, eload]
  · have hmem : nc ∈ l := List.mem_reverse.mp (List.mem_of_find?_eq_some hf)
    have hgn := hgood nc hmem
    have hget : jsMapGet l nc.1 = some nc.2 := jsMapGet_of_mem_nodup l nc hmem hnd
    have hL : jsMapGet (eagerMap l d) id = some (eagerTask l d nc.1) := by
      unfold eagerMap
      rw [jsMapGet_foldSet, hfind, hf]
      rfl
    have hsome : jsMapGet (lazyMap l) id = some (lentry nc.1) := by
      unfold lazyMap
      rw [jsMapGet_foldSet, hf]
    have e1 : Core.loadTask (slFlat cfg l d) id
        = (match (flatTreeFS cfg l).readFile (pathJoin "/r/backlog/tasks" nc.1) with
          | none => (none, slFlat cfg l d)
          | some content =>
            let task := { parseTaskMarkdown content (pathJoin "/r/backlog/tasks" nc.1) d with
              source := some (if (lentry nc.1).source = "completed" then "completed"
                else "local") }
            (some task, { slFlat cfg l d with
              tasks := jsMapSet (slFlat cfg l d).tasks task.id task })) := by
      unfold Core.loadTask
      rw [show jsMapGet (slFlat cfg l d).taskIndex id = jsMapGet (lazyMap l) id from rfl,
        hsome]
      rfl
    have eload : (Core.loadTask (slFlat cfg l d) id).1 = some (eagerTask l d nc.1) := by
      rw [e1, readFile_flat cfg l nc.1, hget,
        show (lentry nc.1).source = "tasks" from extractSource_taskPath nc.1 hgn.2.1 hgn.2.2,
        show (eagerTask l d nc.1)
          = { parseTaskMarkdown nc.2 (pathJoin "/r/backlog/tasks" nc.1) d with
              source := some "local" } from by unfold eagerTask; rw [hget]; rfl]
      rfl
    rw [hL, eload]

/-- Concrete flat tree used by the C4 witness. -/
def c4WitnessTree : List (String × String) :=
  [("1 - A.md", "---\nstatus: To Do\ncreatedDate: 2024-01-01\n---\n\n# A\n"),
   ("2 - B.md", "---\nstatus: To Do\ncreatedDate: 2024-01-02\n---\n\n# B\n")]

/-- C4 witness: a concrete two-file flat tree satisfies the hypotheses
and the stores agree on id `1`. -/
theorem c4_flat_tree_lazy_eager_agree_witness :
    (∀ nc ∈ c4WitnessTree, goodName nc.1) ∧ (c4WitnessTree.map (·.1)).Nodup ∧
    ∃ se sl,
      Core.initializeStore (flatStore c4Config c4WitnessTree "2025-01-02") = .ok se ∧
      Core.initializeLazy (flatStore c4Config c4WitnessTree "2025-01-02")
          (c4WitnessTree.map (fun nc => pathJoin "/r/backlog/tasks" nc.1)) = .ok sl ∧
      Core.getTask se "1" = .ok ((Core.loadTask sl "1").1) := by
  have hgood : ∀ nc ∈ c4WitnessTree, goodName nc.1 := by
    simp only [goodName]
    decide
  have hnd : (c4WitnessTree.map (·.1)).Nodup := by decide
  refine ⟨hgood, hnd, ?_⟩
  obtain ⟨se, sl, h1, h2, h3⟩ :=
    c4_flat_tree_lazy_eager_agree c4Config "2025-01-02" c4WitnessTree hgood hnd
  exact ⟨se, sl, h1, h2, h3 "1"⟩

/-! ## C2: milestone sync on createTask / updateTask -/

theorem isDig_not_ws (c : Char) (h : isDig c = true) : jsWS c = false := by
  cases hws : jsWS c with
  | false => rfl
  | true =>
    exfalso
    unfold jsWS at hws
    simp only [Bool.or_eq_true, decide_eq_true_eq] at hws
    rcases hws with ((((rfl | rfl) | rfl) | rfl) | rfl) | rfl <;> exact absurd h (by decide)

theorem isDig_not_lineTerm (c : Char) (h : isDig c = true) : jsLineTerm c = false := by
  cases ht : jsLineTerm c with
  | false => rfl
  | true =>
    exfalso
    unfold jsLineTerm at ht
    simp only [Bool.or_eq_true, decide_eq_true_eq] at ht
    rcases ht with rfl | rfl <;> exact absurd h (by decide)

theorem any_jsLineTerm_false (l : Str) (h1 : ('\n' : Char) ∉ l)
    (h2 : ('\r' : Char) ∉ l) : l.any jsLineTerm = false := by
  rw [List.any_eq_false]
  intro c hc hct
  unfold jsLineTerm at hct
  simp only [Bool.or_eq_true, decide_eq_true_eq] at hct
  rcases hct with rfl | rfl
  · exact h1 hc
  · exact h2 hc

theorem dropWhile_ws_eq_self (l : Str) (h : ∀ c ∈ l, jsWS c = false) :
    l.dropWhile jsWS = l := by
  cases l with
  | nil => rfl
  | cons a t =>
    rw [List.dropWhile_cons, h a (List.mem_cons_self a t)]
    simp

theorem trimJs_eq_self (l : Str) (h : ∀ c ∈ l, jsWS c = false) : trimJs l = l := by
  unfold trimJs
  rw [dropWhile_ws_eq_self l h,
    dropWhile_ws_eq_self l.reverse (fun c hc => h c (List.mem_reverse.mp hc)),
    List.reverse_reverse]

theorem trimJs_wrap (a b : Char) (xs : Str) (ha : jsWS a = false) (hb : jsWS b = false) :
    trimJs (a :: (xs ++ [b])) = a :: (xs ++ [b]) := by
  have hrev : (a :: (xs ++ [b])).reverse = b :: (xs.reverse ++ [a]) := by
    simp [List.reverse_cons, List.reverse_append]
  unfold trimJs
  rw [List.dropWhile_cons, ha]
  simp only [Bool.false_eq_true, if_false]
  rw [hrev, List.dropWhile_cons, hb]
  simp only [Bool.false_eq_true, if_false]
  rw [← hrev, List.reverse_reverse]

theorem trimJs_cons_space (l : Str) : trimJs (' ' :: l) = trimJs l := rfl

theorem quoteStrip_no_quote (a : Char) (t : Str) (h1 : a ≠ '"') (h2 : a ≠ '\'') :
    quoteStrip (a :: t) = a :: t := by
  unfold quoteStrip
  rcases hr : (a :: t).reverse.head? with _ | b <;>
    simp only [List.head?_cons, hr, decide_eq_false h1, decide_eq_false h2, Bool.false_and,
      Bool.or_self, Bool.false_eq_true, if_false]

theorem quoteStrip_wrap (xs : Str) : quoteStrip ('"' :: (xs ++ ['"'])) = xs := by
  have hrev : ('"' :: (xs ++ ['"'])).reverse = '"' :: (xs.reverse ++ ['"']) := by
    simp [List.reverse_cons, List.reverse_append]
  unfold quoteStrip
  simp only [List.head?_cons, hrev]
  rw [if_pos (by simp)]
  simp only [List.drop_one, List.tail_cons]
  simp [List.dropLast_concat]

theorem splitFirst_cons_not_lead (sep : Str) (c : Char) (t : Str)
    (h : leadsWith sep (c :: t) = false) :
    splitFirst sep (c :: t) = (splitFirst sep t).map (fun p => (c :: p.1, p.2)) := by
  rcases hsp : splitFirst sep t with _ | ⟨x, y⟩ <;>
    simp only [splitFirst, h, Bool.false_eq_true, if_false, hsp, Option.map_none',
      Option.map_some']

theorem splitFirst_append_ne (s₀ : Char) (ss : Str) (a t : Str) (ha : s₀ ∉ a) :
    splitFirst (s₀ :: ss) (a ++ t)
      = (splitFirst (s₀ :: ss) t).map (fun p => (a ++ p.1, p.2)) := by
  induction a with
  | nil =>
    simp only [List.nil_append]
    rcases splitFirst (s₀ :: ss) t with _ | ⟨x, y⟩ <;> rfl
  | cons c a' ih =>
    have hc : s₀ ≠ c := fun he => ha (he ▸ List.mem_cons_self c a')
    have hlead : leadsWith (s₀ :: ss) (c :: (a' ++ t)) = false := by
      simp only [leadsWith, decide_eq_false hc, Bool.false_and]
    rw [List.cons_append, splitFirst_cons_not_lead _ _ _ hlead,
      ih (fun hm => ha (List.mem_cons_of_mem _ hm))]
    rcases splitFirst (s₀ :: ss) t with _ | ⟨x, y⟩ <;> rfl

theorem splitOnChar_no (sep : Char) (l : Str) (h : sep ∉ l) : splitOnChar sep l = [l] := by
  induction l with
  | nil => rfl
  | cons c t ih =>
    have hc : ¬ (c = sep) := fun he => h (he ▸ List.mem_cons_self c t)
    simp only [splitOnChar, if_neg hc, ih (fun hm => h (List.mem_cons_of_mem _ hm))]

theorem splitOnChar_append (sep : Char) (a b : Str) (ha : sep ∉ a) :
    splitOnChar sep (a ++ sep :: b) = a :: splitOnChar sep b := by
  induction a with
  | nil => simp only [List.nil_append, splitOnChar, if_pos rfl, if_true]
  | cons c a' ih =>
    have hc : ¬ (c = sep) := fun he => ha (he ▸ List.mem_cons_self c a')
    have hh := ih (fun hm => ha (List.mem_cons_of_mem _ hm))
    rw [List.cons_append]
    rw [show splitOnChar sep (c :: (a' ++ sep :: b))
        = (match splitOnChar sep (a' ++ sep :: b) with
           | [] => [[c]]
           | p :: ps => (c :: p) :: ps) from by
      simp only [splitOnChar, if_neg hc]]
    rw [hh]

theorem joinSep_not_mem (c : Char) (sep : Str) (hc : c ∉ sep) :
    ∀ (es : List Str), (∀ e ∈ es, c ∉ e) → c ∉ joinSep sep es
  | [], _ => List.not_mem_nil c
  | [e], h => h e (List.mem_cons_self e [])
  | e :: e' :: rest, h => by
    intro hm
    rw [show joinSep sep (e :: e' :: rest) = e ++ sep ++ joinSep sep (e' :: rest) from rfl]
      at hm
    rcases List.mem_append.mp hm with hm1 | hm1
    · rcases List.mem_append.mp hm1 with hm2 | hm2
      · exact h e (List.mem_cons_self e _) hm2
      · exact hc hm2
    · exact joinSep_not_mem c sep hc (e' :: rest)
        (fun x hx => h x (List.mem_cons_of_mem _ hx)) hm1

theorem escapeQuotes_not_mem (c : Char) (h1 : c ≠ '\\') (h2 : c ≠ '"') :
    ∀ (l : Str), c ∉ l → c ∉ escapeQuotes l
  | [], _ => List.not_mem_nil c
  | a :: t, h => by
    have hrec := escapeQuotes_not_mem c h1 h2 t (fun hm => h (List.mem_cons_of_mem _ hm))
    have hca : c ≠ a := fun he => h (he ▸ List.mem_cons_self a t)
    rw [show escapeQuotes (a :: t)
        = (if a = '\\' then '\\' :: '\\' :: escapeQuotes t
           else if a = '"' then '\\' :: '"' :: escapeQuotes t
           else a :: escapeQuotes t) from rfl]
    split_ifs with hA hB
    · simp only [List.mem_cons, not_or]
      exact ⟨h1, h1, hrec⟩
    · simp only [List.mem_cons, not_or]
      exact ⟨h1, h2, hrec⟩
    · simp only [List.mem_cons, not_or]
      exact ⟨hca, hrec⟩


theorem splitJoin_cons : ∀ (e : Str) (es : List Str),
    (∀ x ∈ e :: es, (',' : Char) ∉ x) →
    splitOnChar ',' (joinSep (str ", ") (e :: es)) = e :: es.map (fun x => ' ' :: x)
  | e, [], h => splitOnChar_no ',' e (h e (List.mem_cons_self e []))
  | e, e' :: rest, h => by
    rw [show joinSep (str ", ") (e :: e' :: rest)
        = e ++ (',' :: ' ' :: joinSep (str ", ") (e' :: rest)) from by
      rw [show joinSep (str ", ") (e :: e' :: rest)
          = e ++ str ", " ++ joinSep (str ", ") (e' :: rest) from rfl, List.append_assoc]
      rfl]
    rw [splitOnChar_append ',' e _ (h e (List.mem_cons_self e _))]
    have ih := splitJoin_cons e' rest (fun x hx => h x (List.mem_cons_of_mem _ hx))
    rw [show splitOnChar ',' (' ' :: joinSep (str ", ") (e' :: rest))
        = match splitOnChar ',' (joinSep (str ", ") (e' :: rest)) with
          | [] => [[' ']]
          | p :: ps => (' ' :: p) :: ps from by
      simp only [splitOnChar, if_neg (by decide : ¬ (' ' = ','))]]
    rw [ih]
    rfl

theorem milestoneTasksItems (es : List String)
    (h : ∀ t ∈ es, t.data ≠ [] ∧ (',' : Char) ∉ t.data ∧ trimJs t.data = t.data) :
    ((splitOnChar ',' (joinSep (str ", ") (es.map String.data))).map
        (fun s => String.mk (trimJs s))).filter (· ≠ "") = es := by
  rcases es with _ | ⟨e, rest⟩
  · rfl
  · rw [List.map_cons, splitJoin_cons e.data (rest.map String.data) ?hc]
    case hc =>
      intro x hx
      rcases List.mem_cons.mp hx with rfl | hx'
      · exact (h e (List.mem_cons_self e _)).2.1
      · obtain ⟨t, ht, rfl⟩ := List.mem_map.mp hx'
        exact (h t (List.mem_cons_of_mem _ ht)).2.1
    rw [List.map_cons, (h e (List.mem_cons_self e _)).2.2, List.map_map]
    have hrest : (rest.map String.data).map
        ((fun s => String.mk (trimJs s)) ∘ (fun x => ' ' :: x)) = rest := by
      rw [List.map_map]
      have hpt : ∀ t ∈ rest,
          (((fun s => String.mk (trimJs s)) ∘ (fun x => ' ' :: x)) ∘ String.data) t = t := by
        intro t ht
        show String.mk (trimJs (' ' :: t.data)) = t
        rw [trimJs_cons_space, (h t (List.mem_cons_of_mem _ ht)).2.2]
      rw [List.map_congr_left hpt, List.map_id']
    rw [hrest]
    show (e :: rest).filter (· ≠ "") = e :: rest
    rw [List.filter_eq_self.mpr]
    intro s hs
    have hne : s.data ≠ [] := by
      rcases List.mem_cons.mp hs with rfl | hs'
      · exact (h s (List.mem_cons_self _ _)).1
      · exact (h s (List.mem_cons_of_mem _ hs')).1
    exact decide_eq_true (fun hse => hne ((congrArg String.data hse).trans rfl))

theorem applyFm_id (fm : MilestoneFrontmatter) (idv : String) (ds : Str)
    (hid : idv.data = 'm' :: '-' :: ds) (hdig : ∀ c ∈ ds, isDig c = true) :
    applyMilestoneFmLine fm (str "id: " ++ idv.data) = { fm with id := some idv } := by
  rw [hid]
  have hany : ds.any jsLineTerm = false := by
    rw [List.any_eq_false]
    intro c hc hct
    rw [isDig_not_lineTerm c (hdig c hc)] at hct
    exact Bool.noConfusion hct
  have hmk : matchKeyValue (str "id: " ++ ('m' :: '-' :: ds))
      = some (str "id", 'm' :: '-' :: ds) := by
    rw [show matchKeyValue (str "id: " ++ ('m' :: '-' :: ds))
        = (if ds.any jsLineTerm = true then none
           else some (str "id", 'm' :: '-' :: ds)) from rfl, hany]
    rfl
  have htr : trimJs ('m' :: '-' :: ds) = 'm' :: '-' :: ds := by
    apply trimJs_eq_self
    intro c hc
    rcases List.mem_cons.mp hc with rfl | hc1
    · rfl
    rcases List.mem_cons.mp hc1 with rfl | hc2
    · rfl
    · exact isDig_not_ws c (hdig c hc2)
  have hqs : quoteStrip ('m' :: '-' :: ds) = 'm' :: '-' :: ds :=
    quoteStrip_no_quote 'm' _ (by decide) (by decide)
  simp only [applyMilestoneFmLine, hmk, htr, hqs]
  rw [if_pos (show String.mk (str "id") = "id" from rfl), ← hid]

theorem applyFm_title (fm : MilestoneFrontmatter) (tl : Str)
    (h1 : ('\n' : Char) ∉ tl) (h2 : ('\r' : Char) ∉ tl) :
    applyMilestoneFmLine fm (str "title: " ++ '"' :: (tl ++ ['"']))
      = { fm with title := some (String.mk tl) } := by
  have hany : (tl ++ ['"']).any jsLineTerm = false :=
    any_jsLineTerm_false _
      (fun hm => (List.mem_append.mp hm).elim (fun hx => h1 hx)
        (fun hx => absurd hx (by decide)))
      (fun hm => (List.mem_append.mp hm).elim (fun hx => h2 hx)
        (fun hx => absurd hx (by decide)))
  have hmk : matchKeyValue (str "title: " ++ '"' :: (tl ++ ['"']))
      = some (str "title", '"' :: (tl ++ ['"'])) := by
    rw [show matchKeyValue (str "title: " ++ '"' :: (tl ++ ['"']))
        = (if (tl ++ ['"']).any jsLineTerm = true then none
           else some (str "title", '"' :: (tl ++ ['"']))) from rfl, hany]
    rfl
  have htr := trimJs_wrap '"' '"' tl (by decide) (by decide)
  have hqs := quoteStrip_wrap tl
  simp only [applyMilestoneFmLine, hmk, htr, hqs]
  rw [if_pos (show String.mk (str "title") = "title" from rfl),
    if_neg (show ¬ (String.mk (str "title") = "id") from by decide)]

theorem applyFm_tasks (fm : MilestoneFrontmatter) (es : List String)
    (h : ∀ t ∈ es, t.data ≠ [] ∧ (',' : Char) ∉ t.data ∧ trimJs t.data = t.data)
    (hnl : ('\n' : Char) ∉ joinSep (str ", ") (es.map String.data))
    (hcr : ('\r' : Char) ∉ joinSep (str ", ") (es.map String.data)) :
    applyMilestoneFmLine fm
        (str "tasks: [" ++ (joinSep (str ", ") (es.map String.data) ++ str "]"))
      = { fm with tasks := some es } := by
  have hany : (joinSep (str ", ") (es.map String.data) ++ [']']).any jsLineTerm = false :=
    any_jsLineTerm_false _
      (fun hm => (List.mem_append.mp hm).elim (fun hx => hnl hx)
        (fun hx => absurd hx (by decide)))
      (fun hm => (List.mem_append.mp hm).elim (fun hx => hcr hx)
        (fun hx => absurd hx (by decide)))
  have hmk : matchKeyValue
        (str "tasks: [" ++ (joinSep (str ", ") (es.map String.data) ++ str "]"))
      = some (str "tasks", '[' :: (joinSep (str ", ") (es.map String.data) ++ [']'])) := by
    rw [show matchKeyValue
          (str "tasks: [" ++ (joinSep (str ", ") (es.map String.data) ++ str "]"))
        = (if (joinSep (str ", ") (es.map String.data) ++ [']']).any jsLineTerm = true
           then none
           else some (str "tasks",
             '[' :: (joinSep (str ", ") (es.map String.data) ++ [']']))) from rfl, hany]
    rfl
  have htr := trimJs_wrap '[' ']' (joinSep (str ", ") (es.map String.data))
    (by decide) (by decide)
  have hqs := quoteStrip_no_quote '['
    (joinSep (str ", ") (es.map String.data) ++ [']']) (by decide) (by decide)
  have htrail : trailsWith (str "]")
      ('[' :: (joinSep (str ", ") (es.map String.data) ++ [']'])) = true := by
    unfold trailsWith
    rw [show ('[' :: (joinSep (str ", ") (es.map String.data) ++ [']'])).reverse
        = ']' :: ((joinSep (str ", ") (es.map String.data)).reverse ++ ['[']) from by
      simp [List.reverse_cons, List.reverse_append]]
    rfl
  have hlead : leadsWith (str "[")
      ('[' :: (joinSep (str ", ") (es.map String.data) ++ [']'])) = true := rfl
  simp only [applyMilestoneFmLine, hmk, htr, hqs]
  rw [if_pos (show String.mk (str "tasks") = "tasks" from rfl), hlead, htrail]
  rw [if_pos (show (true && true) = true from rfl),
    if_neg (show ¬ (String.mk (str "tasks") = "id") from by decide),
    if_neg (show ¬ (String.mk (str "tasks") = "title") from by decide)]
  rw [show (('[' :: (joinSep (str ", ") (es.map String.data) ++ [']'])).drop 1).dropLast
      = joinSep (str ", ") (es.map String.data) from by
    simp [List.dropLast_concat]]
  rw [milestoneTasksItems es h]

/-- The `id:` line of a serialized milestone. -/
def msIdLine (mm : Milestone) : Str := str "id: " ++ mm.id.data

/-- The `title:` line of a serialized milestone. -/
def msTitleLine (mm : Milestone) : Str :=
  str "title: " ++ '"' :: (escapeQuotes mm.title.data ++ ['"'])

/-- The `tasks:` line of a serialized milestone. -/
def msTasksLine (mm : Milestone) : Str :=
  str "tasks: [" ++ (joinSep (str ", ") (mm.tasks.map String.data) ++ str "]")

/-- The serialized milestone body after the closing frontmatter fence. -/
def msTail (mm : Milestone) : Str :=
  '\n' :: (str "## Description" ++ '\n' :: '\n' ::
    ((if mm.description = "" then str "Milestone: " ++ mm.title.data
      else mm.description.data) ++ ['\n']))

theorem milestone_roundtrip (mm : Milestone) (ds : Str)
    (hid : mm.id.data = 'm' :: '-' :: ds) (hds : ds ≠ [])
    (hdig : ∀ c ∈ ds, isDig c = true)
    (htitle : ('\n' : Char) ∉ mm.title.data)
    (htitleR : ('\r' : Char) ∉ mm.title.data)
    (htasks : ∀ t ∈ mm.tasks, t.data ≠ [] ∧ (',' : Char) ∉ t.data ∧
      ('\n' : Char) ∉ t.data ∧ ('\r' : Char) ∉ t.data ∧ trimJs t.data = t.data) :
    (parseMilestoneMarkdown (serializeMilestoneMarkdown mm)).id = mm.id ∧
    (parseMilestoneMarkdown (serializeMilestoneMarkdown mm)).title
      = String.mk (escapeQuotes mm.title.data) ∧
    (parseMilestoneMarkdown (serializeMilestoneMarkdown mm)).tasks = mm.tasks := by
  have hidnl : ('\n' : Char) ∉ msIdLine mm := by
    intro hm
    rcases List.mem_append.mp hm with h1 | h1
    · exact absurd h1 (by decide)
    · rw [hid] at h1
      rcases List.mem_cons.mp h1 with he | h2
      · exact absurd he (by decide)
      rcases List.mem_cons.mp h2 with he | h3
      · exact absurd he (by decide)
      · exact absurd (hdig _ h3) (by decide)
  have htnl : ('\n' : Char) ∉ msTitleLine mm := by
    intro hm
    rcases List.mem_append.mp hm with h1 | h1
    · exact absurd h1 (by decide)
    rcases List.mem_cons.mp h1 with he | h2
    · exact absurd he (by decide)
    rcases List.mem_append.mp h2 with h3 | h3
    · exact escapeQuotes_not_mem '\n' (by decide) (by decide) _ htitle h3
    · exact absurd h3 (by decide)
  have hjnl : ('\n' : Char) ∉ joinSep (str ", ") (mm.tasks.map String.data) :=
    joinSep_not_mem '\n' _ (by decide) _ (fun e he => by
      obtain ⟨t, ht, rfl⟩ := List.mem_map.mp he
      exact (htasks t ht).2.2.1)
  have hknl : ('\n' : Char) ∉ msTasksLine mm := by
    intro hm
    rcases List.mem_append.mp hm with h1 | h1
    · exact absurd h1 (by decide)
    rcases List.mem_append.mp h1 with h2 | h2
    · exact hjnl h2
    · exact absurd h2 (by decide)
  have hw : splitFirst (str "\n---\n")
      (msIdLine mm ++ '\n' :: (msTitleLine mm ++ '\n' :: (msTasksLine mm ++
        '\n' :: '-' :: '-' :: '-' :: '\n' :: msTail mm)))
      = some (msIdLine mm ++ '\n' :: (msTitleLine mm ++ '\n' :: (msTasksLine mm ++ [])),
          msTail mm) := by
    rw [show (str "\n---\n") = '\n' :: str "---\n" from rfl]
    rw [splitFirst_append_ne '\n' (str "---\n") (msIdLine mm) _ hidnl]
    rw [splitFirst_cons_not_lead ('\n' :: str "---\n") '\n'
      (msTitleLine mm ++ '\n' :: (msTasksLine mm ++
        '\n' :: '-' :: '-' :: '-' :: '\n' :: msTail mm)) rfl]
    rw [splitFirst_append_ne '\n' (str "---\n") (msTitleLine mm) _ htnl]
    rw [splitFirst_cons_not_lead ('\n' :: str "---\n") '\n'
      (msTasksLine mm ++ '\n' :: '-' :: '-' :: '-' :: '\n' :: msTail mm) rfl]
    rw [splitFirst_append_ne '\n' (str "---\n") (msTasksLine mm) _ hknl]
    rw [show splitFirst ('\n' :: str "---\n")
        ('\n' :: '-' :: '-' :: '-' :: '\n' :: msTail mm) = some ([], msTail mm) from rfl]
    rfl
  have hsf : splitFrontmatter (serializeMilestoneMarkdown mm).data
      = some (msIdLine mm ++ '\n' :: (msTitleLine mm ++ '\n' :: (msTasksLine mm ++ [])),
          msTail mm) := by
    have hdata : (serializeMilestoneMarkdown mm).data
        = '-' :: '-' :: '-' :: '\n' ::
          (msIdLine mm ++ '\n' :: (msTitleLine mm ++ '\n' :: (msTasksLine mm ++
            '\n' :: '-' :: '-' :: '-' :: '\n' :: msTail mm))) := rfl
    unfold splitFrontmatter
    rw [hdata]
    exact hw
  have hlines : linesOf (msIdLine mm ++ '\n' :: (msTitleLine mm ++ '\n' ::
      (msTasksLine mm ++ []))) = [msIdLine mm, msTitleLine mm, msTasksLine mm] := by
    rw [List.append_nil]
    unfold linesOf
    rw [splitOnChar_append '\n' _ _ hidnl, splitOnChar_append '\n' _ _ htnl,
      splitOnChar_no '\n' _ hknl]
  have hjcr : ('\r' : Char) ∉ joinSep (str ", ") (mm.tasks.map String.data) :=
    joinSep_not_mem '\r' _ (by decide) _ (fun e he => by
      obtain ⟨t, ht, rfl⟩ := List.mem_map.mp he
      exact (htasks t ht).2.2.2.1)
  have htasks' : ∀ t ∈ mm.tasks, t.data ≠ [] ∧ (',' : Char) ∉ t.data ∧
      trimJs t.data = t.data :=
    fun t ht => ⟨(htasks t ht).1, (htasks t ht).2.1, (htasks t ht).2.2.2.2⟩
  have hfold : parseMilestoneFrontmatter (msIdLine mm ++ '\n' :: (msTitleLine mm ++ '\n' ::
      (msTasksLine mm ++ [])))
      = ⟨some mm.id, some (String.mk (escapeQuotes mm.title.data)), some mm.tasks⟩ := by
    unfold parseMilestoneFrontmatter
    rw [hlines]
    simp only [List.foldl_cons, List.foldl_nil]
    rw [show msIdLine mm = str "id: " ++ mm.id.data from rfl,
      applyFm_id {} mm.id ds hid hdig,
      show msTitleLine mm = str "title: " ++ '"' :: (escapeQuotes mm.title.data ++ ['"'])
        from rfl,
      applyFm_title _ _
        (fun hx => escapeQuotes_not_mem '\n' (by decide) (by decide) _ htitle hx)
        (fun hx => escapeQuotes_not_mem '\r' (by decide) (by decide) _ htitleR hx),
      show msTasksLine mm
          = str "tasks: [" ++ (joinSep (str ", ") (mm.tasks.map String.data) ++ str "]")
        from rfl,
      applyFm_tasks _ mm.tasks htasks' hjnl hjcr]
  refine ⟨?_, ?_, ?_⟩ <;>
  · simp only [parseMilestoneMarkdown, hsf]
    rw [hfold]
    rfl

/-- Path of a file inside the milestones directory of the `/r` project. -/
def msPath (n : String) : String := pathJoin "/r/backlog/milestones" n

theorem msPath_data (n : String) :
    (msPath n).data = str "/r/backlog/milestones/" ++ n.data := by
  rw [msPath, pathJoin_data]
  rfl

theorem config_ne_msPath (n : String) :
    ("/r/backlog/config.yml" : String) ≠ msPath n := by
  intro h
  have hd := congrArg String.data h
  rw [msPath_data] at hd
  have h11 : (some 'c' : Option Char) = some 'm' := congrArg (fun x => x.get? 11) hd
  exact absurd h11 (by decide)

theorem taskPath_ne_msPath (y x : String) :
    pathJoin "/r/backlog/tasks" y ≠ msPath x := by
  intro h
  have hd := congrArg String.data h
  rw [taskPath_data, msPath_data] at hd
  have h11 : (some 't' : Option Char) = some 'm' := congrArg (fun x => x.get? 11) hd
  exact absurd h11 (by decide)

theorem msPath_ne_tasksDirStr (x : String) : msPath x ≠ ("/r/backlog/tasks" : String) := by
  intro h
  have hd := congrArg String.data h
  rw [msPath_data] at hd
  have h11 : (some 'm' : Option Char) = some 't' := congrArg (fun x => x.get? 11) hd
  exact absurd h11 (by decide)

theorem msPath_ne_completedDirStr (x : String) :
    msPath x ≠ ("/r/backlog/completed" : String) := by
  intro h
  have hd := congrArg String.data h
  rw [msPath_data] at hd
  have h11 : (some 'm' : Option Char) = some 'c' := congrArg (fun x => x.get? 11) hd
  exact absurd h11 (by decide)

theorem childName_ms_self (n : String) (hs : ('/' : Char) ∉ n.data) :
    childName "/r/backlog/milestones" (msPath n) = some n := by
  simp only [childName]
  have hcond : leadsWith ("/r/backlog/milestones".data ++ str "/") (msPath n).data = true := by
    rw [msPath_data]
    exact leadsWith_append_self (str "/r/backlog/milestones/") n.data
  rw [hcond, if_pos rfl, msPath_data]
  have hdrop : ((str "/r/backlog/milestones/" ++ n.data).drop
      ("/r/backlog/milestones".data ++ str "/").length) = n.data := by
    rw [show (("/r/backlog/milestones".data ++ str "/").length) = 22 from rfl]
    rfl
  rw [hdrop, takeWhile_no_slash _ hs]

theorem childName_ms_config :
    childName "/r/backlog/milestones" "/r/backlog/config.yml" = none := rfl

theorem childName_ms_taskPath (y : String) :
    childName "/r/backlog/milestones" (pathJoin "/r/backlog/tasks" y) = none := by
  simp only [childName, taskPath_data]
  rfl

theorem childName_ms_tasksDirStr :
    childName "/r/backlog/milestones" "/r/backlog/tasks" = none := rfl

theorem ne_msPath_of_childName_none (p g : String)
    (hn : childName "/r/backlog/milestones" p = none) (hgs : ('/' : Char) ∉ g.data) :
    p ≠ msPath g := by
  intro he
  rw [he, childName_ms_self g hgs] at hn
  exact Option.noConfusion hn

theorem jsMapGet_append_none [DecidableEq κ] (A : List (κ × ν)) (l : List (κ × ν)) (k : κ)
    (h : ∀ e ∈ A, e.1 ≠ k) : jsMapGet (A ++ l) k = jsMapGet l k := by
  induction A with
  | nil => rfl
  | cons e A' ih =>
    rw [List.cons_append, jsMapGet_cons_ne _ _ _ _ (h e (List.mem_cons_self e A')),
      ih (fun x hx => h x (List.mem_cons_of_mem _ hx))]

theorem jsMapSet_append_of_ne [DecidableEq κ] (l : List (κ × ν)) (k : κ) (v : ν)
    (h : ∀ e ∈ l, e.1 ≠ k) : jsMapSet l k v = l ++ [(k, v)] := by
  induction l with
  | nil => rfl
  | cons e l' ih =>
    obtain ⟨a, b⟩ := e
    simp only [jsMapSet, if_neg (h (a, b) (List.mem_cons_self _ _)), List.cons_append,
      ih (fun x hx => h x (List.mem_cons_of_mem _ hx))]

theorem filter_keys_ne [DecidableEq κ] (l : List (κ × ν)) (k : κ)
    (h : ∀ e ∈ l, e.1 ≠ k) : l.filter (fun e => decide (e.1 ≠ k)) = l :=
  List.filter_eq_self.mpr (fun e he => decide_eq_true (h e he))

/-- `readDir` of the milestones directory when the file list holds exactly one
milestone-child entry. -/
theorem readDir_ms_shape (fs : FS) (g c : String) (A B : List (String × String))
    (hfiles : fs.files = A ++ (msPath g, c) :: B)
    (hAB : ∀ e ∈ A ++ B, childName "/r/backlog/milestones" e.1 = none)
    (hdirs : ∀ p ∈ fs.dirs, childName "/r/backlog/milestones" p = none)
    (hgs : ('/' : Char) ∉ g.data) :
    fs.readDir "/r/backlog/milestones" = [g] := by
  unfold FS.readDir
  rw [hfiles, List.filterMap_append]
  have hA : A.filterMap (fun e => childName "/r/backlog/milestones" e.1) = [] :=
    List.filterMap_eq_nil.mpr (fun e he => hAB e (List.mem_append.mpr (Or.inl he)))
  have hB : B.filterMap (fun e => childName "/r/backlog/milestones" e.1) = [] :=
    List.filterMap_eq_nil.mpr (fun e he => hAB e (List.mem_append.mpr (Or.inr he)))
  have hD : fs.dirs.filterMap (childName "/r/backlog/milestones") = [] :=
    List.filterMap_eq_nil.mpr hdirs
  rw [hA, List.filterMap_cons]
  simp only [childName_ms_self g hgs, hB, hD]
  rfl

/-- `existsPath` of the milestones directory when some milestone child is on disk. -/
theorem existsPath_ms_shape (fs : FS) (g c : String)
    (hm : (msPath g, c) ∈ fs.files) :
    fs.existsPath "/r/backlog/milestones" = true := by
  unfold FS.existsPath
  have hlw : fs.files.any
      (fun e => leadsWith ("/r/backlog/milestones".data ++ str "/") e.1.data) = true := by
    apply List.any_eq_true.mpr
    refine ⟨(msPath g, c), hm, ?_⟩
    rw [msPath_data]
    exact leadsWith_append_self (str "/r/backlog/milestones/") g.data
  rw [hlw, Bool.or_true]

theorem collapseWs_mem (r : Char) :
    ∀ (b : Bool) (l : Str) (c : Char), c ∈ collapseWs r b l → c = r ∨ c ∈ l
  | _, [], c, h => absurd h (List.not_mem_nil c)
  | b, a :: t, c, h => by
    unfold collapseWs at h
    by_cases hws : jsWS a = true
    · rw [hws] at h
      simp only [if_true] at h
      cases b with
      | true =>
        simp only [if_true] at h
        rcases collapseWs_mem r true t c h with h1 | h1
        · exact Or.inl h1
        · exact Or.inr (List.mem_cons_of_mem _ h1)
      | false =>
        simp only [Bool.false_eq_true, if_false] at h
        rcases List.mem_cons.mp h with rfl | h1
        · exact Or.inl rfl
        · rcases collapseWs_mem r true t c h1 with h2 | h2
          · exact Or.inl h2
          · exact Or.inr (List.mem_cons_of_mem _ h2)
    · rw [Bool.not_eq_true] at hws
      rw [hws] at h
      simp only [Bool.false_eq_true, if_false] at h
      rcases List.mem_cons.mp h with rfl | h1
      · exact Or.inr (List.mem_cons_self _ _)
      · rcases collapseWs_mem r false t c h1 with h2 | h2
        · exact Or.inl h2
        · exact Or.inr (List.mem_cons_of_mem _ h2)

theorem toLower_ne_slash (c : Char) (hc : c ≠ '/') : Char.toLower c ≠ '/' := by
  unfold Char.toLower
  show (if c.toNat ≥ 65 ∧ c.toNat ≤ 90 then Char.ofNat (c.toNat + 32) else c) ≠ '/'
  split_ifs with h
  · intro he
    obtain ⟨h1, h2⟩ := h
    have h1' : 65 ≤ c.toNat := h1
    have h2' : c.toNat ≤ 90 := h2
    set n := Char.toNat c with hn
    interval_cases n <;> exact absurd he (by decide)
  · exact hc

theorem takeWhile_dig (ds : Str) (hdig : ∀ c ∈ ds, isDig c = true) (t : Str) :
    (ds ++ ' ' :: t).takeWhile isDig = ds := by
  induction ds with
  | nil => rfl
  | cons c cs ih =>
    rw [List.cons_append, List.takeWhile_cons, hdig c (List.mem_cons_self c cs)]
    simp only [if_true]
    rw [ih (fun x hx => hdig x (List.mem_cons_of_mem _ hx))]

theorem extract_cons (rest : Str) :
    extractMilestoneIdFromFilename (String.mk ('m' :: '-' :: rest))
      = (if (rest.takeWhile isDig).isEmpty then none
         else some (String.mk ('m' :: '-' :: rest.takeWhile isDig))) := rfl

theorem extract_getMilestoneFilename (idv title : String) (ds : Str)
    (hid : idv.data = 'm' :: '-' :: ds) (hds : ds ≠ [])
    (hdig : ∀ c ∈ ds, isDig c = true) :
    extractMilestoneIdFromFilename (getMilestoneFilename idv title) = some idv := by
  have h1 : getMilestoneFilename idv title
      = String.mk ('m' :: '-' :: (ds ++ ' ' :: ('-' :: ' ' ::
          ((toLowerJs (collapseWs '-' false
            (title.data.filter (fun c => ¬ badFileChar c)))).take 50 ++ str ".md")))) := by
    unfold getMilestoneFilename
    rw [hid]
    apply congrArg String.mk
    simp only [List.cons_append, List.append_assoc]
    rfl
  rw [h1, extract_cons, takeWhile_dig ds hdig]
  rcases ds with _ | ⟨c, cs⟩
  · exact absurd rfl hds
  · rw [if_neg (by simp [List.isEmpty])]
    rw [← hid]

theorem slash_not_mem_msFilename (idv title : String) (ds : Str)
    (hid : idv.data = 'm' :: '-' :: ds)
    (hdig : ∀ c ∈ ds, isDig c = true) :
    ('/' : Char) ∉ (getMilestoneFilename idv title).data := by
  intro hm
  rw [show (getMilestoneFilename idv title).data
      = idv.data ++ str " - " ++ (toLowerJs (collapseWs '-' false
          (title.data.filter (fun c => ¬ badFileChar c)))).take 50 ++ str ".md" from rfl]
    at hm
  rcases List.mem_append.mp hm with h1 | h1
  · rcases List.mem_append.mp h1 with h2 | h2
    · rcases List.mem_append.mp h2 with h3 | h3
      · rw [hid] at h3
        rcases List.mem_cons.mp h3 with he | h4
        · exact absurd he (by decide)
        rcases List.mem_cons.mp h4 with he | h5
        · exact absurd he (by decide)
        · exact absurd (hdig _ h5) (by decide)
      · exact absurd h3 (by decide)
    · have h3 := List.mem_of_mem_take h2
      obtain ⟨d, hd, hde⟩ := List.mem_map.mp h3
      rcases collapseWs_mem '-' false _ d hd with rfl | hd2
      · exact absurd hde (by decide)
      · have hdm := List.mem_filter.mp hd2
        have hdf : d = '/' := by
          by_contra hne
          exact toLower_ne_slash d hne hde
        rw [hdf] at hdm
        exact absurd hdm.2 (by decide)
  · exact absurd h1 (by decide)

theorem milestonesDir_eq (s : CoreState) (hroot : s.projectRoot = "/r") :
    s.milestonesDir = "/r/backlog/milestones" := by
  unfold CoreState.milestonesDir
  rw [hroot]
  rfl

/-- `loadMilestone` on a state whose milestones directory holds exactly one
milestone file, containing a serialized milestone. -/
theorem loadMilestone_shape (s : CoreState) (mm : Milestone) (g : String)
    (A B : List (String × String))
    (hroot : s.projectRoot = "/r")
    (hfiles : s.fs.files = A ++ (msPath g, serializeMilestoneMarkdown mm) :: B)
    (hAB : ∀ e ∈ A ++ B, childName "/r/backlog/milestones" e.1 = none)
    (hdirs : ∀ p ∈ s.fs.dirs, childName "/r/backlog/milestones" p = none)
    (hg : extractMilestoneIdFromFilename g = some mm.id)
    (hgs : ('/' : Char) ∉ g.data) :
    Core.loadMilestone s mm.id
      = some (parseMilestoneMarkdown (serializeMilestoneMarkdown mm)) := by
  have hex : s.fs.existsPath "/r/backlog/milestones" = true :=
    existsPath_ms_shape s.fs g _
      (by rw [hfiles]; exact List.mem_append.mpr (Or.inr (List.mem_cons_self _ _)))
  have hrd := readDir_ms_shape s.fs g _ A B hfiles hAB hdirs hgs
  have hrf : s.fs.readFile (pathJoin "/r/backlog/milestones" g)
      = some (serializeMilestoneMarkdown mm) := by
    rw [readFile_eq_jsMapGet, hfiles,
      jsMapGet_append_none A ((msPath g, serializeMilestoneMarkdown mm) :: B)
        (pathJoin "/r/backlog/milestones" g)
        (fun e he => ne_msPath_of_childName_none _ _
          (hAB e (List.mem_append.mpr (Or.inl he))) hgs),
      jsMapGet_cons_eq (msPath g) (serializeMilestoneMarkdown mm) B
        (pathJoin "/r/backlog/milestones" g) rfl]
  have hfind : List.find?
      (fun entry => decide (extractMilestoneIdFromFilename entry = some mm.id)) [g]
      = some g := List.find?_cons_of_pos _ (by exact decide_eq_true hg)
  simp only [Core.loadMilestone, milestonesDir_eq s hroot, hex, hrd, hfind, hrf,
    eq_self_iff_true, not_true, if_false]

/-- `writeMilestoneFile` on a state whose milestones directory holds exactly one
milestone file carrying the milestone's id: the old file is deleted and the
fresh serialization is appended under the canonical filename. -/
theorem writeMilestoneFile_shape (s : CoreState) (mm' : Milestone) (g c : String)
    (A B : List (String × String))
    (hroot : s.projectRoot = "/r")
    (hfiles : s.fs.files = A ++ (msPath g, c) :: B)
    (hAB : ∀ e ∈ A ++ B, childName "/r/backlog/milestones" e.1 = none)
    (hdirs : ∀ p ∈ s.fs.dirs, childName "/r/backlog/milestones" p = none)
    (hg : extractMilestoneIdFromFilename g = some mm'.id)
    (hgs : ('/' : Char) ∉ g.data)
    (hfns : ('/' : Char) ∉ (getMilestoneFilename mm'.id mm'.title).data) :
    Core.writeMilestoneFile s mm'
      = { s with fs := FS.mk ((A ++ B) ++ [(msPath (getMilestoneFilename mm'.id mm'.title), serializeMilestoneMarkdown mm')]) s.fs.dirs } := by
  have hrd := readDir_ms_shape s.fs g c A B hfiles hAB hdirs hgs
  have hdel : s.fs.deleteFile (pathJoin "/r/backlog/milestones" g)
      = { files := A ++ B, dirs := s.fs.dirs } := by
    unfold FS.deleteFile
    rw [hfiles, List.filter_append,
      filter_keys_ne A (pathJoin "/r/backlog/milestones" g)
        (fun e he => ne_msPath_of_childName_none _ _
          (hAB e (List.mem_append.mpr (Or.inl he))) hgs)]
    rw [show List.filter (fun e => decide (e.1 ≠ pathJoin "/r/backlog/milestones" g))
        ((msPath g, c) :: B) = B from by
      rw [List.filter_cons,
        show (decide ((msPath g, c).1 ≠ pathJoin "/r/backlog/milestones" g)) = false from
          decide_eq_false (fun hne => hne rfl)]
      simp only [Bool.false_eq_true, if_false]
      exact filter_keys_ne B (pathJoin "/r/backlog/milestones" g)
        (fun e he => ne_msPath_of_childName_none _ _
          (hAB e (List.mem_append.mpr (Or.inr he))) hgs)]
  have hset : jsMapSet (A ++ B)
      (pathJoin "/r/backlog/milestones" (getMilestoneFilename mm'.id mm'.title))
      (serializeMilestoneMarkdown mm')
      = (A ++ B) ++ [(pathJoin "/r/backlog/milestones" (getMilestoneFilename mm'.id mm'.title),
          serializeMilestoneMarkdown mm')] :=
    jsMapSet_append_of_ne _ _ _ (fun e he =>
      ne_msPath_of_childName_none _ _ (hAB e he) hfns)
  have hfind : List.find?
      (fun entry => decide (extractMilestoneIdFromFilename entry = some mm'.id)) [g]
      = some g := List.find?_cons_of_pos _ (by exact decide_eq_true hg)
  simp only [Core.writeMilestoneFile, milestonesDir_eq s hroot, hrd, hfind, hdel]
  unfold FS.writeFile
  rw [hset]
  rfl

/-- Config used by the C2 store. -/
def c2Cfg : String :=
  "project_name: \"P\"\nstatuses: [\"To Do\"]\ndefault_status: \"To Do\"\n"

/-- File system holding the config and a single milestone file. -/
def c2FS (g mc : String) : FS :=
  FS.mk [("/r/backlog/config.yml", c2Cfg), (msPath g, mc)] []

/-- Fresh store over a project with one milestone on disk. -/
def c2Store (g mc today : String) : CoreState := mkCore "/r" (c2FS g mc) today

/-- The C2 store after the config phase of initialization. -/
def c2SA (g mc today : String) : CoreState :=
  { c2Store g mc today with config := some (parseBacklogConfig c2Cfg) }

/-- The C2 store after the tasks-directory scan. -/
def c2sB (g mc today : String) : CoreState :=
  if (c2SA g mc today).fs.existsPath (c2SA g mc today).tasksDir = true then
    Core.loadTasksFromDirectory (c2SA g mc today) (c2SA g mc today).tasksDir "local"
  else c2SA g mc today

/-- The C2 store after the completed-directory scan. -/
def c2sC (g mc today : String) : CoreState :=
  if (c2sB g mc today).fs.existsPath (c2sB g mc today).completedDir = true then
    Core.loadTasksFromDirectory (c2sB g mc today) (c2sB g mc today).completedDir "completed"
  else c2sB g mc today

/-- The initialized C2 store. -/
def c2S1 (g mc today : String) : CoreState :=
  { c2SA g mc today with initialized := true }

theorem existsPath_tasks_c2 (g mc : String) :
    (c2FS g mc).existsPath "/r/backlog/tasks" = false := by
  simp only [FS.existsPath, c2FS, Bool.or_eq_false_iff, List.any_eq_false]
  refine ⟨⟨?_, ?_⟩, ?_⟩
  · intro e he
    rcases List.mem_cons.mp he with rfl | hm
    · intro hc
      exact absurd (of_decide_eq_true hc) (by decide)
    rcases List.mem_cons.mp hm with rfl | hm2
    · intro hc
      exact absurd (of_decide_eq_true hc) (msPath_ne_tasksDirStr g)
    · exact absurd hm2 (List.not_mem_nil _)
  · rfl
  · intro e he
    rcases List.mem_cons.mp he with rfl | hm
    · intro hc
      exact absurd hc (by decide)
    rcases List.mem_cons.mp hm with rfl | hm2
    · intro hc
      rw [msPath_data] at hc
      exact Bool.noConfusion hc
    · exact absurd hm2 (List.not_mem_nil _)

theorem existsPath_completed_c2 (g mc : String) :
    (c2FS g mc).existsPath "/r/backlog/completed" = false := by
  simp only [FS.existsPath, c2FS, Bool.or_eq_false_iff, List.any_eq_false]
  refine ⟨⟨?_, ?_⟩, ?_⟩
  · intro e he
    rcases List.mem_cons.mp he with rfl | hm
    · intro hc
      exact absurd (of_decide_eq_true hc) (by decide)
    rcases List.mem_cons.mp hm with rfl | hm2
    · intro hc
      exact absurd (of_decide_eq_true hc) (msPath_ne_completedDirStr g)
    · exact absurd hm2 (List.not_mem_nil _)
  · rfl
  · intro e he
    rcases List.mem_cons.mp he with rfl | hm
    · intro hc
      exact absurd hc (by decide)
    rcases List.mem_cons.mp hm with rfl | hm2
    · intro hc
      rw [msPath_data] at hc
      exact Bool.noConfusion hc
    · exact absurd hm2 (List.not_mem_nil _)

theorem c2sB_eq (g mc today : String) : c2sB g mc today = c2SA g mc today := by
  unfold c2sB
  rw [show (c2SA g mc today).fs = c2FS g mc from rfl,
    show (c2SA g mc today).tasksDir = "/r/backlog/tasks" from rfl,
    existsPath_tasks_c2 g mc, if_neg (fun hc => Bool.noConfusion hc)]

theorem c2sC_eq (g mc today : String) : c2sC g mc today = c2SA g mc today := by
  unfold c2sC
  rw [c2sB_eq]
  rw [show (c2SA g mc today).fs = c2FS g mc from rfl,
    show (c2SA g mc today).completedDir = "/r/backlog/completed" from rfl,
    existsPath_completed_c2 g mc, if_neg (fun hc => Bool.noConfusion hc)]

theorem c2_init (g mc today : String) :
    Core.initializeStore (c2Store g mc today) = .ok (c2S1 g mc today) := by
  have e0 : Core.initializeStore (c2Store g mc today)
      = .ok { c2sC g mc today with initialized := true } := rfl
  rw [e0, c2sC_eq]
  rfl

/-- Path of the task file created for task `1`. -/
def c2TaskPath (T : String) : String :=
  pathJoin "/r/backlog/tasks" ("1 - " ++ sanitizeTitleJs T ++ ".md")

/-- The task built by `createTask` for the C2 store. -/
def c2NewTask (mid T today : String) : Task :=
  { id := "1", title := T, status := "To Do", assignee := [], createdDate := today,
    labels := [], milestone := some mid, dependencies := [], references := some [],
    source := some "local", filePath := some (c2TaskPath T) }

/-- The milestone as re-parsed from its own serialization. -/
def c2M1 (mm : Milestone) : Milestone :=
  parseMilestoneMarkdown (serializeMilestoneMarkdown mm)

/-- The re-parsed milestone with task `1` appended. -/
def c2MAdd (mm : Milestone) : Milestone :=
  { c2M1 mm with tasks := (c2M1 mm).tasks ++ ["1"] }

/-- The C2 store just before the milestone sync of `createTask`. -/
def c2S3 (mm : Milestone) (g T today : String) : CoreState :=
  { c2S1 g (serializeMilestoneMarkdown mm) today with
    fs := FS.mk (("/r/backlog/config.yml", c2Cfg) ::
      (msPath g, serializeMilestoneMarkdown mm) ::
      [(c2TaskPath T, serializeTaskMarkdown (c2NewTask mm.id T today))]) ["/r/backlog/tasks"]
    tasks := [("1", c2NewTask mm.id T today)] }

/-- The C2 store after `createTask` resolves. -/
def c2S2 (mm : Milestone) (g T today : String) : CoreState :=
  { c2S1 g (serializeMilestoneMarkdown mm) today with
    fs := FS.mk (("/r/backlog/config.yml", c2Cfg) ::
      (c2TaskPath T, serializeTaskMarkdown (c2NewTask mm.id T today)) ::
      [(msPath (getMilestoneFilename (c2MAdd mm).id (c2MAdd mm).title),
        serializeMilestoneMarkdown (c2MAdd mm))]) ["/r/backlog/tasks"]
    tasks := [("1", c2NewTask mm.id T today)] }

theorem c2_createTask_eq (mm : Milestone) (ds : Str) (g T today : String)
    (hid : mm.id.data = 'm' :: '-' :: ds) (hds : ds ≠ [])
    (hdig : ∀ c ∈ ds, isDig c = true)
    (htitle : ('\n' : Char) ∉ mm.title.data)
    (htitleR : ('\r' : Char) ∉ mm.title.data)
    (htasks : ∀ t ∈ mm.tasks, t.data ≠ [] ∧ (',' : Char) ∉ t.data ∧
      ('\n' : Char) ∉ t.data ∧ ('\r' : Char) ∉ t.data ∧ trimJs t.data = t.data)
    (h1 : "1" ∉ mm.tasks)
    (hg : extractMilestoneIdFromFilename g = some mm.id)
    (hgs : ('/' : Char) ∉ g.data) :
    Core.createTask (c2S1 g (serializeMilestoneMarkdown mm) today)
        { title := T, milestone := some mm.id }
      = .ok (c2NewTask mm.id T today, c2S2 mm g T today) := by
  obtain ⟨hrid, hrtitle, hrtasks⟩ := milestone_roundtrip mm ds hid hds hdig htitle htitleR htasks
  have hidne : mm.id ≠ "" := fun he =>
    List.noConfusion (hid.symm.trans (congrArg String.data he))
  have hset2 : jsMapSet
      (("/r/backlog/config.yml", c2Cfg) :: [(msPath g, serializeMilestoneMarkdown mm)])
      (c2TaskPath T) (serializeTaskMarkdown (c2NewTask mm.id T today))
      = ("/r/backlog/config.yml", c2Cfg) ::
        (msPath g, serializeMilestoneMarkdown mm) ::
        [(c2TaskPath T, serializeTaskMarkdown (c2NewTask mm.id T today))] := by
    rw [jsMapSet_append_of_ne _ _ _ ?hne]
    case hne =>
      intro e he
      rcases List.mem_cons.mp he with rfl | he2
      · exact config_ne_taskPath _
      rcases List.mem_cons.mp he2 with rfl | he3
      · exact Ne.symm (taskPath_ne_msPath _ g)
      · exact absurd he3 (List.not_mem_nil _)
    rfl
  have hAB : ∀ e ∈ ([("/r/backlog/config.yml", c2Cfg)] ++
      [(c2TaskPath T, serializeTaskMarkdown (c2NewTask mm.id T today))]),
      childName "/r/backlog/milestones" e.1 = none := by
    intro e he
    rcases List.mem_cons.mp he with rfl | he2
    · exact childName_ms_config
    rcases List.mem_cons.mp he2 with rfl | he3
    · exact childName_ms_taskPath _
    · exact absurd he3 (List.not_mem_nil _)
  have hdirs : ∀ p ∈ (c2S3 mm g T today).fs.dirs,
      childName "/r/backlog/milestones" p = none := by
    intro p hp
    rcases List.mem_cons.mp hp with rfl | hp2
    · exact childName_ms_tasksDirStr
    · exact absurd hp2 (List.not_mem_nil _)
  have hload : Core.loadMilestone (c2S3 mm g T today) mm.id = some (c2M1 mm) :=
    loadMilestone_shape (c2S3 mm g T today) mm g
      [("/r/backlog/config.yml", c2Cfg)]
      [(c2TaskPath T, serializeTaskMarkdown (c2NewTask mm.id T today))]
      rfl rfl hAB hdirs hg hgs
  have hne1 : ¬ ("1" ∈ (c2M1 mm).tasks) := by
    rw [show (c2M1 mm).tasks = mm.tasks from hrtasks]
    exact h1
  have hg2 : extractMilestoneIdFromFilename g = some (c2M1 mm).id := by
    rw [show (c2M1 mm).id = mm.id from hrid]
    exact hg
  have hfns : ('/' : Char) ∉ (getMilestoneFilename
      ({ c2M1 mm with tasks := (c2M1 mm).tasks ++ ["1"] } : Milestone).id
      ({ c2M1 mm with tasks := (c2M1 mm).tasks ++ ["1"] } : Milestone).title).data := by
    apply slash_not_mem_msFilename _ _ ds ?hidr hdig
    case hidr =>
      rw [show ({ c2M1 mm with tasks := (c2M1 mm).tasks ++ ["1"] } : Milestone).id
          = mm.id from hrid]
      exact hid
  have hwrite := writeMilestoneFile_shape (c2S3 mm g T today)
    { c2M1 mm with tasks := (c2M1 mm).tasks ++ ["1"] } g (serializeMilestoneMarkdown mm)
    [("/r/backlog/config.yml", c2Cfg)]
    [(c2TaskPath T, serializeTaskMarkdown (c2NewTask mm.id T today))]
    rfl rfl hAB hdirs hg2 hgs hfns
  have hadd : Core.addTaskToMilestone (c2S3 mm g T today) "1" mm.id
      = c2S2 mm g T today := by
    simp only [Core.addTaskToMilestone, hload]
    rw [if_neg hne1, hwrite]
    rfl
  have e0 : Core.createTask (c2S1 g (serializeMilestoneMarkdown mm) today)
        { title := T, milestone := some mm.id }
      = .ok (c2NewTask mm.id T today,
          if mm.id = "" then
            { c2S1 g (serializeMilestoneMarkdown mm) today with
              fs := FS.mk (jsMapSet (("/r/backlog/config.yml", c2Cfg) ::
                  [(msPath g, serializeMilestoneMarkdown mm)])
                (c2TaskPath T) (serializeTaskMarkdown (c2NewTask mm.id T today)))
                ["/r/backlog/tasks"]
              tasks := [("1", c2NewTask mm.id T today)] }
          else Core.addTaskToMilestone
            { c2S1 g (serializeMilestoneMarkdown mm) today with
              fs := FS.mk (jsMapSet (("/r/backlog/config.yml", c2Cfg) ::
                  [(msPath g, serializeMilestoneMarkdown mm)])
                (c2TaskPath T) (serializeTaskMarkdown (c2NewTask mm.id T today)))
                ["/r/backlog/tasks"]
              tasks := [("1", c2NewTask mm.id T today)] }
            "1" mm.id) := rfl
  rw [e0, hset2, if_neg hidne]
  rw [show ({ c2S1 g (serializeMilestoneMarkdown mm) today with
      fs := FS.mk (("/r/backlog/config.yml", c2Cfg) ::
        (msPath g, serializeMilestoneMarkdown mm) ::
        [(c2TaskPath T, serializeTaskMarkdown (c2NewTask mm.id T today))])
        ["/r/backlog/tasks"]
      tasks := [("1", c2NewTask mm.id T today)] } : CoreState) = c2S3 mm g T today from rfl]
  rw [hadd]

/-- The cached task after `updateTask` clears the milestone. -/
def c2UpdTask (T today : String) : Task :=
  { id := "1", title := T, status := "To Do", assignee := [], createdDate := today,
    updatedDate := some today, labels := [], milestone := none, dependencies := [],
    references := some [], source := some "local", filePath := some (c2TaskPath T) }

/-- The milestone re-parsed after task `1` was appended. -/
def c2M2 (mm : Milestone) : Milestone :=
  parseMilestoneMarkdown (serializeMilestoneMarkdown (c2MAdd mm))

/-- The re-parsed milestone with task `1` filtered out again. -/
def c2MRem (mm : Milestone) : Milestone :=
  { c2M2 mm with tasks := (c2M2 mm).tasks.filter (fun id => decide (id ≠ "1")) }

/-- The C2 store just before the milestone sync of `updateTask`. -/
def c2SU (mm : Milestone) (g T today : String) : CoreState :=
  { c2S1 g (serializeMilestoneMarkdown mm) today with
    fs := FS.mk (("/r/backlog/config.yml", c2Cfg) ::
      (msPath (getMilestoneFilename (c2MAdd mm).id (c2MAdd mm).title),
        serializeMilestoneMarkdown (c2MAdd mm)) ::
      [(c2TaskPath T, serializeTaskMarkdown (c2UpdTask T today))]) ["/r/backlog/tasks"]
    tasks := [("1", c2UpdTask T today)] }

/-- The C2 store after `updateTask` resolves. -/
def c2S4 (mm : Milestone) (g T today : String) : CoreState :=
  { c2S1 g (serializeMilestoneMarkdown mm) today with
    fs := FS.mk (("/r/backlog/config.yml", c2Cfg) ::
      (c2TaskPath T, serializeTaskMarkdown (c2UpdTask T today)) ::
      [(msPath (getMilestoneFilename (c2MRem mm).id (c2MRem mm).title),
        serializeMilestoneMarkdown (c2MRem mm))]) ["/r/backlog/tasks"]
    tasks := [("1", c2UpdTask T today)] }

theorem taskPath_ne_empty (T : String) : c2TaskPath T ≠ "" := by
  intro he
  have hd := congrArg String.data he
  rw [show (c2TaskPath T).data
      = str "/r/backlog/tasks/" ++ ("1 - " ++ sanitizeTitleJs T ++ ".md").data
      from taskPath_data _] at hd
  exact List.noConfusion hd

theorem c2_updateTask_eq (mm : Milestone) (ds : Str) (g T today : String)
    (hid : mm.id.data = 'm' :: '-' :: ds) (hds : ds ≠ [])
    (hdig : ∀ c ∈ ds, isDig c = true)
    (htitle : ('\n' : Char) ∉ mm.title.data)
    (htitleR : ('\r' : Char) ∉ mm.title.data)
    (htasks : ∀ t ∈ mm.tasks, t.data ≠ [] ∧ (',' : Char) ∉ t.data ∧
      ('\n' : Char) ∉ t.data ∧ ('\r' : Char) ∉ t.data ∧ trimJs t.data = t.data)
    (h1 : "1" ∉ mm.tasks)
    (hg : extractMilestoneIdFromFilename g = some mm.id)
    (hgs : ('/' : Char) ∉ g.data) :
    Core.updateTask (c2S2 mm g T today) "1" { milestone := some none }
      = .ok (some (c2UpdTask T today), c2S4 mm g T today) := by
  obtain ⟨hrid, hrtitle, hrtasks⟩ := milestone_roundtrip mm ds hid hds hdig htitle htitleR htasks
  have hidne : mm.id ≠ "" := fun he =>
    List.noConfusion (hid.symm.trans (congrArg String.data he))
  have htrim : trimJs ('m' :: '-' :: ds) = 'm' :: '-' :: ds := by
    apply trimJs_eq_self
    intro c hc
    rcases List.mem_cons.mp hc with rfl | hc1
    · rfl
    rcases List.mem_cons.mp hc1 with rfl | hc2
    · rfl
    · exact isDig_not_ws c (hdig c hc2)
  have hkey : milestoneKey (some mm.id) ≠ milestoneKey none := by
    intro he
    have hd := congrArg String.data he
    rw [show (milestoneKey (some mm.id)).data = toLowerJs (trimJs mm.id.data) from rfl,
      show (milestoneKey none).data = [] from rfl, hid, htrim] at hd
    exact List.noConfusion hd
  -- facts about the milestone written by createTask
  have hid2 : (c2MAdd mm).id.data = 'm' :: '-' :: ds := by
    rw [show (c2MAdd mm).id = mm.id from hrid]
    exact hid
  have htitle2 : ('\n' : Char) ∉ (c2MAdd mm).title.data := by
    rw [show (c2MAdd mm).title = String.mk (escapeQuotes mm.title.data) from hrtitle]
    exact escapeQuotes_not_mem '\n' (by decide) (by decide) _ htitle
  have htitle2R : ('\r' : Char) ∉ (c2MAdd mm).title.data := by
    rw [show (c2MAdd mm).title = String.mk (escapeQuotes mm.title.data) from hrtitle]
    exact escapeQuotes_not_mem '\r' (by decide) (by decide) _ htitleR
  have htasksAdd : (c2MAdd mm).tasks = mm.tasks ++ ["1"] := by
    rw [show (c2MAdd mm).tasks = (c2M1 mm).tasks ++ ["1"] from rfl,
      show (c2M1 mm).tasks = mm.tasks from hrtasks]
  have htasks2 : ∀ t ∈ (c2MAdd mm).tasks, t.data ≠ [] ∧ (',' : Char) ∉ t.data ∧
      ('\n' : Char) ∉ t.data ∧ ('\r' : Char) ∉ t.data ∧ trimJs t.data = t.data := by
    rw [htasksAdd]
    intro t ht
    rcases List.mem_append.mp ht with ht1 | ht1
    · exact htasks t ht1
    · rcases List.mem_cons.mp ht1 with rfl | ht2
      · exact ⟨by decide, by decide, by decide, by decide, rfl⟩
      · exact absurd ht2 (List.not_mem_nil _)
  obtain ⟨hrid2, hrtitle2, hrtasks2⟩ :=
    milestone_roundtrip (c2MAdd mm) ds hid2 hds hdig htitle2 htitle2R htasks2
  have hg' : extractMilestoneIdFromFilename
      (getMilestoneFilename (c2MAdd mm).id (c2MAdd mm).title) = some (c2MAdd mm).id :=
    extract_getMilestoneFilename _ _ ds hid2 hds hdig
  have hgs' : ('/' : Char) ∉ (getMilestoneFilename (c2MAdd mm).id (c2MAdd mm).title).data :=
    slash_not_mem_msFilename _ _ ds hid2 hdig
  have hAB' : ∀ e ∈ ([("/r/backlog/config.yml", c2Cfg)] ++
      [(c2TaskPath T, serializeTaskMarkdown (c2UpdTask T today))]),
      childName "/r/backlog/milestones" e.1 = none := by
    intro e he
    rcases List.mem_cons.mp he with rfl | he2
    · exact childName_ms_config
    rcases List.mem_cons.mp he2 with rfl | he3
    · exact childName_ms_taskPath _
    · exact absurd he3 (List.not_mem_nil _)
  have hdirs' : ∀ p ∈ (c2SU mm g T today).fs.dirs,
      childName "/r/backlog/milestones" p = none := by
    intro p hp
    rcases List.mem_cons.mp hp with rfl | hp2
    · exact childName_ms_tasksDirStr
    · exact absurd hp2 (List.not_mem_nil _)
  have hload2 : Core.loadMilestone (c2SU mm g T today) mm.id = some (c2M2 mm) := by
    have h := loadMilestone_shape (c2SU mm g T today) (c2MAdd mm)
      (getMilestoneFilename (c2MAdd mm).id (c2MAdd mm).title)
      [("/r/backlog/config.yml", c2Cfg)]
      [(c2TaskPath T, serializeTaskMarkdown (c2UpdTask T today))]
      rfl rfl hAB' hdirs' hg' hgs'
    rw [show (c2MAdd mm).id = mm.id from hrid] at h
    exact h
  have hmem1 : "1" ∈ (c2M2 mm).tasks := by
    rw [show (c2M2 mm).tasks = (c2MAdd mm).tasks from hrtasks2, htasksAdd]
    exact List.mem_append.mpr (Or.inr (List.mem_cons_self _ _))
  have hg'' : extractMilestoneIdFromFilename
      (getMilestoneFilename (c2MAdd mm).id (c2MAdd mm).title)
      = some ({ c2M2 mm with
          tasks := (c2M2 mm).tasks.filter (fun id => decide (id ≠ "1")) } : Milestone).id := by
    rw [show ({ c2M2 mm with
        tasks := (c2M2 mm).tasks.filter (fun id => decide (id ≠ "1")) } : Milestone).id
      = (c2MAdd mm).id from hrid2]
    exact hg'
  have hid3 : ({ c2M2 mm with
      tasks := (c2M2 mm).tasks.filter (fun id => decide (id ≠ "1")) } : Milestone).id.data
      = 'm' :: '-' :: ds := by
    rw [show ({ c2M2 mm with
        tasks := (c2M2 mm).tasks.filter (fun id => decide (id ≠ "1")) } : Milestone).id
      = (c2MAdd mm).id from hrid2]
    exact hid2
  have hfns'' : ('/' : Char) ∉ (getMilestoneFilename
      ({ c2M2 mm with
        tasks := (c2M2 mm).tasks.filter (fun id => decide (id ≠ "1")) } : Milestone).id
      ({ c2M2 mm with
        tasks := (c2M2 mm).tasks.filter (fun id => decide (id ≠ "1")) } : Milestone).title).data :=
    slash_not_mem_msFilename _ _ ds hid3 hdig
  have hwrite2 := writeMilestoneFile_shape (c2SU mm g T today)
    { c2M2 mm with tasks := (c2M2 mm).tasks.filter (fun id => decide (id ≠ "1")) }
    (getMilestoneFilename (c2MAdd mm).id (c2MAdd mm).title)
    (serializeMilestoneMarkdown (c2MAdd mm))
    [("/r/backlog/config.yml", c2Cfg)]
    [(c2TaskPath T, serializeTaskMarkdown (c2UpdTask T today))]
    rfl rfl hAB' hdirs' hg'' hgs' hfns''
  have hremove : Core.removeTaskFromMilestone (c2SU mm g T today) "1" mm.id
      = c2S4 mm g T today := by
    simp only [Core.removeTaskFromMilestone, hload2]
    rw [if_neg (show ¬ ("1" ∉ (c2M2 mm).tasks) from fun hc => hc hmem1), hwrite2]
    rfl
  have hsync : Core.milestoneSyncPhase (c2SU mm g T today) "1" (some mm.id) none
      = Core.removeTaskFromMilestone (c2SU mm g T today) "1" mm.id := by
    unfold Core.milestoneSyncPhase
    rw [if_pos hkey]
    simp only [Core.milestoneRemovePhase]
    rw [if_neg hidne]
  have hdelf : (c2S2 mm g T today).fs.deleteFile (c2TaskPath T)
      = FS.mk (("/r/backlog/config.yml", c2Cfg) ::
          [(msPath (getMilestoneFilename (c2MAdd mm).id (c2MAdd mm).title),
            serializeMilestoneMarkdown (c2MAdd mm))]) ["/r/backlog/tasks"] := by
    show FS.deleteFile (FS.mk (("/r/backlog/config.yml", c2Cfg) ::
        (c2TaskPath T, serializeTaskMarkdown (c2NewTask mm.id T today)) ::
        [(msPath (getMilestoneFilename (c2MAdd mm).id (c2MAdd mm).title),
          serializeMilestoneMarkdown (c2MAdd mm))]) ["/r/backlog/tasks"]) (c2TaskPath T) = _
    unfold FS.deleteFile
    simp only [List.filter_cons,
      decide_eq_true (show ("/r/backlog/config.yml", c2Cfg).1 ≠ c2TaskPath T from
        config_ne_taskPath _),
      decide_eq_false (show ¬ ((c2TaskPath T,
        serializeTaskMarkdown (c2NewTask mm.id T today)).1 ≠ c2TaskPath T) from
        fun hc => hc rfl),
      decide_eq_true (show (msPath (getMilestoneFilename (c2MAdd mm).id (c2MAdd mm).title),
        serializeMilestoneMarkdown (c2MAdd mm)).1 ≠ c2TaskPath T from
        Ne.symm (taskPath_ne_msPath _ _)),
      List.filter_nil, if_true, Bool.false_eq_true, if_false]
  have hset3 : jsMapSet (("/r/backlog/config.yml", c2Cfg) ::
      [(msPath (getMilestoneFilename (c2MAdd mm).id (c2MAdd mm).title),
        serializeMilestoneMarkdown (c2MAdd mm))])
      (c2TaskPath T) (serializeTaskMarkdown (c2UpdTask T today))
      = ("/r/backlog/config.yml", c2Cfg) ::
        (msPath (getMilestoneFilename (c2MAdd mm).id (c2MAdd mm).title),
          serializeMilestoneMarkdown (c2MAdd mm)) ::
        [(c2TaskPath T, serializeTaskMarkdown (c2UpdTask T today))] := by
    rw [jsMapSet_append_of_ne _ _ _ ?hne]
    case hne =>
      intro e he
      rcases List.mem_cons.mp he with rfl | he2
      · exact config_ne_taskPath _
      rcases List.mem_cons.mp he2 with rfl | he3
      · exact Ne.symm (taskPath_ne_msPath _ _)
      · exact absurd he3 (List.not_mem_nil _)
    rfl
  have e0 : Core.updateTask (c2S2 mm g T today) "1" { milestone := some none }
      = .ok (some (c2UpdTask T today),
          Core.milestoneSyncPhase
            { c2S2 mm g T today with
              fs := FS.writeFile
                (if c2TaskPath T = "" then (c2S2 mm g T today).fs
                 else (c2S2 mm g T today).fs.deleteFile (c2TaskPath T))
                (c2TaskPath T) (serializeTaskMarkdown (c2UpdTask T today))
              tasks := [("1", c2UpdTask T today)] }
            "1" (some mm.id) none) := rfl
  rw [e0, if_neg (taskPath_ne_empty T), hdelf]
  rw [show FS.writeFile (FS.mk (("/r/backlog/config.yml", c2Cfg) ::
      [(msPath (getMilestoneFilename (c2MAdd mm).id (c2MAdd mm).title),
        serializeMilestoneMarkdown (c2MAdd mm))]) ["/r/backlog/tasks"])
      (c2TaskPath T) (serializeTaskMarkdown (c2UpdTask T today))
      = FS.mk (("/r/backlog/config.yml", c2Cfg) ::
        (msPath (getMilestoneFilename (c2MAdd mm).id (c2MAdd mm).title),
          serializeMilestoneMarkdown (c2MAdd mm)) ::
        [(c2TaskPath T, serializeTaskMarkdown (c2UpdTask T today))]) ["/r/backlog/tasks"]
      from by
    unfold FS.writeFile
    rw [hset3]]
  rw [show ({ c2S2 mm g T today with
      fs := FS.mk (("/r/backlog/config.yml", c2Cfg) ::
        (msPath (getMilestoneFilename (c2MAdd mm).id (c2MAdd mm).title),
          serializeMilestoneMarkdown (c2MAdd mm)) ::
        [(c2TaskPath T, serializeTaskMarkdown (c2UpdTask T today))]) ["/r/backlog/tasks"]
      tasks := [("1", c2UpdTask T today)] } : CoreState) = c2SU mm g T today from rfl]
  rw [hsync, hremove]

/-- The milestone re-parsed after task `1` was removed again. -/
def c2M3 (mm : Milestone) : Milestone :=
  parseMilestoneMarkdown (serializeMilestoneMarkdown (c2MRem mm))

/-- C2: for every store rooted at `/r` holding only the config and one
well-formed milestone file on disk (milestone id `m-` followed by digits,
line-terminator-free title, well-formed line-terminator-free task references
not containing the fresh id `1`, any filename carrying the milestone id),
after initialization,
`createTask` with that milestone resolves and `loadMilestone` reports the new
task's id appended to the milestone's task list; after a subsequent
`updateTask` of the new task with `milestone: null`, `loadMilestone` reports
the original task list, which no longer contains the new id. -/
theorem c2_create_then_clear_milestone_syncs (mm : Milestone) (ds : Str)
    (g T today : String)
    (hid : mm.id.data = 'm' :: '-' :: ds) (hds : ds ≠ [])
    (hdig : ∀ c ∈ ds, isDig c = true)
    (htitle : ('\n' : Char) ∉ mm.title.data)
    (htitleR : ('\r' : Char) ∉ mm.title.data)
    (htasks : ∀ t ∈ mm.tasks, t.data ≠ [] ∧ (',' : Char) ∉ t.data ∧
      ('\n' : Char) ∉ t.data ∧ ('\r' : Char) ∉ t.data ∧ trimJs t.data = t.data)
    (h1 : "1" ∉ mm.tasks)
    (hg : extractMilestoneIdFromFilename g = some mm.id)
    (hgs : ('/' : Char) ∉ g.data) :
    ∃ s₁ t s₂ u s₃,
      Core.initializeStore (c2Store g (serializeMilestoneMarkdown mm) today) = .ok s₁ ∧
      Core.createTask s₁ { title := T, milestone := some mm.id } = .ok (t, s₂) ∧
      (∃ mAdd, Core.loadMilestone s₂ mm.id = some mAdd ∧
        mAdd.tasks = mm.tasks ++ [t.id] ∧ t.id ∈ mAdd.tasks) ∧
      Core.updateTask s₂ t.id { milestone := some none } = .ok (some u, s₃) ∧
      (∃ mRem, Core.loadMilestone s₃ mm.id = some mRem ∧
        mRem.tasks = mm.tasks ∧ t.id ∉ mRem.tasks) := by
  obtain ⟨hrid, hrtitle, hrtasks⟩ := milestone_roundtrip mm ds hid hds hdig htitle htitleR htasks
  have hid2 : (c2MAdd mm).id.data = 'm' :: '-' :: ds := by
    rw [show (c2MAdd mm).id = mm.id from hrid]
    exact hid
  have htitle2 : ('\n' : Char) ∉ (c2MAdd mm).title.data := by
    rw [show (c2MAdd mm).title = String.mk (escapeQuotes mm.title.data) from hrtitle]
    exact escapeQuotes_not_mem '\n' (by decide) (by decide) _ htitle
  have htitle2R : ('\r' : Char) ∉ (c2MAdd mm).title.data := by
    rw [show (c2MAdd mm).title = String.mk (escapeQuotes mm.title.data) from hrtitle]
    exact escapeQuotes_not_mem '\r' (by decide) (by decide) _ htitleR
  have htasksAdd : (c2MAdd mm).tasks = mm.tasks ++ ["1"] := by
    rw [show (c2MAdd mm).tasks = (c2M1 mm).tasks ++ ["1"] from rfl,
      show (c2M1 mm).tasks = mm.tasks from hrtasks]
  have htasks2 : ∀ t ∈ (c2MAdd mm).tasks, t.data ≠ [] ∧ (',' : Char) ∉ t.data ∧
      ('\n' : Char) ∉ t.data ∧ ('\r' : Char) ∉ t.data ∧ trimJs t.data = t.data := by
    rw [htasksAdd]
    intro t ht
    rcases List.mem_append.mp ht with ht1 | ht1
    · exact htasks t ht1
    · rcases List.mem_cons.mp ht1 with rfl | ht2
      · exact ⟨by decide, by decide, by decide, by decide, rfl⟩
      · exact absurd ht2 (List.not_mem_nil _)
  obtain ⟨hrid2, hrtitle2, hrtasks2⟩ :=
    milestone_roundtrip (c2MAdd mm) ds hid2 hds hdig htitle2 htitle2R htasks2
  have hg' : extractMilestoneIdFromFilename
      (getMilestoneFilename (c2MAdd mm).id (c2MAdd mm).title) = some (c2MAdd mm).id :=
    extract_getMilestoneFilename _ _ ds hid2 hds hdig
  have hgs' : ('/' : Char) ∉ (getMilestoneFilename (c2MAdd mm).id (c2MAdd mm).title).data :=
    slash_not_mem_msFilename _ _ ds hid2 hdig
  -- loadMilestone after createTask
  have hABa : ∀ e ∈ ([("/r/backlog/config.yml", c2Cfg),
      (c2TaskPath T, serializeTaskMarkdown (c2NewTask mm.id T today))] ++
      ([] : List (String × String))),
      childName "/r/backlog/milestones" e.1 = none := by
    intro e he
    rcases List.mem_cons.mp he with rfl | he2
    · exact childName_ms_config
    rcases List.mem_cons.mp he2 with rfl | he3
    · exact childName_ms_taskPath _
    · exact absurd he3 (List.not_mem_nil _)
  have hdirsa : ∀ p ∈ (c2S2 mm g T today).fs.dirs,
      childName "/r/backlog/milestones" p = none := by
    intro p hp
    rcases List.mem_cons.mp hp with rfl | hp2
    · exact childName_ms_tasksDirStr
    · exact absurd hp2 (List.not_mem_nil _)
  have hloadA : Core.loadMilestone (c2S2 mm g T today) mm.id = some (c2M2 mm) := by
    have h := loadMilestone_shape (c2S2 mm g T today) (c2MAdd mm)
      (getMilestoneFilename (c2MAdd mm).id (c2MAdd mm).title)
      [("/r/backlog/config.yml", c2Cfg),
       (c2TaskPath T, serializeTaskMarkdown (c2NewTask mm.id T today))]
      [] rfl rfl hABa hdirsa hg' hgs'
    rw [show (c2MAdd mm).id = mm.id from hrid] at h
    exact h
  have htasksM2 : (c2M2 mm).tasks = mm.tasks ++ ["1"] := by
    rw [show (c2M2 mm).tasks = (c2MAdd mm).tasks from hrtasks2, htasksAdd]
  -- facts about the milestone written back by updateTask
  have hmmfilter : List.filter (fun id => decide (id ≠ "1")) mm.tasks = mm.tasks :=
    List.filter_eq_self.mpr
      (fun a ha => decide_eq_true (fun he : a = "1" => h1 (he ▸ ha)))
  have hfilter : (c2MRem mm).tasks = mm.tasks := by
    rw [show (c2MRem mm).tasks
        = (c2M2 mm).tasks.filter (fun id => decide (id ≠ "1")) from rfl,
      htasksM2, List.filter_append, hmmfilter,
      show List.filter (fun id => decide (id ≠ "1")) ["1"] = [] from rfl,
      List.append_nil]
  have hidR : (c2MRem mm).id.data = 'm' :: '-' :: ds := by
    rw [show (c2MRem mm).id = (c2MAdd mm).id from hrid2]
    exact hid2
  have htitleRnl : ('\n' : Char) ∉ (c2MRem mm).title.data := by
    rw [show (c2MRem mm).title
        = String.mk (escapeQuotes (c2MAdd mm).title.data) from hrtitle2]
    exact escapeQuotes_not_mem '\n' (by decide) (by decide) _ htitle2
  have htitleRcr : ('\r' : Char) ∉ (c2MRem mm).title.data := by
    rw [show (c2MRem mm).title
        = String.mk (escapeQuotes (c2MAdd mm).title.data) from hrtitle2]
    exact escapeQuotes_not_mem '\r' (by decide) (by decide) _ htitle2R
  have htasksR : ∀ t ∈ (c2MRem mm).tasks, t.data ≠ [] ∧ (',' : Char) ∉ t.data ∧
      ('\n' : Char) ∉ t.data ∧ ('\r' : Char) ∉ t.data ∧ trimJs t.data = t.data := by
    rw [hfilter]
    exact htasks
  obtain ⟨hrid3, hrtitle3, hrtasks3⟩ :=
    milestone_roundtrip (c2MRem mm) ds hidR hds hdig htitleRnl htitleRcr htasksR
  have hg''' : extractMilestoneIdFromFilename
      (getMilestoneFilename (c2MRem mm).id (c2MRem mm).title) = some (c2MRem mm).id :=
    extract_getMilestoneFilename _ _ ds hidR hds hdig
  have hgs''' : ('/' : Char) ∉ (getMilestoneFilename (c2MRem mm).id (c2MRem mm).title).data :=
    slash_not_mem_msFilename _ _ ds hidR hdig
  have hABb : ∀ e ∈ ([("/r/backlog/config.yml", c2Cfg),
      (c2TaskPath T, serializeTaskMarkdown (c2UpdTask T today))] ++
      ([] : List (String × String))),
      childName "/r/backlog/milestones" e.1 = none := by
    intro e he
    rcases List.mem_cons.mp he with rfl | he2
    · exact childName_ms_config
    rcases List.mem_cons.mp he2 with rfl | he3
    · exact childName_ms_taskPath _
    · exact absurd he3 (List.not_mem_nil _)
  have hdirsb : ∀ p ∈ (c2S4 mm g T today).fs.dirs,
      childName "/r/backlog/milestones" p = none := by
    intro p hp
    rcases List.mem_cons.mp hp with rfl | hp2
    · exact childName_ms_tasksDirStr
    · exact absurd hp2 (List.not_mem_nil _)
  have hloadB : Core.loadMilestone (c2S4 mm g T today) mm.id = some (c2M3 mm) := by
    have h := loadMilestone_shape (c2S4 mm g T today) (c2MRem mm)
      (getMilestoneFilename (c2MRem mm).id (c2MRem mm).title)
      [("/r/backlog/config.yml", c2Cfg),
       (c2TaskPath T, serializeTaskMarkdown (c2UpdTask T today))]
      [] rfl rfl hABb hdirsb hg''' hgs'''
    rw [show (c2MRem mm).id = mm.id from
      (show (c2MRem mm).id = (c2MAdd mm).id from hrid2).trans
        (show (c2MAdd mm).id = mm.id from hrid)] at h
    exact h
  have htasksM3 : (c2M3 mm).tasks = mm.tasks := by
    rw [show (c2M3 mm).tasks = (c2MRem mm).tasks from hrtasks3, hfilter]
  refine ⟨c2S1 g (serializeMilestoneMarkdown mm) today, c2NewTask mm.id T today,
    c2S2 mm g T today, c2UpdTask T today, c2S4 mm g T today,
    c2_init g (serializeMilestoneMarkdown mm) today,
    c2_createTask_eq mm ds g T today hid hds hdig htitle htitleR htasks h1 hg hgs,
    ⟨c2M2 mm, hloadA, ?_, ?_⟩,
    c2_updateTask_eq mm ds g T today hid hds hdig htitle htitleR htasks h1 hg hgs,
    ⟨c2M3 mm, hloadB, ?_, ?_⟩⟩
  · exact htasksM2
  · rw [show (c2NewTask mm.id T today).id = "1" from rfl, htasksM2]
    exact List.mem_append.mpr (Or.inr (List.mem_cons_self _ _))
  · exact htasksM3
  · rw [show (c2NewTask mm.id T today).id = "1" from rfl, htasksM3]
    exact h1

/-- C2 witness: a concrete empty milestone `m-0`, task title `A`. -/
theorem c2_create_then_clear_milestone_syncs_witness :
    ∃ s₁ t s₂ u s₃,
      Core.initializeStore (c2Store "m-0 - rel.md"
        (serializeMilestoneMarkdown
          { id := "m-0", title := "Rel", description := "d", rawContent := "",
            tasks := [] }) "2025-01-02") = .ok s₁ ∧
      Core.createTask s₁ { title := "A", milestone := some "m-0" } = .ok (t, s₂) ∧
      (∃ mAdd, Core.loadMilestone s₂ "m-0" = some mAdd ∧
        mAdd.tasks = [] ++ [t.id] ∧ t.id ∈ mAdd.tasks) ∧
      Core.updateTask s₂ t.id { milestone := some none } = .ok (some u, s₃) ∧
      (∃ mRem, Core.loadMilestone s₃ "m-0" = some mRem ∧
        mRem.tasks = [] ∧ t.id ∉ mRem.tasks) :=
  c2_create_then_clear_milestone_syncs
    { id := "m-0", title := "Rel", description := "d", rawContent := "", tasks := [] }
    ['0'] "m-0 - rel.md" "A" "2025-01-02" rfl (by decide) (by decide) (by decide)
    (by decide) (fun t ht => absurd ht (List.not_mem_nil t)) (List.not_mem_nil "1") rfl
    (by decide)

end BacklogCore
